import Mathlib

/-!
Task / user store of the `mp3` API: a shallow embedding of `src/routes`.

The two route files `src/routes/tasks.js` and `src/routes/users.js` are
embedded as pure functions over an explicit store: a handler takes the store
before the request and returns the reply together with the store after it.

Conventions of the embedding.

* A collection is the list of its documents; `findById`, `findOne`, `find`,
  `create`, `save` and `deleteOne` are the document-store calls the handlers
  make.  Identifiers are opaque strings, compared as strings.
* A request body field is `none` when the field is `undefined`; the JavaScript
  truthiness test on a string field is `truthy`.
* The persistence engine is a parameter `Engine`: its identifier
  well-formedness check (`mongoose.Types.ObjectId.isValid`, also the cast that
  every lookup by `_id` performs, which throws on an ill-formed identifier) and
  the schema check of a task's `deadline` made when a task document is
  validated.
* A thrown exception is caught by the `try`/`catch` of the handler: the reply
  is the failure of the `catch` block and the store is the store at the moment
  of the throw.
* `Promise.all(docs.map(async ...))` over distinct documents is the left fold
  of the same writes in array order.
-/

namespace MP3

/-! ## Data model -/

/-- Task document (`models/task`), with the fields the routes read and write. -/
structure Task where
  id : String
  name : String
  description : String
  deadline : String
  completed : Bool
  assignedUser : String
  assignedUserName : String
  deriving DecidableEq, Repr

/-- User document (`models/user`), with the fields the routes read and write. -/
structure User where
  id : String
  name : String
  email : String
  pendingTasks : List String
  deriving DecidableEq, Repr

/-- Both collections of the document store. -/
structure Store where
  tasks : List Task
  users : List User
  deriving DecidableEq, Repr

/-- Persistence engine: identifier well-formedness and the schema check of a
task deadline. -/
structure Engine where
  isValid : String → Bool
  validDeadline : String → Bool

/-- Reply of a handler: `ok(res, data, message, code)` or
`fail(res, message, code)`. -/
inductive Reply where
  | ok (message : String) (code : Nat)
  | fail (message : String) (code : Nat)
  deriving DecidableEq, Repr

/-- Whether the reply was produced by `ok`. -/
def Reply.isOk : Reply → Bool
  | .ok _ _ => true
  | .fail _ _ => false

/-- Status code of a reply. -/
def Reply.code : Reply → Nat
  | .ok _ c => c
  | .fail _ c => c

/-- Body of a task request. -/
structure TaskBody where
  name : Option String
  description : Option String
  deadline : Option String
  completed : Option Bool
  assignedUser : Option String
  assignedUserName : Option String
  deriving DecidableEq, Repr

/-- Body of a user request. -/
structure UserBody where
  name : Option String
  email : Option String
  pendingTasks : Option (List String)
  deriving DecidableEq, Repr

/-- JavaScript truthiness of an optional string: `undefined` and `''` are
falsy. -/
def truthy : Option String → Bool
  | none => false
  | some x => decide (x ≠ "")

/-! ## Document-store calls -/

/-- `User.findById(id)`: the user document with this identifier. -/
def User.findById (s : Store) (id : String) : Option User :=
  s.users.find? (fun u => decide (u.id = id))

/-- `Task.findById(id)`: the task document with this identifier. -/
def Task.findById (s : Store) (id : String) : Option Task :=
  s.tasks.find? (fun t => decide (t.id = id))

/-- `User.findOne(\x7b email \x7d)`: a user document with this email. -/
def User.findOne (s : Store) (email : String) : Option User :=
  s.users.find? (fun u => decide (u.email = email))

/-- `Task.find(\x7b _id: \x7b $in: ids \x7d \x7d)`: the task documents whose
identifier is listed. -/
def Task.find (s : Store) (ids : List String) : List Task :=
  s.tasks.filter (fun t => decide (t.id ∈ ids))

/-- `user.save()`: write the document over the stored one with its identifier. -/
def User.save (s : Store) (u : User) : Store :=
  { s with users := s.users.map (fun x => if x.id = u.id then u else x) }

/-- `task.save()`: write the document over the stored one with its identifier. -/
def Task.save (s : Store) (t : Task) : Store :=
  { s with tasks := s.tasks.map (fun x => if x.id = t.id then t else x) }

/-- `User.create(doc)`: add a new document to the collection. -/
def User.create (s : Store) (u : User) : Store :=
  { s with users := s.users ++ [u] }

/-- `Task.create(doc)`: add a new document to the collection. -/
def Task.create (s : Store) (t : Task) : Store :=
  { s with tasks := s.tasks ++ [t] }

/-- `user.deleteOne()`: remove the document with this identifier. -/
def User.deleteOne (s : Store) (u : User) : Store :=
  { s with users := s.users.filter (fun x => decide (x.id ≠ u.id)) }

/-- `task.deleteOne()`: remove the document with this identifier. -/
def Task.deleteOne (s : Store) (t : Task) : Store :=
  { s with tasks := s.tasks.filter (fun x => decide (x.id ≠ t.id)) }

/-- `new Set(xs)` read back with `Array.from`: the elements in order of first
occurrence. -/
def newSet (xs : List String) : List String :=
  xs.foldl (fun acc x => if x ∈ acc then acc else acc ++ [x]) []

/-! ## `src/routes/tasks.js` -/

/-- Result of `syncUserPending`: it returns with the mutated task, or an
inner lookup throws; either way the store carries the writes made so far. -/
inductive SyncResult where
  | done (s : Store) (task : Task)
  | thrown (s : Store)
  deriving DecidableEq, Repr

/-- Lines 39-47 of `syncUserPending`: when the previous assignee is set and
differs from the new one, the task's identifier is filtered out of the previous
assignee's pending list.  `none` when the lookup throws. -/
def detachPrev (E : Engine) (s : Store) (task : Task) (prevAssignedUserId : Option String) :
    Option Store :=
  let newUserId := task.assignedUser
  if truthy prevAssignedUserId = true ∧ prevAssignedUserId ≠ some newUserId then
    if E.isValid (prevAssignedUserId.getD "") = true then
      match User.findById s (prevAssignedUserId.getD "") with
      | some prevUser =>
        some (User.save s { prevUser with
          pendingTasks := prevUser.pendingTasks.filter (fun tid => decide (tid ≠ task.id)) })
      | none => some s
    else none
  else some s

/-- Lines 49-69 of `syncUserPending`: the task's identifier is pushed onto the
new assignee's pending list when the task is pending and not listed, filtered
out when it is not pending and listed; the task takes the assignee's name, or
is forced to unassigned when the assignee does not exist. -/
def attachNew (E : Engine) (s1 : Store) (task : Task) : SyncResult :=
  let isPending := decide (task.completed = false)
  let newUserId := task.assignedUser
  if newUserId ≠ "" then
    if E.isValid newUserId = true then
      match User.findById s1 newUserId with
      | some user =>
        let tid := task.id
        let has := decide (tid ∈ user.pendingTasks)
        let user1 : User :=
          if isPending = true ∧ has = false then
            { user with pendingTasks := user.pendingTasks ++ [tid] }
          else user
        let s2 := if isPending = true ∧ has = false then User.save s1 user1 else s1
        let user2 : User :=
          if isPending = false ∧ has = true then
            { user1 with pendingTasks := user1.pendingTasks.filter (fun x => decide (x ≠ tid)) }
          else user1
        let s3 := if isPending = false ∧ has = true then User.save s2 user2 else s2
        .done s3 { task with assignedUserName := user2.name }
      | none => .done s1 { task with assignedUser := "", assignedUserName := "unassigned" }
    else .thrown s1
  else .done s1 { task with assignedUserName := "unassigned" }

/-- `syncUserPending(task, prevAssignedUserId)` of `tasks.js`, lines 35-70:
detach from the previous assignee, then attach to the new one. -/
def syncUserPending (E : Engine) (s : Store) (task : Task)
    (prevAssignedUserId : Option String) : SyncResult :=
  match detachPrev E s task prevAssignedUserId with
  | none => .thrown s
  | some s1 => attachNew E s1 task

/-- The assignee block shared by both task handlers (`tasks.js` lines 113-134
and 179-201): for a non-empty `assignedUser` the identifier must be well-formed
and name a user, and a submitted `assignedUserName` must equal that user's
name; the result is the name to store, or the failure reply. -/
def resolveAssignee (E : Engine) (s : Store) (assignedUser : String)
    (bodyName : Option String) : Except Reply String :=
  if assignedUser ≠ "" then
    if E.isValid assignedUser = false then .error (.fail "Invalid user ID" 400)
    else
      match User.findById s assignedUser with
      | none => .error (.fail "Assigned user does not exist" 404)
      | some user =>
        match bodyName with
        | some n =>
          if n ≠ user.name then .error (.fail "Assigned user name does not match the user" 400)
          else .ok n
        | none => .ok user.name
  else
    match bodyName with
    | some n => if n ≠ "unassigned" then .ok n else .ok "unassigned"
    | none => .ok "unassigned"

/-- Handler `router.post('/')` of `tasks.js`, lines 103-153.  `newId` is the
identifier the store assigns to the created document. -/
def tasksPost (E : Engine) (s : Store) (newId : String) (body : TaskBody) : Reply × Store :=
  if truthy body.name = false ∨ truthy body.deadline = false then
    (.fail "Task name and deadline are required" 400, s)
  else
    let name := body.name.getD ""
    let deadline := body.deadline.getD ""
    let assignedUser := body.assignedUser.getD ""
    -- lines 113-134: resolve the assignee and the denormalised name
    match resolveAssignee E s assignedUser body.assignedUserName with
    | .error r => (r, s)
    | .ok assignedUserName =>
      -- line 136: `Task.create` validates the document against the schema
      if E.validDeadline deadline = false then
        (.fail "Task validation failed" 400, s)
      else
        let task : Task :=
          { id := newId
            name := name
            description := body.description.getD ""
            deadline := deadline
            completed := decide (body.completed = some true)
            assignedUser := assignedUser
            assignedUserName := assignedUserName }
        let s1 := Task.create s task
        match syncUserPending E s1 task none with
        | .thrown s2 => (.fail "Failed to create task" 400, s2)
        | .done s2 task1 => (.ok "Created" 201, Task.save s2 task1)

/-- Handler `router.put('/:id')` of `tasks.js`, lines 155-219. -/
def tasksPut (E : Engine) (s : Store) (id : String) (body : TaskBody) : Reply × Store :=
  if E.isValid id = false then (.fail "Task Invalid" 400, s)
  else if truthy body.name = false ∨ truthy body.deadline = false then
    (.fail "Task name and deadline are required" 400, s)
  else
    let name := body.name.getD ""
    let deadline := body.deadline.getD ""
    match Task.findById s id with
    | none => (.fail "Task not found" 404, s)
    | some task =>
      if task.completed = true then (.fail "Cannot modify a completed task" 400, s)
      else
        let assignedUser := body.assignedUser.getD task.assignedUser
        -- lines 179-201: resolve the assignee and the denormalised name
        match resolveAssignee E s assignedUser body.assignedUserName with
        | .error r => (r, s)
        | .ok assignedUserName =>
          let prevAssigned := task.assignedUser
          let task1 : Task :=
            { task with
              name := name
              description := body.description.getD ""
              deadline := deadline
              completed := body.completed.getD task.completed
              assignedUser := assignedUser
              assignedUserName := assignedUserName }
          match syncUserPending E s task1 (some prevAssigned) with
          | .thrown s1 => (.fail "Failed to update task" 400, s1)
          | .done s1 task2 =>
            -- line 213: `task.save()` validates the document against the schema
            if E.validDeadline deadline = false then (.fail "Failed to update task" 400, s1)
            else (.ok "OK" 200, Task.save s1 task2)

/-- Handler `router.delete('/:id')` of `tasks.js`, lines 221-246. -/
def tasksDelete (E : Engine) (s : Store) (id : String) : Reply × Store :=
  if E.isValid id = false then (.fail "Task Invalid" 400, s)
  else
    match Task.findById s id with
    | none => (.fail "Task not found" 404, s)
    | some task =>
      let prevAssigned := task.assignedUser
      if prevAssigned ≠ "" then
        if E.isValid prevAssigned = false then (.fail "Failed to delete task" 500, s)
        else
          match User.findById s prevAssigned with
          | some user =>
            let s1 := User.save s { user with
              pendingTasks := user.pendingTasks.filter (fun tid => decide (tid ≠ task.id)) }
            (.ok "Deleted" 204, Task.deleteOne s1 task)
          | none => (.ok "Deleted" 204, Task.deleteOne s task)
      else (.ok "Deleted" 204, Task.deleteOne s task)

/-! ## `src/routes/users.js` -/

/-- Validation of a submitted `pendingTasks` list, `users.js` lines 80-91 and
131-142: `none` when it passes, otherwise the failure reply. -/
def checkPending (E : Engine) (s : Store) (pendingTasks : List String) (thrownMsg : String) :
    Option Reply :=
  if pendingTasks.length ≠ 0 then
    -- the `$in` filter casts every listed identifier
    if pendingTasks.any (fun x => E.isValid x = false) = true then some (.fail thrownMsg 400)
    else
      let tasks := Task.find s pendingTasks
      if tasks.length ≠ pendingTasks.length then
        some (.fail "One or more task IDs do not exist" 400)
      else if tasks.any (fun t => decide (t.completed = true)) = true then
        some (.fail "Cannot add completed tasks to pending tasks" 400)
      else none
  else none

/-- The writes of `users.js` lines 97-101 and 166-170: every fetched task is
assigned to the user and saved. -/
def assignAll (s : Store) (tasks : List Task) (userId userName : String) : Store :=
  tasks.foldl (fun st t =>
    Task.save st { t with assignedUser := userId, assignedUserName := userName }) s

/-- The writes of `users.js` lines 156-162 and 190-196: every fetched task
still assigned to the user is unassigned and saved. -/
def unassignAll (s : Store) (tasks : List Task) (id : String) : Store :=
  tasks.foldl (fun st t =>
    if t.assignedUser = id then
      Task.save st { t with assignedUser := "", assignedUserName := "unassigned" }
    else st) s

/-- Handler `router.post('/')` of `users.js`, lines 68-108.  `newId` is the
identifier the store assigns to the created document. -/
def usersPost (E : Engine) (s : Store) (newId : String) (body : UserBody) : Reply × Store :=
  let pendingTasks := body.pendingTasks.getD []
  if truthy body.name = false ∨ truthy body.email = false then
    (.fail "Name and email are required" 400, s)
  else
    let name := body.name.getD ""
    let email := body.email.getD ""
    if (User.findOne s email).isSome = true then (.fail "Email already exists" 400, s)
    else
      match checkPending E s pendingTasks "Failed to create user" with
      | some r => (r, s)
      | none =>
        let user : User := { id := newId, name := name, email := email, pendingTasks := pendingTasks }
        let s1 := User.create s user
        if pendingTasks.length ≠ 0 then
          (.ok "Created" 201, assignAll s1 (Task.find s1 pendingTasks) user.id user.name)
        else (.ok "Created" 201, s1)

/-- Handler `router.put('/:id')` of `users.js`, lines 110-177. -/
def usersPut (E : Engine) (s : Store) (id : String) (body : UserBody) : Reply × Store :=
  if E.isValid id = false then (.fail "User not found" 404, s)
  else
    let pendingTasks := body.pendingTasks.getD []
    if truthy body.name = false ∨ truthy body.email = false then
      (.fail "Name and email are required" 400, s)
    else
      let name := body.name.getD ""
      let email := body.email.getD ""
      match User.findById s id with
      | none => (.fail "User not found" 404, s)
      | some user =>
        if email ≠ user.email ∧ (User.findOne s email).isSome = true then
          (.fail "Email already exists" 400, s)
        else
          match checkPending E s pendingTasks "Failed to update user" with
          | some r => (r, s)
          | none =>
            let prevSet := newSet user.pendingTasks
            let nextSet := newSet pendingTasks
            let toAdd := nextSet.filter (fun x => decide (x ∉ prevSet))
            let toRemove := prevSet.filter (fun x => decide (x ∉ nextSet))
            let user1 : User :=
              { user with name := name, email := email, pendingTasks := nextSet }
            let s1 := User.save s user1
            if toRemove.length ≠ 0 ∧ toRemove.any (fun x => E.isValid x = false) = true then
              -- the `$in` filter of line 155 casts every listed identifier
              (.fail "Failed to update user" 400, s1)
            else
              let s2 :=
                if toRemove.length ≠ 0 then unassignAll s1 (Task.find s1 toRemove) id else s1
              let s3 :=
                if toAdd.length ≠ 0 then assignAll s2 (Task.find s2 toAdd) id user1.name else s2
              (.ok "OK" 200, s3)

/-- Handler `router.delete('/:id')` of `users.js`, lines 179-204. -/
def usersDelete (E : Engine) (s : Store) (id : String) : Reply × Store :=
  if E.isValid id = false then (.fail "User not found" 404, s)
  else
    match User.findById s id with
    | none => (.fail "User not found" 404, s)
    | some user =>
      if user.pendingTasks.length ≠ 0 then
        -- the `$in` filter of line 189 casts every listed identifier
        if user.pendingTasks.any (fun x => E.isValid x = false) = true then
          (.fail "Failed to delete user" 500, s)
        else
          let s1 := unassignAll s (Task.find s user.pendingTasks) id
          (.ok "Deleted" 204, User.deleteOne s1 user)
      else (.ok "Deleted" 204, User.deleteOne s user)

/-! ## Store predicates -/

/-- Identifiers are unique within each collection (they are assigned by the
store). -/
def Store.UniqueIds (s : Store) : Prop :=
  (s.tasks.map Task.id).Nodup ∧ (s.users.map User.id).Nodup

/-- Bidirectional consistency invariant of the data model: an incomplete task
assigned to a user is in that user's pending list; every pending entry names an
existing incomplete task assigned to that user; completed and unassigned tasks
are in no pending list; an unassigned task carries the name `unassigned`. -/
def Store.Consistent (s : Store) : Prop :=
  (∀ t ∈ s.tasks, ∀ u ∈ s.users,
      t.completed = false → t.assignedUser = u.id → t.id ∈ u.pendingTasks) ∧
  (∀ u ∈ s.users, ∀ x ∈ u.pendingTasks,
      ∃ t ∈ s.tasks, t.id = x ∧ t.assignedUser = u.id ∧ t.completed = false) ∧
  (∀ t ∈ s.tasks, t.completed = true → ∀ u ∈ s.users, t.id ∉ u.pendingTasks) ∧
  (∀ t ∈ s.tasks, t.assignedUser = "" →
      (∀ u ∈ s.users, t.id ∉ u.pendingTasks) ∧ t.assignedUserName = "unassigned")

/-- Every incomplete task assigned to an existing user is in that user's
pending list and in no other user's. -/
def Store.PendingAgrees (s : Store) : Prop :=
  ∀ t ∈ s.tasks, t.completed = false → t.assignedUser ≠ "" →
    ∀ u ∈ s.users, u.id = t.assignedUser →
      t.id ∈ u.pendingTasks ∧ ∀ v ∈ s.users, v.id ≠ u.id → t.id ∉ v.pendingTasks

/-- No completed task is listed in any user's pending list. -/
def Store.NoCompletedPending (s : Store) : Prop :=
  ∀ t ∈ s.tasks, t.completed = true → ∀ u ∈ s.users, t.id ∉ u.pendingTasks

instance (s : Store) : Decidable s.UniqueIds := by
  unfold Store.UniqueIds; infer_instance

instance (s : Store) : Decidable s.Consistent := by
  unfold Store.Consistent; infer_instance

instance (s : Store) : Decidable s.PendingAgrees := by
  unfold Store.PendingAgrees; infer_instance

instance (s : Store) : Decidable s.NoCompletedPending := by
  unfold Store.NoCompletedPending; infer_instance

/-- The store before any request. -/
def Store.empty : Store := { tasks := [], users := [] }

/-- An identifier the store may assign to a new document: well-formed and used
by no document yet. -/
def Store.Fresh (E : Engine) (s : Store) (newId : String) : Prop :=
  E.isValid newId = true ∧ newId ∉ s.tasks.map Task.id ∧ newId ∉ s.users.map User.id

/-- Store states reachable from the empty store by task and user create,
update and delete requests. -/
inductive Reachable (E : Engine) : Store → Prop where
  | start : Reachable E Store.empty
  | taskCreate {s : Store} (newId : String) (body : TaskBody) :
      Reachable E s → s.Fresh E newId → Reachable E (tasksPost E s newId body).2
  | taskUpdate {s : Store} (id : String) (body : TaskBody) :
      Reachable E s → Reachable E (tasksPut E s id body).2
  | taskDelete {s : Store} (id : String) :
      Reachable E s → Reachable E (tasksDelete E s id).2
  | userCreate {s : Store} (newId : String) (body : UserBody) :
      Reachable E s → s.Fresh E newId → Reachable E (usersPost E s newId body).2
  | userUpdate {s : Store} (id : String) (body : UserBody) :
      Reachable E s → Reachable E (usersPut E s id body).2
  | userDelete {s : Store} (id : String) :
      Reachable E s → Reachable E (usersDelete E s id).2

/-! ## A concrete engine and concrete requests -/

/-- Hexadecimal digit. -/
def isHex (c : Char) : Bool :=
  c.isDigit || (decide ('a' ≤ c) && decide (c ≤ 'f')) || (decide ('A' ≤ c) && decide (c ≤ 'F'))

/-- Engine whose identifiers are the strings of 24 hexadecimal digits and whose
deadlines are the non-empty strings of digits. -/
def objectIdEngine : Engine :=
  { isValid := fun x => decide (x.data.length = 24) && x.data.all isHex
    validDeadline := fun d => decide (d ≠ "") && d.data.all Char.isDigit }

/-- Identifier of the user `ann`. -/
def annId : String := "0000000000000000000000a1"

/-- Identifier of the user `bob`. -/
def bobId : String := "0000000000000000000000a2"

/-- Identifier of the task `report`. -/
def reportId : String := "0000000000000000000000b1"

/-- Identifier of the task `slides`. -/
def slidesId : String := "0000000000000000000000b2"

/-- Task `report`, incomplete and assigned to `ann`. -/
def report : Task :=
  { id := reportId, name := "report", description := "", deadline := "1767225600000",
    completed := false, assignedUser := annId, assignedUserName := "ann" }

/-- User `ann` with `report` pending. -/
def ann : User := { id := annId, name := "ann", email := "ann@example.org", pendingTasks := [reportId] }

/-- User `bob` with nothing pending. -/
def bob : User := { id := bobId, name := "bob", email := "bob@example.org", pendingTasks := [] }

/-- Consistent store: `report` is pending for `ann`. -/
def annStore : Store := { tasks := [report], users := [ann] }

/-- Consistent store: `report` is pending for `ann`, `bob` has nothing. -/
def annBobStore : Store := { tasks := [report], users := [ann, bob] }

/-- Request creating `bob` with `report` in his pending list. -/
def bobTakesReport : UserBody :=
  { name := some "bob", email := some "bob@example.org", pendingTasks := some [reportId] }

/-- The store after `bob` is created with `report` pending, from `annStore`. -/
def stolenStore : Store := (usersPost objectIdEngine annStore bobId bobTakesReport).2

/-- Request completing `report` and changing nothing else. -/
def completeReport : TaskBody :=
  { name := some "report", description := none, deadline := some "1767225600000",
    completed := some true, assignedUser := none, assignedUserName := none }

/-- Request creating `ann` with nothing pending. -/
def createAnn : UserBody :=
  { name := some "ann", email := some "ann@example.org", pendingTasks := none }

/-- Request creating `report` assigned to `ann`. -/
def createReport : TaskBody :=
  { name := some "report", description := none, deadline := some "1767225600000",
    completed := none, assignedUser := some annId, assignedUserName := none }

/-- First store of the trace: `ann` is created. -/
def trace1 : Store := (usersPost objectIdEngine Store.empty annId createAnn).2

/-- Second store of the trace: `report` is created for `ann`. -/
def trace2 : Store := (tasksPost objectIdEngine trace1 reportId createReport).2

/-- Third store of the trace: `bob` is created with `report` pending. -/
def trace3 : Store := (usersPost objectIdEngine trace2 bobId bobTakesReport).2

/-- Fourth store of the trace: `report` is completed. -/
def trace4 : Store := (tasksPut objectIdEngine trace3 reportId completeReport).2

/-- Task `slides`, completed and unassigned. -/
def slides : Task :=
  { id := slidesId, name := "slides", description := "", deadline := "1767225600000",
    completed := true, assignedUser := "", assignedUserName := "unassigned" }

/-- Store with the incomplete `report` of `ann` and the completed `slides`. -/
def slidesStore : Store := { tasks := [report, slides], users := [ann] }

/-- Request creating `bob` with the completed `slides` in his pending list. -/
def bobTakesSlides : UserBody :=
  { name := some "bob", email := some "bob@example.org", pendingTasks := some [slidesId] }

/-- Identifier that is well-formed and names no user of the example stores. -/
def nobodyId : String := "0000000000000000000000c9"

/-- Request creating a task assigned to a user that does not exist. -/
def createForNobody : TaskBody :=
  { name := some "minutes", description := none, deadline := some "1767225600000",
    completed := none, assignedUser := some nobodyId, assignedUserName := none }

/-- Task `slides`, completed and still naming `ann` as assignee. -/
def doneSlides : Task := { slides with assignedUser := annId, assignedUserName := "ann" }

/-- Store in which the completed `slides` still names `ann` as assignee. -/
def doneStore : Store := { tasks := [doneSlides], users := [{ ann with pendingTasks := [] }] }

/-- Task `report` once it is assigned to `bob`. -/
def reportOfBob : Task := { report with assignedUser := bobId, assignedUserName := "bob" }

/-- Request reassigning `report` to `bob`. -/
def reassignReport : TaskBody :=
  { name := some "report", description := none, deadline := some "1767225600000",
    completed := none, assignedUser := some bobId, assignedUserName := some "bob" }

/-- Task `minutes`, incomplete, listed by `ann` but assigned to `bob`. -/
def minutes : Task :=
  { id := slidesId, name := "minutes", description := "", deadline := "1767225600000",
    completed := false, assignedUser := bobId, assignedUserName := "bob" }

/-- Store in which `ann` lists `report`, assigned to her, and `minutes`,
assigned to `bob`. -/
def sharedStore : Store :=
  { tasks := [report, minutes],
    users := [{ ann with pendingTasks := [reportId, slidesId] }, bob] }

/-- Request updating `ann`: renamed, `report` dropped from and `minutes` added
to her pending list. -/
def annSwaps : UserBody :=
  { name := some "anna", email := some "ann@example.org", pendingTasks := some [slidesId] }

/-- Store in which `ann` has `report` pending and `bob` has `minutes`. -/
def twoTaskStore : Store :=
  { tasks := [report, minutes], users := [ann, { bob with pendingTasks := [slidesId] }] }

/-- The store of the result of `syncUserPending`. -/
def SyncResult.store : SyncResult → Store
  | .done s _ => s
  | .thrown s => s

/-- The identifiers a task document carries are well-formed: its own, and its
assignee reference unless empty. -/
def Task.IdsOk (E : Engine) (t : Task) : Prop :=
  E.isValid t.id = true ∧ (t.assignedUser = "" ∨ E.isValid t.assignedUser = true)

/-- The identifiers a user document carries are well-formed: its own and every
pending entry. -/
def User.IdsOk (E : Engine) (u : User) : Prop :=
  E.isValid u.id = true ∧ ∀ x ∈ u.pendingTasks, E.isValid x = true

/-- Every identifier stored anywhere is well-formed. -/
def Store.IdsOk (E : Engine) (s : Store) : Prop :=
  (∀ t ∈ s.tasks, t.IdsOk E) ∧ (∀ u ∈ s.users, u.IdsOk E)

/-- Request creating or updating `minutes` unassigned while submitting the
assignee name `carol`. -/
def unassignedAsCarol : TaskBody :=
  { name := some "minutes", description := none, deadline := some "1767225600000",
    completed := none, assignedUser := some "", assignedUserName := some "carol" }

/-- No two user documents share an email. -/
def Store.UniqueEmails (s : Store) : Prop :=
  (s.users.map User.email).Nodup

instance (s : Store) : Decidable s.UniqueEmails := by
  unfold Store.UniqueEmails; infer_instance

/-- Request creating a user `cara` with the email of `ann`. -/
def caraWithAnnEmail : UserBody :=
  { name := some "cara", email := some "ann@example.org", pendingTasks := none }

/-- Request updating a user to the name `bobby` and the email of `ann`. -/
def bobbyWithAnnEmail : UserBody :=
  { name := some "bobby", email := some "ann@example.org", pendingTasks := none }

/-- Request renaming `ann` to `anna`, her email and pending list kept. -/
def renameAnn : UserBody :=
  { name := some "anna", email := some "ann@example.org", pendingTasks := some [reportId] }

/-- Request creating `bob` with nothing pending. -/
def createBob : UserBody :=
  { name := some "bob", email := some "bob@example.org", pendingTasks := none }

/-- Request reassigning `report` to `bob` with a deadline that is no date. -/
def lateReassign : TaskBody :=
  { name := some "report", description := none, deadline := some "soon",
    completed := none, assignedUser := some bobId, assignedUserName := none }

/-- Every non-empty `assignedUser` names an existing user. -/
def Store.AssigneesExist (s : Store) : Prop :=
  ∀ t ∈ s.tasks, t.assignedUser ≠ "" → ∃ u ∈ s.users, u.id = t.assignedUser

instance (s : Store) : Decidable s.AssigneesExist := by
  unfold Store.AssigneesExist; infer_instance

/-- Store in which `ann` has `report` pending and completed `slides` behind
her. -/
def annHistoryStore : Store := { tasks := [report, doneSlides], users := [ann] }

/-- Request updating `ann` with her name and email and no pending list. -/
def annDropsAll : UserBody :=
  { name := some "ann", email := some "ann@example.org", pendingTasks := none }

/-- User document after lines 39-47 of `syncUserPending` for the task `tid`,
previous assignee `prev` and new assignee `next`: the previous assignee, when
set and different from the new one, loses `tid`. -/
def detachUser (tid prev next : String) (u : User) : User :=
  if u.id = prev ∧ prev ≠ "" ∧ prev ≠ next then
    { u with pendingTasks := u.pendingTasks.filter (fun x => decide (x ≠ tid)) }
  else u

/-- Pending list of the new assignee after lines 53-61 of `syncUserPending`:
a pending task is pushed unless listed, a task that is not pending is filtered
out. -/
def attachList (tid : String) (completed : Bool) (l : List String) : List String :=
  if completed = false then (if tid ∈ l then l else l ++ [tid])
  else l.filter (fun x => decide (x ≠ tid))

/-- User document after lines 49-61 of `syncUserPending` for the task `tid`
with new assignee `next`. -/
def attachUser (tid : String) (completed : Bool) (next : String) (u : User) : User :=
  if u.id = next ∧ next ≠ "" then
    { u with pendingTasks := attachList tid completed u.pendingTasks }
  else u

/-- What a mutation of the task `tid`, with previous assignee `prev` and new
assignee `next`, may change in one user document: nothing but the pending
list, there nothing but the occurrences of `tid`, and nothing at all for a
user that is neither assignee. -/
def UserFrame (tid prev next : String) (u u' : User) : Prop :=
  u'.id = u.id ∧ u'.name = u.name ∧ u'.email = u.email ∧
    u'.pendingTasks.filter (fun x => decide (x ≠ tid))
      = u.pendingTasks.filter (fun x => decide (x ≠ tid)) ∧
    (u.id ≠ prev → u.id ≠ next → u' = u)

/-- What a mutation of the task `tid` may change in the store: the task
documents with another identifier are kept, in order, and the user documents
are kept, in order, up to `UserFrame`. -/
def TaskFrame (tid prev next : String) (s s' : Store) : Prop :=
  s'.tasks.filter (fun t => decide (t.id ≠ tid)) = s.tasks.filter (fun t => decide (t.id ≠ tid)) ∧
    List.Forall₂ (UserFrame tid prev next) s.users s'.users

/-- Store in which `report` is pending for `ann`; `bob` has the unrelated
`minutes` pending. -/
def busyStore : Store :=
  { tasks := [report, minutes], users := [ann, { bob with pendingTasks := [slidesId] }] }

/-- Every user's pending list is duplicate-free. -/
def Store.PendingNodup (s : Store) : Prop :=
  ∀ u ∈ s.users, u.pendingTasks.Nodup

instance (s : Store) : Decidable s.PendingNodup := by
  unfold Store.PendingNodup; infer_instance

/-- Request creating or updating a user with `report` listed twice. -/
def reportTwice : UserBody :=
  { name := some "cara", email := some "cara@example.org",
    pendingTasks := some [reportId, reportId] }

/-- The three clauses of the bidirectional invariant: (a) an incomplete task
assigned to an existing user is in that user's pending list; (b) every pending
entry names an existing incomplete task assigned to that user; (c) an
unassigned task carries the name `unassigned`. -/
def Store.Bidirectional (s : Store) : Prop :=
  (∀ t ∈ s.tasks, ∀ u ∈ s.users,
      t.completed = false → t.assignedUser = u.id → t.id ∈ u.pendingTasks) ∧
  (∀ u ∈ s.users, ∀ x ∈ u.pendingTasks,
      ∃ t ∈ s.tasks, t.id = x ∧ t.assignedUser = u.id ∧ t.completed = false) ∧
  (∀ t ∈ s.tasks, t.assignedUser = "" → t.assignedUserName = "unassigned")

/-- No user document carries the empty identifier, which marks a task as
unassigned. -/
def Store.UsersHaveIds (s : Store) : Prop :=
  ∀ u ∈ s.users, u.id ≠ ""

instance (s : Store) : Decidable s.Bidirectional := by
  unfold Store.Bidirectional; infer_instance

instance (s : Store) : Decidable s.UsersHaveIds := by
  unfold Store.UsersHaveIds; infer_instance

/-- Request creating `minutes` assigned to `bob`. -/
def createMinutes : TaskBody :=
  { name := some "minutes", description := none, deadline := some "1767225600000",
    completed := none, assignedUser := some bobId, assignedUserName := none }

/-- The denormalised name agrees with the assignment: an unassigned task
carries the name `unassigned`, and a task whose `assignedUser` is the
identifier of an existing user carries that user's name. -/
def Store.NamesAgree (s : Store) : Prop :=
  ∀ t ∈ s.tasks, (t.assignedUser = "" → t.assignedUserName = "unassigned") ∧
    ∀ u ∈ s.users, t.assignedUser = u.id → t.assignedUserName = u.name

instance (s : Store) : Decidable s.NamesAgree := by
  unfold Store.NamesAgree; infer_instance

/-- Request creating `cara` with `report` in her pending list. -/
def caraTakesReport : UserBody :=
  { name := some "cara", email := some "cara@example.org", pendingTasks := some [reportId] }

/-- One write to the store, issued by `save()`. -/
inductive Write where
  | userSave (u : User)
  | taskSave (t : Task)
  deriving DecidableEq, Repr

/-- The store after a write. -/
def Write.apply (s : Store) : Write → Store
  | .userSave u => User.save s u
  | .taskSave t => Task.save s t

/-- The stores a sequence of writes goes through, the initial one first. -/
def storesAlong (s : Store) : List Write → List Store
  | [] => [s]
  | w :: ws => s :: storesAlong (w.apply s) ws

/-- The write of lines 39-47 of `syncUserPending`: `prevUser.save()` of line
45, when it is reached. -/
def detachWrites (E : Engine) (s : Store) (task : Task) (prevAssignedUserId : Option String) :
    List Write :=
  let newUserId := task.assignedUser
  if truthy prevAssignedUserId = true ∧ prevAssignedUserId ≠ some newUserId then
    if E.isValid (prevAssignedUserId.getD "") = true then
      match User.findById s (prevAssignedUserId.getD "") with
      | some prevUser =>
        [.userSave { prevUser with
          pendingTasks := prevUser.pendingTasks.filter (fun tid => decide (tid ≠ task.id)) }]
      | none => []
    else []
  else []

/-- The writes of lines 49-61 of `syncUserPending`: `user.save()` of line 56
and of line 60, when they are reached. -/
def attachWrites (E : Engine) (s1 : Store) (task : Task) : List Write :=
  let isPending := decide (task.completed = false)
  let newUserId := task.assignedUser
  if newUserId ≠ "" then
    if E.isValid newUserId = true then
      match User.findById s1 newUserId with
      | some user =>
        let tid := task.id
        let has := decide (tid ∈ user.pendingTasks)
        let user1 : User :=
          if isPending = true ∧ has = false then
            { user with pendingTasks := user.pendingTasks ++ [tid] }
          else user
        let user2 : User :=
          if isPending = false ∧ has = true then
            { user1 with pendingTasks := user1.pendingTasks.filter (fun x => decide (x ≠ tid)) }
          else user1
        (if isPending = true ∧ has = false then [.userSave user1] else []) ++
          (if isPending = false ∧ has = true then [.userSave user2] else [])
      | none => []
    else []
  else []

/-- The writes of `syncUserPending` in program order: those of the detach
step, then those of the attach step; none when the first lookup throws. -/
def syncWrites (E : Engine) (s : Store) (task : Task) (prevAssignedUserId : Option String) :
    List Write :=
  match detachPrev E s task prevAssignedUserId with
  | none => []
  | some s1 => detachWrites E s task prevAssignedUserId ++ attachWrites E s1 task

/-- The writes of the handler `router.put('/:id')` of `tasks.js` in program
order: those of `syncUserPending` (line 212), then `task.save()` (line 213)
unless the schema rejects the document. -/
def tasksPutWrites (E : Engine) (s : Store) (id : String) (body : TaskBody) : List Write :=
  if E.isValid id = false then []
  else if truthy body.name = false ∨ truthy body.deadline = false then []
  else
    let name := body.name.getD ""
    let deadline := body.deadline.getD ""
    match Task.findById s id with
    | none => []
    | some task =>
      if task.completed = true then []
      else
        let assignedUser := body.assignedUser.getD task.assignedUser
        match resolveAssignee E s assignedUser body.assignedUserName with
        | .error _ => []
        | .ok assignedUserName =>
          let prevAssigned := task.assignedUser
          let task1 : Task :=
            { task with
              name := name
              description := body.description.getD ""
              deadline := deadline
              completed := body.completed.getD task.completed
              assignedUser := assignedUser
              assignedUserName := assignedUserName }
          match syncUserPending E s task1 (some prevAssigned) with
          | .thrown _ => syncWrites E s task1 (some prevAssigned)
          | .done _ task2 =>
            if E.validDeadline deadline = false then syncWrites E s task1 (some prevAssigned)
            else syncWrites E s task1 (some prevAssigned) ++ [.taskSave task2]

/-! ## Store lemmas -/

@[simp] theorem users_taskSave (s : Store) (t : Task) : (Task.save s t).users = s.users := rfl

@[simp] theorem tasks_userSave (s : Store) (u : User) : (User.save s u).tasks = s.tasks := rfl

@[simp] theorem users_taskCreate (s : Store) (t : Task) : (Task.create s t).users = s.users := rfl

@[simp] theorem users_taskDeleteOne (s : Store) (t : Task) :
    (Task.deleteOne s t).users = s.users := rfl

@[simp] theorem tasks_userDeleteOne (s : Store) (u : User) :
    (User.deleteOne s u).tasks = s.tasks := rfl

@[simp] theorem tasks_userCreate (s : Store) (u : User) : (User.create s u).tasks = s.tasks := rfl

theorem find_id_map_replace {α : Type} (key : α → String) (l : List α) (d : α) (i : String) :
    (l.map (fun x => if key x = key d then d else x)).find? (fun x => decide (key x = i))
      = if i = key d then (l.find? (fun x => decide (key x = i))).map (fun _ => d)
        else l.find? (fun x => decide (key x = i)) := by
  induction l with
  | nil => simp
  | cons a l ih =>
    rw [List.map_cons, List.find?_cons, List.find?_cons, ih]
    by_cases ha : key a = key d
    · by_cases h : i = key d
      · have hai : key a = i := by rw [ha, h]
        simp [ha, h]
      · have hdi : ¬ key d = i := fun e => h e.symm
        have hai : ¬ key a = i := by rw [ha]; exact hdi
        simp [ha, h, hdi, hai]
    · by_cases hi : key a = i
      · have h : ¬ i = key d := by rw [← hi]; exact ha
        simp [ha, hi, h]
      · simp [ha, hi]

theorem findUser_save (s : Store) (u : User) (i : String) :
    User.findById (User.save s u) i
      = if i = u.id then (User.findById s i).map (fun _ => u) else User.findById s i := by
  unfold User.findById User.save
  exact find_id_map_replace User.id s.users u i

theorem findTask_save (s : Store) (t : Task) (i : String) :
    Task.findById (Task.save s t) i
      = if i = t.id then (Task.findById s i).map (fun _ => t) else Task.findById s i := by
  unfold Task.findById Task.save
  exact find_id_map_replace Task.id s.tasks t i

@[simp] theorem findUser_taskSave (s : Store) (t : Task) (i : String) :
    User.findById (Task.save s t) i = User.findById s i := rfl

@[simp] theorem findTask_userSave (s : Store) (u : User) (i : String) :
    Task.findById (User.save s u) i = Task.findById s i := rfl

theorem findUser_id {s : Store} {i : String} {u : User} (h : User.findById s i = some u) :
    u.id = i := by
  have := List.find?_some h
  simpa using this

theorem findTask_id {s : Store} {i : String} {t : Task} (h : Task.findById s i = some t) :
    t.id = i := by
  have := List.find?_some h
  simpa using this

theorem findUser_mem {s : Store} {i : String} {u : User} (h : User.findById s i = some u) :
    u ∈ s.users := List.mem_of_find?_eq_some h

theorem findTask_mem {s : Store} {i : String} {t : Task} (h : Task.findById s i = some t) :
    t ∈ s.tasks := List.mem_of_find?_eq_some h


/-! ## Validation failures -/

theorem checkPending_fail {E : Engine} {s : Store} {l : List String} {msg : String} {r : Reply}
    (h : checkPending E s l msg = some r) : r.isOk = false ∧ r.code = 400 := by
  unfold checkPending at h
  dsimp only at h
  split_ifs at h <;> (cases h; exact ⟨rfl, rfl⟩)

theorem checkPending_completed (E : Engine) (s : Store) (l : List String) (msg : String)
    (t : Task) (ht : t ∈ s.tasks) (hc : t.completed = true) (hmem : t.id ∈ l) :
    ∃ r, checkPending E s l msg = some r := by
  unfold checkPending
  have hl : l.length ≠ 0 := by
    intro h0
    have : l = [] := List.length_eq_zero.mp h0
    rw [this] at hmem
    simp at hmem
  have hany : (Task.find s l).any (fun t => decide (t.completed = true)) = true := by
    rw [List.any_eq_true]
    refine ⟨t, ?_, by simp [hc]⟩
    unfold Task.find
    simp [List.mem_filter, ht, hmem]
  dsimp only
  split_ifs <;> exact ⟨_, rfl⟩

/-- C7: a user-create request whose pending list names an existing completed
task is answered with a bad-request failure and the store keeps exactly the
users and tasks it had. -/
theorem usersPost_completed_pending_rejected (E : Engine) (s : Store) (newId : String)
    (body : UserBody) (t : Task) (ht : t ∈ s.tasks) (hc : t.completed = true)
    (hmem : t.id ∈ body.pendingTasks.getD []) :
    (usersPost E s newId body).1.isOk = false ∧ (usersPost E s newId body).1.code = 400 ∧
      (usersPost E s newId body).2 = s := by
  obtain ⟨r, hr⟩ := checkPending_completed E s (body.pendingTasks.getD []) "Failed to create user"
    t ht hc hmem
  have hf := checkPending_fail hr
  unfold usersPost
  simp only [hr]
  split_ifs
  · exact ⟨rfl, rfl, rfl⟩
  · exact ⟨rfl, rfl, rfl⟩
  · exact ⟨hf.1, hf.2, rfl⟩

/-- Witness of C7: creating `bob` with the completed `slides` pending. -/
theorem usersPost_completed_pending_rejected_witness :
    slides ∈ slidesStore.tasks ∧ slides.completed = true ∧
      slides.id ∈ bobTakesSlides.pendingTasks.getD [] ∧
      (usersPost objectIdEngine slidesStore bobId bobTakesSlides).1.isOk = false ∧
      (usersPost objectIdEngine slidesStore bobId bobTakesSlides).1.code = 400 ∧
      (usersPost objectIdEngine slidesStore bobId bobTakesSlides).2 = slidesStore :=
  ⟨by decide, by decide, by decide,
    usersPost_completed_pending_rejected objectIdEngine slidesStore bobId bobTakesSlides slides
      (by decide) (by decide) (by decide)⟩

/-- C8: a task-create request with name and deadline whose non-empty
`assignedUser` is ill-formed, or well-formed but names no user, is answered
with the matching failure and the store keeps exactly the tasks and users it
had. -/
theorem tasksPost_unknown_assignee_rejected (E : Engine) (s : Store) (newId : String)
    (body : TaskBody) (a : String) (hname : truthy body.name = true)
    (hdeadline : truthy body.deadline = true) (ha : body.assignedUser = some a) (hne : a ≠ "")
    (hunres : E.isValid a = false ∨ User.findById s a = none) :
    tasksPost E s newId body
      = (if E.isValid a = false then Reply.fail "Invalid user ID" 400
          else Reply.fail "Assigned user does not exist" 404, s) := by
  unfold tasksPost resolveAssignee
  rcases hunres with h | h
  · simp [hname, hdeadline, ha, hne, h]
  · by_cases hv : E.isValid a = false
    · simp [hname, hdeadline, ha, hne, hv]
    · simp [hname, hdeadline, ha, hne, hv, h]

/-- Witness of C8: creating a task for a well-formed identifier that names no
user. -/
theorem tasksPost_unknown_assignee_rejected_witness :
    truthy createForNobody.name = true ∧ truthy createForNobody.deadline = true ∧
      createForNobody.assignedUser = some nobodyId ∧ nobodyId ≠ "" ∧
      (objectIdEngine.isValid nobodyId = false ∨ User.findById annStore nobodyId = none) ∧
      tasksPost objectIdEngine annStore slidesId createForNobody
        = (if objectIdEngine.isValid nobodyId = false then Reply.fail "Invalid user ID" 400
            else Reply.fail "Assigned user does not exist" 404, annStore) :=
  ⟨by decide, by decide, by decide, by decide, by decide,
    tasksPost_unknown_assignee_rejected objectIdEngine annStore slidesId createForNobody nobodyId
      (by decide) (by decide) (by decide) (by decide) (by decide)⟩

/-! ## Completed tasks -/

/-- C10: every update of a completed task is answered with a failure and
leaves the whole store unchanged; deleting it succeeds (its identifier and its
stored assignee reference being well-formed, as every stored identifier is) and
removes it. -/
theorem completed_task_immutable (E : Engine) (s : Store) (id : String) (T : Task)
    (hT : Task.findById s id = some T) (hc : T.completed = true) :
    (∀ body : TaskBody,
        (tasksPut E s id body).1.isOk = false ∧ (tasksPut E s id body).2 = s) ∧
      (E.isValid id = true → (T.assignedUser = "" ∨ E.isValid T.assignedUser = true) →
        (tasksDelete E s id).1 = Reply.ok "Deleted" 204 ∧
          Task.findById (tasksDelete E s id).2 id = none) := by
  have hid : T.id = id := findTask_id hT
  constructor
  · intro body
    unfold tasksPut
    simp only [hT, hc]
    split_ifs <;> exact ⟨rfl, rfl⟩
  · intro hv hau
    have hgone : ∀ s1 : Store, s1.tasks = s.tasks → Task.findById (Task.deleteOne s1 T) id = none := by
      intro s1 h1
      unfold Task.findById Task.deleteOne
      simp only [h1, hid]
      rw [List.find?_eq_none]
      intro x hx
      rw [List.mem_filter] at hx
      simpa using hx.2
    unfold tasksDelete
    simp only [hv, hT]
    rcases hau with h | h
    · simp [h, hgone s rfl]
    · by_cases he : T.assignedUser = ""
      · simp [he, hgone s rfl]
      · cases hu : User.findById s T.assignedUser with
        | none => simp [he, h, hu, hgone s rfl]
        | some u => simp [he, h, hu, hgone _ (tasks_userSave s _)]

/-- Witness of C10: the completed `slides` can be deleted but not updated. -/
theorem completed_task_immutable_witness :
    Task.findById doneStore slidesId = some doneSlides ∧
      doneSlides.completed = true ∧
      (∀ body : TaskBody,
        (tasksPut objectIdEngine doneStore slidesId body).1.isOk = false ∧
          (tasksPut objectIdEngine doneStore slidesId body).2 = doneStore) ∧
      objectIdEngine.isValid slidesId = true ∧ objectIdEngine.isValid annId = true ∧
      (tasksDelete objectIdEngine doneStore slidesId).1 = Reply.ok "Deleted" 204 ∧
      Task.findById (tasksDelete objectIdEngine doneStore slidesId).2 slidesId = none :=
  ⟨by decide, by decide,
    (completed_task_immutable objectIdEngine doneStore slidesId doneSlides
      (by decide) (by decide)).1,
    by decide, by decide,
    (completed_task_immutable objectIdEngine doneStore slidesId doneSlides
      (by decide) (by decide)).2 (by decide) (Or.inr (by decide))⟩

/-! ## Pending lists after a user is created with a task of another user -/

/-- C1, at the failing request: `annStore` has unique identifiers and satisfies
the consistency invariant, creating `bob` with `report` in his pending list
succeeds, and afterwards `report`, incomplete and assigned to `bob`, is still
in the pending list of `ann`. -/
theorem usersPost_leaves_task_with_former_owner :
    annStore.UniqueIds ∧ annStore.Consistent ∧ annStore.Fresh objectIdEngine bobId ∧
      (usersPost objectIdEngine annStore bobId bobTakesReport).1 = Reply.ok "Created" 201 ∧
      (usersPost objectIdEngine annStore bobId bobTakesReport).2
        = { tasks := [reportOfBob], users := [ann, { bob with pendingTasks := [reportId] }] } ∧
      ¬ (usersPost objectIdEngine annStore bobId bobTakesReport).2.PendingAgrees := by
  unfold Store.Fresh
  decide

/-- C6, at the failing trace: the store reached from the empty store by
creating `ann`, creating `report` for `ann`, creating `bob` with `report`
pending and completing `report` holds the completed `report` in the pending
list of `ann`. -/
theorem reachable_completed_task_pending :
    Reachable objectIdEngine trace4 ∧
      trace4 = { tasks := [{ reportOfBob with completed := true }], users := [ann, bob] } ∧
      ¬ trace4.NoCompletedPending := by
  refine ⟨?_, by decide, by decide⟩
  have h1 : Reachable objectIdEngine trace1 :=
    Reachable.userCreate annId createAnn Reachable.start (by unfold Store.Fresh; decide)
  have h2 : Reachable objectIdEngine trace2 :=
    Reachable.taskCreate reportId createReport h1 (by unfold Store.Fresh; decide)
  have h3 : Reachable objectIdEngine trace3 :=
    Reachable.userCreate bobId bobTakesReport h2 (by unfold Store.Fresh; decide)
  exact Reachable.taskUpdate reportId completeReport h3

/-! ## Task updates -/

theorem resolveAssignee_ok {E : Engine} {s : Store} {a : String} {bn : Option String}
    {nm : String} (h : resolveAssignee E s a bn = .ok nm) :
    a = "" ∨ (E.isValid a = true ∧ ∃ u, User.findById s a = some u ∧ nm = u.name) := by
  unfold resolveAssignee at h
  by_cases ha : a = ""
  · exact Or.inl ha
  · right
    simp only [ne_eq, ha, not_false_eq_true, if_true] at h
    by_cases hv : E.isValid a = false
    · simp [hv] at h
    · simp only [hv, if_false] at h
      cases hu : User.findById s a with
      | none => simp [hu] at h
      | some u =>
        simp only [hu] at h
        refine ⟨by simpa using hv, u, rfl, ?_⟩
        cases bn with
        | none => simpa using h.symm
        | some n =>
          by_cases hn : n = u.name
          · simp [hn] at h; rw [← h]
          · simp [hn] at h

theorem resolveAssignee_error {E : Engine} {s : Store} {a : String} {bn : Option String}
    {r : Reply} (h : resolveAssignee E s a bn = .error r) : r.isOk = false := by
  unfold resolveAssignee at h
  by_cases ha : a = ""
  · cases bn with
    | none => simp [ha] at h
    | some n => by_cases hn : n = "unassigned" <;> simp [ha, hn] at h
  · by_cases hv : E.isValid a = false
    · simp [ha, hv] at h; rw [← h]; rfl
    · cases hu : User.findById s a with
      | none => simp [ha, hv, hu] at h; rw [← h]; rfl
      | some u =>
        cases bn with
        | none => simp [ha, hv, hu] at h
        | some n =>
          by_cases hn : n = u.name
          · simp [ha, hv, hu, hn] at h
          · simp [ha, hv, hu, hn] at h; rw [← h]; rfl

theorem tasksPut_ok {E : Engine} {s s' : Store} {id : String} {body : TaskBody} {r : Reply}
    (hrun : tasksPut E s id body = (r, s')) (hok : r.isOk = true) :
    ∃ T nm s1 task2, Task.findById s id = some T ∧ T.completed = false ∧
      E.isValid id = true ∧ truthy body.name = true ∧ truthy body.deadline = true ∧
      E.validDeadline (body.deadline.getD "") = true ∧
      resolveAssignee E s (body.assignedUser.getD T.assignedUser) body.assignedUserName
        = .ok nm ∧
      syncUserPending E s
        { T with
          name := body.name.getD ""
          description := body.description.getD ""
          deadline := body.deadline.getD ""
          completed := body.completed.getD T.completed
          assignedUser := body.assignedUser.getD T.assignedUser
          assignedUserName := nm } (some T.assignedUser) = .done s1 task2 ∧
      r = .ok "OK" 200 ∧ s' = Task.save s1 task2 := by
  unfold tasksPut at hrun
  have hfail : ∀ (r0 : Reply) (x : Store), r0.isOk = false → (r0, x) = (r, s') → False := by
    intro r0 x h0 h
    have : r = r0 := (Prod.mk.inj h).1.symm
    rw [this, h0] at hok
    exact absurd hok (by simp)
  have hfail2 : ∀ (m : String) (c : Nat) (x : Store), (Reply.fail m c, x) = (r, s') → False :=
    fun m c x h => hfail (Reply.fail m c) x rfl h
  by_cases h1 : E.isValid id = false
  · rw [if_pos h1] at hrun; exact (hfail2 _ _ _ hrun).elim
  rw [if_neg h1] at hrun
  by_cases h2 : truthy body.name = false ∨ truthy body.deadline = false
  · rw [if_pos h2] at hrun; exact (hfail2 _ _ _ hrun).elim
  rw [if_neg h2] at hrun
  dsimp only at hrun
  cases hT : Task.findById s id with
  | none => rw [hT] at hrun; exact (hfail2 _ _ _ hrun).elim
  | some T =>
    rw [hT] at hrun
    dsimp only at hrun
    by_cases h3 : T.completed = true
    · rw [if_pos h3] at hrun; exact (hfail2 _ _ _ hrun).elim
    rw [if_neg h3] at hrun
    cases hres : resolveAssignee E s (body.assignedUser.getD T.assignedUser)
        body.assignedUserName with
    | error r0 =>
      rw [hres] at hrun
      exact (hfail _ _ (resolveAssignee_error hres) hrun).elim
    | ok nm =>
      rw [hres] at hrun
      dsimp only at hrun
      cases hsync : syncUserPending E s
        { T with
          name := body.name.getD ""
          description := body.description.getD ""
          deadline := body.deadline.getD ""
          completed := body.completed.getD T.completed
          assignedUser := body.assignedUser.getD T.assignedUser
          assignedUserName := nm } (some T.assignedUser) with
      | thrown s1 => rw [hsync] at hrun; exact (hfail2 _ _ _ hrun).elim
      | done s1 task2 =>
        rw [hsync] at hrun
        dsimp only at hrun
        by_cases h4 : E.validDeadline (body.deadline.getD "") = false
        · rw [if_pos h4] at hrun; exact (hfail2 _ _ _ hrun).elim
        rw [if_neg h4] at hrun
        have h2a : truthy body.name = true := by
          by_contra hc; exact h2 (Or.inl (by simpa using hc))
        have h2b : truthy body.deadline = true := by
          by_contra hc; exact h2 (Or.inr (by simpa using hc))
        exact ⟨T, nm, s1, task2, rfl, by simpa using h3, by simpa using h1, h2a, h2b,
          by simpa using h4, hres, hsync, (Prod.mk.inj hrun).1.symm, (Prod.mk.inj hrun).2.symm⟩

theorem detachPrev_tasks {E : Engine} {s s1 : Store} {task : Task} {prev : Option String}
    (h : detachPrev E s task prev = some s1) : s1.tasks = s.tasks := by
  unfold detachPrev at h
  dsimp only at h
  split_ifs at h
  all_goals first
    | (cases h; rfl)
    | (split at h <;> (cases h; rfl))

theorem detachPrev_skip (E : Engine) (s : Store) (task : Task) (prev : String)
    (h : prev = "" ∨ prev = task.assignedUser) :
    detachPrev E s task (some prev) = some s := by
  unfold detachPrev
  rcases h with h | h <;> simp [truthy, h]

theorem detachPrev_findById {E : Engine} {s s1 : Store} {task : Task} {prev : String}
    (h : detachPrev E s task (some prev) = some s1) (i : String) :
    User.findById s1 i
      = if prev ≠ "" ∧ prev ≠ task.assignedUser ∧ i = prev then
          (User.findById s i).map (fun u =>
            { u with pendingTasks := u.pendingTasks.filter (fun tid => decide (tid ≠ task.id)) })
        else User.findById s i := by
  by_cases hskip : prev = "" ∨ prev = task.assignedUser
  · rw [detachPrev_skip E s task prev hskip] at h
    cases h
    rcases hskip with h0 | h0 <;> simp [h0]
  · have h1 : prev ≠ "" := fun e => hskip (Or.inl e)
    have h2 : prev ≠ task.assignedUser := fun e => hskip (Or.inr e)
    unfold detachPrev at h
    simp only [truthy, ne_eq, h1, not_false_eq_true, decide_True, Option.some.injEq, h2,
      and_self, if_true, Option.getD_some] at h
    by_cases hv : E.isValid prev = true
    · simp only [hv, if_true] at h
      cases hu : User.findById s prev with
      | none =>
        simp only [hu] at h
        cases h
        by_cases hi : i = prev
        · simp [hi, hu]
        · simp [hi]
      | some pu =>
        simp only [hu, Option.some.injEq] at h
        subst h
        rw [findUser_save]
        have hpid : pu.id = prev := findUser_id hu
        by_cases hi : i = prev
        · simp [hi, hpid, hu, h1, h2]
        · simp [hi, hpid]
    · simp [hv] at h

theorem attachNew_tasks {E : Engine} {s1 s2 : Store} {task task2 : Task}
    (h : attachNew E s1 task = .done s2 task2) : s2.tasks = s1.tasks := by
  unfold attachNew at h
  dsimp only at h
  split_ifs at h
  · split at h
    · simp only [SyncResult.done.injEq] at h
      rw [← h.1]
      split_ifs <;> rfl
    · cases h; rfl
  · cases h; rfl

theorem attachNew_unassigned (E : Engine) (s1 : Store) (task : Task)
    (h : task.assignedUser = "") :
    attachNew E s1 task = .done s1 { task with assignedUserName := "unassigned" } := by
  unfold attachNew
  simp [h]

/-- The pending list the new assignee has after `attachNew`. -/
theorem attachNew_assigned {E : Engine} {s1 s2 : Store} {task task2 : Task} {u : User}
    (h : attachNew E s1 task = .done s2 task2)
    (hne : task.assignedUser ≠ "") (hu : User.findById s1 task.assignedUser = some u) :
    task2 = { task with assignedUserName := u.name } ∧
      ∀ i, User.findById s2 i
        = if i = task.assignedUser then
            some { u with pendingTasks :=
              if task.completed = false then
                (if task.id ∈ u.pendingTasks then u.pendingTasks else u.pendingTasks ++ [task.id])
              else u.pendingTasks.filter (fun x => decide (x ≠ task.id)) }
          else User.findById s1 i := by
  have huid : u.id = task.assignedUser := findUser_id hu
  unfold attachNew at h
  simp only [ne_eq, hne, not_false_eq_true, if_true, hu] at h
  by_cases hv : E.isValid task.assignedUser = true
  · simp only [hv, if_true] at h
    by_cases hc : task.completed = false
    · by_cases hhas : task.id ∈ u.pendingTasks
      · simp [hc, hhas] at h
        obtain ⟨rfl, rfl⟩ := h
        refine ⟨by rw [hc], fun i => ?_⟩
        by_cases hi : i = task.assignedUser
        · simp [hi, hu, hc, hhas]
        · simp [hi]
      · simp [hc, hhas] at h
        obtain ⟨rfl, rfl⟩ := h
        refine ⟨by rw [hc], fun i => ?_⟩
        rw [findUser_save]
        by_cases hi : i = task.assignedUser
        · simp [hi, hu, hc, hhas, huid]
        · simp [hi, huid]
    · have hc' : task.completed = true := by simpa using hc
      by_cases hhas : task.id ∈ u.pendingTasks
      · simp [hc', hhas] at h
        obtain ⟨rfl, rfl⟩ := h
        refine ⟨by rw [hc'], fun i => ?_⟩
        rw [findUser_save]
        by_cases hi : i = task.assignedUser
        · simp [hi, hu, hc', huid]
        · simp [hi, huid]
      · simp [hc', hhas] at h
        obtain ⟨rfl, rfl⟩ := h
        refine ⟨by rw [hc'], fun i => ?_⟩
        by_cases hi : i = task.assignedUser
        · have hfilter : u.pendingTasks.filter (fun x => !decide (x = task.id))
              = u.pendingTasks := by
            rw [List.filter_eq_self]
            intro x hx
            have : x ≠ task.id := fun e => hhas (e ▸ hx)
            simpa using this
          simp [hi, hu, hc', hfilter]
        · simp [hi]
  · simp [hv] at h

/-- When the task is pending and already listed for its assignee, or is
unassigned, `attachNew` writes nothing. -/
theorem attachNew_noop {E : Engine} {s1 s2 : Store} {task task2 : Task}
    (hcase : task.assignedUser = "" ∨
      ∃ u, User.findById s1 task.assignedUser = some u ∧ task.completed = false ∧
        task.id ∈ u.pendingTasks)
    (h : attachNew E s1 task = .done s2 task2) : s2 = s1 := by
  rcases hcase with h0 | ⟨u, hu, hc, hhas⟩
  · rw [attachNew_unassigned E s1 task h0] at h
    cases h; rfl
  · unfold attachNew at h
    by_cases hne : task.assignedUser = ""
    · simp [hne] at h; exact h.1.symm
    · by_cases hv : E.isValid task.assignedUser = true
      · simp [hne, hv, hu, hc, hhas] at h
        exact h.1.symm
      · simp [hne, hv] at h

theorem findTask_congr {s1 s : Store} (h : s1.tasks = s.tasks) (i : String) :
    Task.findById s1 i = Task.findById s i := by
  unfold Task.findById
  rw [h]

theorem syncUserPending_done {E : Engine} {s s2 : Store} {task task2 : Task}
    {prev : Option String} (h : syncUserPending E s task prev = .done s2 task2) :
    ∃ s1, detachPrev E s task prev = some s1 ∧ attachNew E s1 task = .done s2 task2 := by
  unfold syncUserPending at h
  cases hd : detachPrev E s task prev with
  | none => rw [hd] at h; cases h
  | some s1 => rw [hd] at h; exact ⟨s1, rfl, h⟩

/-- C2: a successful update that reassigns the incomplete task `T` from its
assignee `U1` to a different existing user `U2`, without completing it, leaves
`T` out of `U1`'s pending list, puts it in `U2`'s, and stores `U2`'s identifier
and name on `T`. -/
theorem tasksPut_reassign (E : Engine) (s s' : Store) (id : String) (body : TaskBody)
    (r : Reply) (T : Task) (U1 U2 : User) (u2 : String)
    (hT : Task.findById s id = some T) (hTc : T.completed = false)
    (hne : T.assignedUser ≠ "") (hU1 : User.findById s T.assignedUser = some U1)
    (hu2 : u2 ≠ "") (hU2 : User.findById s u2 = some U2) (hdiff : u2 ≠ T.assignedUser)
    (hbody : body.assignedUser = some u2) (hcompl : body.completed ≠ some true)
    (hrun : tasksPut E s id body = (r, s')) (hok : r.isOk = true) :
    (∃ U1', User.findById s' T.assignedUser = some U1' ∧ T.id ∉ U1'.pendingTasks) ∧
      (∃ U2', User.findById s' u2 = some U2' ∧ T.id ∈ U2'.pendingTasks ∧
        U2'.name = U2.name) ∧
      (∃ T', Task.findById s' id = some T' ∧ T'.completed = false ∧ T'.assignedUser = u2 ∧
        T'.assignedUserName = U2.name) := by
  have hid : T.id = id := findTask_id hT
  obtain ⟨T0, nm, s2, task2, hT0, -, -, -, -, -, hres, hsync, -, rfl⟩ := tasksPut_ok hrun hok
  rw [hT] at hT0
  cases hT0
  simp only [hbody, Option.getD_some] at hres hsync
  obtain ⟨s1, hd, ha⟩ := syncUserPending_done hsync
  have hfind1 := detachPrev_findById hd
  have hcompleted : body.completed.getD T.completed = false := by
    cases hb : body.completed with
    | none => simpa using hTc
    | some c =>
      cases c with
      | false => rfl
      | true => exact absurd hb hcompl
  have hU2s1 : User.findById s1 u2 = some U2 := by
    rw [hfind1 u2]
    simp [hdiff, hU2]
  obtain ⟨htask2, hfind2⟩ := attachNew_assigned ha (by simpa using hu2) hU2s1
  simp only [hcompleted] at hfind2 htask2
  have hdiff2 : ¬ T.assignedUser = u2 := fun e => hdiff e.symm
  refine ⟨?_, ?_, ?_⟩
  · refine ⟨{ U1 with pendingTasks := U1.pendingTasks.filter (fun tid => decide (tid ≠ T.id)) },
      ?_, ?_⟩
    · rw [findUser_taskSave, hfind2, hfind1]
      simp [hdiff2, hne, hU1]
    · simp
  · refine ⟨{ U2 with pendingTasks :=
        if T.id ∈ U2.pendingTasks then U2.pendingTasks else U2.pendingTasks ++ [T.id] },
      ?_, ?_, rfl⟩
    · rw [findUser_taskSave, hfind2]
      simp
    · by_cases hin : T.id ∈ U2.pendingTasks <;> simp [hin]
  · refine ⟨task2, ?_, ?_⟩
    · rw [findTask_save, findTask_congr
        ((attachNew_tasks ha).trans (detachPrev_tasks hd)), hT, htask2]
      simp [hid]
    · rw [htask2]
      exact ⟨rfl, rfl, rfl⟩

/-- Witness of C2: `report` is reassigned from `ann` to `bob`. -/
theorem tasksPut_reassign_witness :
    Task.findById annBobStore reportId = some report ∧ report.completed = false ∧
      report.assignedUser ≠ "" ∧ User.findById annBobStore report.assignedUser = some ann ∧
      report.id ∈ ann.pendingTasks ∧ bobId ≠ "" ∧ User.findById annBobStore bobId = some bob ∧
      bobId ≠ report.assignedUser ∧ reassignReport.assignedUser = some bobId ∧
      reassignReport.completed ≠ some true ∧
      (tasksPut objectIdEngine annBobStore reportId reassignReport).1.isOk = true ∧
      ((∃ U1', User.findById (tasksPut objectIdEngine annBobStore reportId reassignReport).2
            report.assignedUser = some U1' ∧ report.id ∉ U1'.pendingTasks) ∧
        (∃ U2', User.findById (tasksPut objectIdEngine annBobStore reportId reassignReport).2
            bobId = some U2' ∧ report.id ∈ U2'.pendingTasks ∧ U2'.name = bob.name) ∧
        (∃ T', Task.findById (tasksPut objectIdEngine annBobStore reportId reassignReport).2
            reportId = some T' ∧ T'.completed = false ∧ T'.assignedUser = bobId ∧
            T'.assignedUserName = bob.name)) :=
  ⟨by decide, by decide, by decide, by decide, by decide, by decide, by decide, by decide,
    by decide, by decide, by decide,
    tasksPut_reassign objectIdEngine annBobStore
      (tasksPut objectIdEngine annBobStore reportId reassignReport).2 reportId reassignReport
      (tasksPut objectIdEngine annBobStore reportId reassignReport).1 report ann bob bobId
      (by decide) (by decide) (by decide) (by decide) (by decide) (by decide) (by decide)
      (by decide) (by decide) rfl (by decide)⟩

/-- C3: a successful update that completes the incomplete task `T` of the
existing user `U` and keeps its assignee leaves `T` out of `U`'s pending list,
stores `completed = true` and keeps `assignedUser`. -/
theorem tasksPut_complete (E : Engine) (s s' : Store) (id : String) (body : TaskBody)
    (r : Reply) (T : Task) (U : User)
    (hT : Task.findById s id = some T)
    (hne : T.assignedUser ≠ "") (hU : User.findById s T.assignedUser = some U)
    (hbody : body.completed = some true)
    (hsame : body.assignedUser = none ∨ body.assignedUser = some T.assignedUser)
    (hrun : tasksPut E s id body = (r, s')) (hok : r.isOk = true) :
    (∃ U', User.findById s' T.assignedUser = some U' ∧ T.id ∉ U'.pendingTasks ∧
        U'.pendingTasks = U.pendingTasks.filter (fun x => decide (x ≠ T.id))) ∧
      (∃ T', Task.findById s' id = some T' ∧ T'.completed = true ∧
        T'.assignedUser = T.assignedUser) := by
  have hid : T.id = id := findTask_id hT
  obtain ⟨T0, nm, s2, task2, hT0, -, -, -, -, -, hres, hsync, -, rfl⟩ := tasksPut_ok hrun hok
  rw [hT] at hT0
  cases hT0
  have hassigned : body.assignedUser.getD T.assignedUser = T.assignedUser := by
    rcases hsame with h | h <;> simp [h]
  simp only [hbody, hassigned, Option.getD_some] at hres hsync
  obtain ⟨s1, hd, ha⟩ := syncUserPending_done hsync
  rw [detachPrev_skip] at hd
  swap
  · exact Or.inr rfl
  cases hd
  obtain ⟨htask2, hfind2⟩ := attachNew_assigned ha (by simpa using hne) hU
  simp only [Bool.true_eq_false, if_false] at hfind2
  refine ⟨⟨{ U with pendingTasks := U.pendingTasks.filter (fun x => decide (x ≠ T.id)) },
    ?_, ?_, rfl⟩, task2, ?_, ?_⟩
  · rw [findUser_taskSave, hfind2]
    simp
  · simp
  · rw [findTask_save, findTask_congr (attachNew_tasks ha), hT, htask2]
    simp [hid]
  · rw [htask2]
    exact ⟨rfl, rfl⟩

/-- Witness of C3: `report` of `ann` is completed. -/
theorem tasksPut_complete_witness :
    Task.findById annStore reportId = some report ∧ report.completed = false ∧
      report.assignedUser ≠ "" ∧ User.findById annStore report.assignedUser = some ann ∧
      completeReport.completed = some true ∧ completeReport.assignedUser = none ∧
      (tasksPut objectIdEngine annStore reportId completeReport).1.isOk = true ∧
      ((∃ U', User.findById (tasksPut objectIdEngine annStore reportId completeReport).2
            report.assignedUser = some U' ∧ report.id ∉ U'.pendingTasks ∧
            U'.pendingTasks = ann.pendingTasks.filter (fun x => decide (x ≠ report.id))) ∧
        (∃ T', Task.findById (tasksPut objectIdEngine annStore reportId completeReport).2
            reportId = some T' ∧ T'.completed = true ∧
            T'.assignedUser = report.assignedUser)) :=
  ⟨by decide, by decide, by decide, by decide, by decide, by decide, by decide,
    tasksPut_complete objectIdEngine annStore
      (tasksPut objectIdEngine annStore reportId completeReport).2 reportId completeReport
      (tasksPut objectIdEngine annStore reportId completeReport).1 report ann
      (by decide) (by decide) (by decide) (by decide) (Or.inl (by decide)) rfl (by decide)⟩

/-- C9: after a successful task update, submitting the identical update again
leaves the user collection, hence every user's pending list, exactly as the
first update left it, whether the second submission succeeds or is rejected. -/
theorem tasksPut_resubmit (E : Engine) (s0 s1 : Store) (id : String) (body : TaskBody)
    (r : Reply) (hrun : tasksPut E s0 id body = (r, s1)) (hok : r.isOk = true) :
    (tasksPut E s1 id body).2.users = s1.users := by
  obtain ⟨T, nm, s2, task2, hT, hTc, hv, hname, hdl, -, hres, hsync, -, rfl⟩ :=
    tasksPut_ok hrun hok
  have hid : T.id = id := findTask_id hT
  obtain ⟨sd, hd, ha⟩ := syncUserPending_done hsync
  have htasks : s2.tasks = s0.tasks := (attachNew_tasks ha).trans (detachPrev_tasks hd)
  -- the stored task after the first update
  have hfacts : task2.id = id ∧
      task2.completed = body.completed.getD T.completed ∧
      task2.assignedUser = body.assignedUser.getD T.assignedUser ∧
      (task2.assignedUser = "" ∨
        ∃ u, User.findById s2 task2.assignedUser = some u ∧
          (body.completed.getD T.completed = false → id ∈ u.pendingTasks)) := by
    rcases resolveAssignee_ok hres with h0 | ⟨-, u, hu, -⟩
    · rw [attachNew_unassigned E sd _ h0] at ha
      cases ha
      exact ⟨hid, rfl, rfl, Or.inl h0⟩
    · by_cases h0 : body.assignedUser.getD T.assignedUser = ""
      · rw [attachNew_unassigned E sd _ h0] at ha
        cases ha
        exact ⟨hid, rfl, rfl, Or.inl h0⟩
      · have husd : User.findById sd (body.assignedUser.getD T.assignedUser) = some u := by
          by_cases hskip : T.assignedUser = "" ∨
              T.assignedUser = body.assignedUser.getD T.assignedUser
          · rw [detachPrev_skip] at hd
            swap
            · exact hskip
            cases hd
            exact hu
          · rw [detachPrev_findById hd]
            have hne : ¬ body.assignedUser.getD T.assignedUser = T.assignedUser :=
              fun e => hskip (Or.inr e.symm)
            simp [hne, hu]
        obtain ⟨htask2, hfind2⟩ := attachNew_assigned ha (by simpa using h0) husd
        refine ⟨by rw [htask2]; exact hid, by rw [htask2], by rw [htask2], Or.inr ?_⟩
        refine ⟨_, by rw [htask2]; exact (hfind2 _).trans (if_pos rfl), ?_⟩
        intro hc
        simp only [hc, if_true, ← hid]
        by_cases hin : T.id ∈ u.pendingTasks <;> simp [hin]
  obtain ⟨h2id, h2c, h2a, h2u⟩ := hfacts
  have hT2 : Task.findById (Task.save s2 task2) id = some task2 := by
    rw [findTask_save, findTask_congr htasks, hT]
    simp [h2id]
  unfold tasksPut
  have hnd : ¬ (truthy body.name = false ∨ truthy body.deadline = false) := by
    simp [hname, hdl]
  simp only [hv, hnd, hT2, if_false, Bool.true_eq_false]
  by_cases hc2 : task2.completed = true
  · simp [hc2]
  · have hc2' : task2.completed = false := by simpa using hc2
    simp only [hc2', Bool.false_eq_true, if_false]
    have hassigned : body.assignedUser.getD task2.assignedUser = task2.assignedUser := by
      rw [h2a]
      cases body.assignedUser <;> rfl
    have hcompleted : body.completed.getD false = false := by
      rw [h2c] at hc2'
      cases hb : body.completed with
      | none => rfl
      | some c => rw [hb] at hc2'; exact hc2'
    rw [hassigned, hcompleted]
    cases hres2 : resolveAssignee E (Task.save s2 task2) task2.assignedUser
        body.assignedUserName with
    | error r0 => rfl
    | ok nm2 =>
      dsimp only
      unfold syncUserPending
      rw [detachPrev_skip]
      swap
      · exact Or.inr rfl
      dsimp only
      cases ha2 : attachNew E (Task.save s2 task2)
          { task2 with
            name := body.name.getD ""
            description := body.description.getD ""
            deadline := body.deadline.getD ""
            completed := false
            assignedUser := task2.assignedUser
            assignedUserName := nm2 } with
      | thrown sx =>
        unfold attachNew at ha2
        dsimp only at ha2
        split_ifs at ha2
        · split at ha2 <;> cases ha2
        · cases ha2; rfl
      | done sx tx =>
        have hnoop : sx = Task.save s2 task2 := by
          refine attachNew_noop ?_ ha2
          rcases h2u with h0 | ⟨u, hu, hmem⟩
          · exact Or.inl h0
          · refine Or.inr ⟨u, hu, rfl, ?_⟩
            rw [h2c] at hc2'
            simpa [h2id] using hmem hc2'
        subst hnoop
        dsimp only
        split_ifs <;> rfl

/-- Witness of C9: reassigning `report` to `bob` twice. -/
theorem tasksPut_resubmit_witness :
    (tasksPut objectIdEngine annBobStore reportId reassignReport).1.isOk = true ∧
      (tasksPut objectIdEngine (tasksPut objectIdEngine annBobStore reportId reassignReport).2
          reportId reassignReport).2.users
        = (tasksPut objectIdEngine annBobStore reportId reassignReport).2.users :=
  ⟨by decide,
    tasksPut_resubmit objectIdEngine annBobStore
      (tasksPut objectIdEngine annBobStore reportId reassignReport).2 reportId reassignReport
      (tasksPut objectIdEngine annBobStore reportId reassignReport).1 rfl (by decide)⟩

/-! ## Writes of the user handlers to the task collection -/

theorem foldl_save_users (c : Task → Prop) [DecidablePred c] (g : Task → Task)
    (ts : List Task) (s : Store) :
    (ts.foldl (fun st t => if c t then Task.save st (g t) else st) s).users = s.users := by
  induction ts generalizing s with
  | nil => rfl
  | cons t ts ih =>
    rw [List.foldl_cons, ih]
    split_ifs <;> rfl

theorem foldl_save_tasks (c : Task → Prop) [DecidablePred c] (g : Task → Task)
    (ts : List Task) (s : Store) :
    (ts.foldl (fun st t => if c t then Task.save st (g t) else st) s).tasks
      = s.tasks.map (fun x =>
          ts.foldl (fun y t => if c t ∧ y.id = (g t).id then g t else y) x) := by
  induction ts generalizing s with
  | nil => simp
  | cons t ts ih =>
    rw [List.foldl_cons, ih]
    by_cases hc : c t
    · simp only [hc, if_true, Task.save, List.map_map, true_and, List.foldl_cons]
      rfl
    · simp [hc]

theorem foldl_replace_other (c : Task → Prop) [DecidablePred c] (g : Task → Task)
    (hg : ∀ t, (g t).id = t.id) (x : Task) (ts : List Task)
    (hother : ∀ t ∈ ts, t.id ≠ x.id) (y : Task) (hy : y.id = x.id) :
    ts.foldl (fun y t => if c t ∧ y.id = (g t).id then g t else y) y = y := by
  induction ts with
  | nil => rfl
  | cons t ts ih =>
    rw [List.foldl_cons]
    have ht : ¬ y.id = (g t).id := by
      rw [hg, hy]
      exact fun e => hother t (List.mem_cons_self _ _) e.symm
    simp only [ht, and_false, if_false]
    exact ih (fun t' h' => hother t' (List.mem_cons_of_mem _ h'))

theorem foldl_replace_self (c : Task → Prop) [DecidablePred c] (g : Task → Task)
    (hg : ∀ t, (g t).id = t.id) (x : Task) (ts : List Task) (hnodup : ts.Nodup)
    (hinj : ∀ t ∈ ts, t.id = x.id → t = x) (hx : x ∈ ts) :
    ts.foldl (fun y t => if c t ∧ y.id = (g t).id then g t else y) x
      = if c x then g x else x := by
  induction ts with
  | nil => simp at hx
  | cons t ts ih =>
    rw [List.foldl_cons]
    have hnd := List.nodup_cons.mp hnodup
    by_cases htx : t = x
    · subst htx
      have hother : ∀ t' ∈ ts, t'.id ≠ t.id := by
        intro t' h' e
        have := hinj t' (List.mem_cons_of_mem _ h') e
        exact hnd.1 (this ▸ h')
      have hstep : (if c t ∧ t.id = (g t).id then g t else t) = if c t then g t else t := by
        simp [hg]
      rw [hstep]
      refine foldl_replace_other c g hg t ts hother _ ?_
      split_ifs
      · exact hg t
      · rfl
    · have hx' : x ∈ ts := by
        rcases List.mem_cons.mp hx with h | h
        · exact absurd h.symm htx
        · exact h
      have hne : ¬ x.id = (g t).id := by
        rw [hg]
        exact fun e => htx (hinj t (List.mem_cons_self _ _) e.symm)
      simp only [hne, and_false, if_false]
      exact ih hnd.2 (fun t' h' => hinj t' (List.mem_cons_of_mem _ h')) hx'

theorem nodup_of_ids {l : List Task} (h : (l.map Task.id).Nodup) : l.Nodup :=
  List.Nodup.of_map Task.id h

theorem eq_of_id_eq {l : List Task} (h : (l.map Task.id).Nodup) {a b : Task}
    (ha : a ∈ l) (hb : b ∈ l) (hab : a.id = b.id) : a = b :=
  List.inj_on_of_nodup_map h ha hb hab

/-- Saving `g t` for every fetched task `t` that satisfies `c` rewrites exactly
the listed tasks that satisfy `c`. -/
theorem foldl_save_find (c : Task → Prop) [DecidablePred c] (g : Task → Task)
    (hg : ∀ t, (g t).id = t.id) (s : Store) (hnodup : (s.tasks.map Task.id).Nodup)
    (ids : List String) :
    ((Task.find s ids).foldl (fun st t => if c t then Task.save st (g t) else st) s).tasks
      = s.tasks.map (fun x => if x.id ∈ ids ∧ c x then g x else x) := by
  rw [foldl_save_tasks]
  apply List.map_congr_left
  intro x hx
  have hinj : ∀ t ∈ Task.find s ids, t.id = x.id → t = x := by
    intro t ht e
    exact eq_of_id_eq hnodup (List.mem_of_mem_filter ht) hx e
  by_cases hin : x.id ∈ ids
  · have hxf : x ∈ Task.find s ids := by
      unfold Task.find
      rw [List.mem_filter]
      exact ⟨hx, by simpa using hin⟩
    have hnd : (Task.find s ids).Nodup := (nodup_of_ids hnodup).filter _
    rw [foldl_replace_self c g hg x (Task.find s ids) hnd hinj hxf]
    simp [hin]
  · have hother : ∀ t ∈ Task.find s ids, t.id ≠ x.id := by
      intro t ht e
      unfold Task.find at ht
      rw [List.mem_filter] at ht
      have : t.id ∈ ids := by simpa using ht.2
      exact hin (e ▸ this)
    rw [foldl_replace_other c g hg x (Task.find s ids) hother x rfl]
    simp [hin]

theorem unassignAll_users (s : Store) (ts : List Task) (id : String) :
    (unassignAll s ts id).users = s.users :=
  foldl_save_users (fun t => t.assignedUser = id)
    (fun t => { t with assignedUser := "", assignedUserName := "unassigned" }) ts s

theorem unassignAll_find (s : Store) (hnodup : (s.tasks.map Task.id).Nodup)
    (ids : List String) (id : String) :
    (unassignAll s (Task.find s ids) id).tasks
      = s.tasks.map (fun x =>
          if x.id ∈ ids ∧ x.assignedUser = id then
            { x with assignedUser := "", assignedUserName := "unassigned" }
          else x) :=
  foldl_save_find (fun t => t.assignedUser = id)
    (fun t => { t with assignedUser := "", assignedUserName := "unassigned" })
    (fun _ => rfl) s hnodup ids

theorem assignAll_users (s : Store) (ts : List Task) (userId userName : String) :
    (assignAll s ts userId userName).users = s.users := by
  have h := foldl_save_users (fun _ => True)
    (fun t => { t with assignedUser := userId, assignedUserName := userName }) ts s
  simpa only [if_true] using h

theorem assignAll_find (s : Store) (hnodup : (s.tasks.map Task.id).Nodup)
    (ids : List String) (userId userName : String) :
    (assignAll s (Task.find s ids) userId userName).tasks
      = s.tasks.map (fun x =>
          if x.id ∈ ids then { x with assignedUser := userId, assignedUserName := userName }
          else x) := by
  have h := foldl_save_find (fun _ => True)
    (fun t => { t with assignedUser := userId, assignedUserName := userName })
    (fun _ => rfl) s hnodup ids
  simpa only [if_true, and_true] using h

theorem findTask_of_mem {s : Store} (hnodup : (s.tasks.map Task.id).Nodup) {t : Task}
    (ht : t ∈ s.tasks) : Task.findById s t.id = some t := by
  unfold Task.findById
  cases hf : s.tasks.find? (fun x => decide (x.id = t.id)) with
  | none =>
    rw [List.find?_eq_none] at hf
    exact absurd (hf t ht) (by simp)
  | some x =>
    have hx : x ∈ s.tasks := List.mem_of_find?_eq_some hf
    have hid : x.id = t.id := by simpa using List.find?_some hf
    rw [eq_of_id_eq hnodup hx ht hid]

theorem find_id_map_keep (f : Task → Task) (hf : ∀ t, (f t).id = t.id) (l : List Task)
    (i : String) :
    (l.map f).find? (fun x => decide (x.id = i))
      = (l.find? (fun x => decide (x.id = i))).map f := by
  induction l with
  | nil => rfl
  | cons a l ih =>
    rw [List.map_cons, List.find?_cons, List.find?_cons, ih, hf]
    by_cases h : a.id = i <;> simp [h]

/-! ## User deletion -/

theorem find_nil (s : Store) : Task.find s [] = [] := by
  unfold Task.find
  simp

theorem usersDelete_ok {E : Engine} {s s' : Store} {id : String} {r : Reply}
    (hrun : usersDelete E s id = (r, s')) (hok : r.isOk = true) :
    ∃ U, User.findById s id = some U ∧ E.isValid id = true ∧
      (∀ x ∈ U.pendingTasks, E.isValid x = true) ∧
      s' = User.deleteOne (unassignAll s (Task.find s U.pendingTasks) id) U := by
  unfold usersDelete at hrun
  have hfail : ∀ (m : String) (c : Nat) (x : Store), (Reply.fail m c, x) = (r, s') → False := by
    intro m c x h
    have : r = Reply.fail m c := (Prod.mk.inj h).1.symm
    rw [this] at hok
    exact absurd hok (by simp [Reply.isOk])
  by_cases h1 : E.isValid id = false
  · rw [if_pos h1] at hrun; exact (hfail _ _ _ hrun).elim
  rw [if_neg h1] at hrun
  cases hU : User.findById s id with
  | none => rw [hU] at hrun; exact (hfail _ _ _ hrun).elim
  | some U =>
    rw [hU] at hrun
    dsimp only at hrun
    refine ⟨U, rfl, by simpa using h1, ?_⟩
    by_cases h2 : U.pendingTasks.length ≠ 0
    · rw [if_pos h2] at hrun
      by_cases h3 : U.pendingTasks.any (fun x => E.isValid x = false) = true
      · rw [if_pos h3] at hrun; exact (hfail _ _ _ hrun).elim
      · rw [if_neg h3] at hrun
        refine ⟨?_, (Prod.mk.inj hrun).2.symm⟩
        intro x hx
        by_contra hv
        exact h3 (List.any_eq_true.mpr ⟨x, hx, by simpa using hv⟩)
    · rw [if_neg h2] at hrun
      have hnil : U.pendingTasks = [] := List.length_eq_zero.mp (by simpa using h2)
      refine ⟨by simp [hnil], ?_⟩
      rw [hnil, find_nil]
      exact (Prod.mk.inj hrun).2.symm

theorem foldl_newSet_mem (l acc : List String) (x : String) :
    x ∈ l.foldl (fun acc x => if x ∈ acc then acc else acc ++ [x]) acc ↔ x ∈ acc ∨ x ∈ l := by
  induction l generalizing acc with
  | nil => simp
  | cons a l ih =>
    rw [List.foldl_cons, ih]
    by_cases ha : a ∈ acc
    · simp only [ha, if_true, List.mem_cons]
      constructor
      · rintro (h | h)
        · exact Or.inl h
        · exact Or.inr (Or.inr h)
      · rintro (h | h | h)
        · exact Or.inl h
        · exact Or.inl (h ▸ ha)
        · exact Or.inr h
    · simp only [ha, if_false, List.mem_append, List.mem_singleton, List.mem_cons]
      tauto

theorem mem_newSet (l : List String) (x : String) : x ∈ newSet l ↔ x ∈ l := by
  unfold newSet
  rw [foldl_newSet_mem]
  simp

theorem foldl_newSet_nodup (l acc : List String) (h : (acc ++ l).Nodup) :
    l.foldl (fun acc x => if x ∈ acc then acc else acc ++ [x]) acc = acc ++ l := by
  induction l generalizing acc with
  | nil => simp
  | cons a l ih =>
    rw [List.foldl_cons]
    have ha : a ∉ acc := by
      intro hmem
      rw [List.nodup_append] at h
      exact h.2.2 hmem (List.mem_cons_self _ _)
    simp only [ha, if_false]
    have h' : (acc ++ [a] ++ l).Nodup := by simpa using h
    rw [ih _ h']
    simp

theorem newSet_of_nodup (l : List String) (h : l.Nodup) : newSet l = l := by
  unfold newSet
  rw [foldl_newSet_nodup l [] (by simpa using h)]
  simp

/-- A pending list that passes the validation names existing incomplete tasks
only and, the task identifiers being unique, repeats none. -/
theorem checkPending_none {E : Engine} {s : Store} {l : List String} {msg : String}
    (hnodup : (s.tasks.map Task.id).Nodup) (h : checkPending E s l msg = none) :
    l.Nodup ∧ (∀ x ∈ l, E.isValid x = true) ∧
      ∀ x ∈ l, ∃ t ∈ s.tasks, t.id = x ∧ t.completed = false := by
  by_cases hl : l.length ≠ 0
  · unfold checkPending at h
    rw [if_pos hl] at h
    by_cases h1 : l.any (fun x => E.isValid x = false) = true
    · rw [if_pos h1] at h; cases h
    rw [if_neg h1] at h
    dsimp only at h
    by_cases h2 : (Task.find s l).length ≠ l.length
    · rw [if_pos h2] at h; cases h
    rw [if_neg h2] at h
    by_cases h3 : (Task.find s l).any (fun t => decide (t.completed = true)) = true
    · rw [if_pos h3] at h; cases h
    have hlen : (Task.find s l).length = l.length := by simpa using h2
    have hfnd : ((Task.find s l).map Task.id).Nodup := by
      unfold Task.find
      exact List.Nodup.sublist (List.Sublist.map _ (List.filter_sublist _)) hnodup
    have hsub : (Task.find s l).map Task.id ⊆ l := by
      intro x hx
      rw [List.mem_map] at hx
      obtain ⟨t, ht, rfl⟩ := hx
      unfold Task.find at ht
      rw [List.mem_filter] at ht
      simpa using ht.2
    have hperm : List.Perm ((Task.find s l).map Task.id) l :=
      (hfnd.subperm hsub).perm_of_length_le (by rw [List.length_map, hlen])
    refine ⟨hperm.nodup_iff.mp hfnd, ?_, ?_⟩
    · intro x hx
      by_contra hv
      exact h1 (List.any_eq_true.mpr ⟨x, hx, by simpa using hv⟩)
    · intro x hx
      have hx' := hperm.mem_iff.mpr hx
      rw [List.mem_map] at hx'
      obtain ⟨t, ht, rfl⟩ := hx'
      refine ⟨t, List.mem_of_mem_filter ht, rfl, ?_⟩
      by_contra hc
      exact h3 (List.any_eq_true.mpr ⟨t, ht, by simpa using hc⟩)
  · have hnil : l = [] := List.length_eq_zero.mp (by simpa using hl)
    subst hnil
    simp

theorem unassignAll_guard (s : Store) (l : List String) (id : String) :
    (if l.length ≠ 0 then unassignAll s (Task.find s l) id else s)
      = unassignAll s (Task.find s l) id := by
  by_cases h : l.length ≠ 0
  · rw [if_pos h]
  · rw [if_neg h]
    have hnil : l = [] := List.length_eq_zero.mp (by simpa using h)
    rw [hnil, find_nil]
    rfl

theorem assignAll_guard (s : Store) (l : List String) (id name : String) :
    (if l.length ≠ 0 then assignAll s (Task.find s l) id name else s)
      = assignAll s (Task.find s l) id name := by
  by_cases h : l.length ≠ 0
  · rw [if_pos h]
  · rw [if_neg h]
    have hnil : l = [] := List.length_eq_zero.mp (by simpa using h)
    rw [hnil, find_nil]
    rfl

theorem usersPut_ok {E : Engine} {s s' : Store} {id : String} {body : UserBody} {r : Reply}
    (hrun : usersPut E s id body = (r, s')) (hok : r.isOk = true) :
    ∃ U s1 s2, User.findById s id = some U ∧ E.isValid id = true ∧
      truthy body.name = true ∧ truthy body.email = true ∧
      checkPending E s (body.pendingTasks.getD []) "Failed to update user" = none ∧
      s1 = User.save s { U with
        name := body.name.getD ""
        email := body.email.getD ""
        pendingTasks := newSet (body.pendingTasks.getD []) } ∧
      s2 = unassignAll s1
        (Task.find s1 ((newSet U.pendingTasks).filter
          (fun x => decide (x ∉ newSet (body.pendingTasks.getD []))))) id ∧
      s' = assignAll s2
        (Task.find s2 ((newSet (body.pendingTasks.getD [])).filter
          (fun x => decide (x ∉ newSet U.pendingTasks)))) id (body.name.getD "") := by
  unfold usersPut at hrun
  have hfail : ∀ (r0 : Reply) (x : Store), r0.isOk = false → (r0, x) = (r, s') → False := by
    intro r0 x h0 h
    have : r = r0 := (Prod.mk.inj h).1.symm
    rw [this, h0] at hok
    exact absurd hok (by simp)
  have hfail2 : ∀ (m : String) (c : Nat) (x : Store), (Reply.fail m c, x) = (r, s') → False :=
    fun m c x h => hfail (Reply.fail m c) x rfl h
  by_cases h1 : E.isValid id = false
  · rw [if_pos h1] at hrun; exact (hfail2 _ _ _ hrun).elim
  rw [if_neg h1] at hrun
  dsimp only at hrun
  by_cases h2 : truthy body.name = false ∨ truthy body.email = false
  · rw [if_pos h2] at hrun; exact (hfail2 _ _ _ hrun).elim
  rw [if_neg h2] at hrun
  cases hU : User.findById s id with
  | none => rw [hU] at hrun; exact (hfail2 _ _ _ hrun).elim
  | some U =>
    rw [hU] at hrun
    dsimp only at hrun
    by_cases h3 : body.email.getD "" ≠ U.email ∧ (User.findOne s (body.email.getD "")).isSome = true
    · rw [if_pos h3] at hrun; exact (hfail2 _ _ _ hrun).elim
    rw [if_neg h3] at hrun
    cases hchk : checkPending E s (body.pendingTasks.getD []) "Failed to update user" with
    | some r0 =>
      rw [hchk] at hrun
      exact (hfail _ _ (checkPending_fail hchk).1 hrun).elim
    | none =>
      rw [hchk] at hrun
      dsimp only at hrun
      have h2a : truthy body.name = true := by
        by_contra hc; exact h2 (Or.inl (by simpa using hc))
      have h2b : truthy body.email = true := by
        by_contra hc; exact h2 (Or.inr (by simpa using hc))
      refine ⟨U, _, _, rfl, by simpa using h1, h2a, h2b, rfl, rfl, rfl, ?_⟩
      rw [unassignAll_guard, assignAll_guard] at hrun
      split_ifs at hrun with h4
      · exact (hfail2 _ _ _ hrun).elim
      · exact (Prod.mk.inj hrun).2.symm

theorem idsOk_userSave {E : Engine} {s : Store} {u : User} (hs : s.IdsOk E) (hu : u.IdsOk E) :
    (User.save s u).IdsOk E := by
  refine ⟨hs.1, ?_⟩
  intro x hx
  unfold User.save at hx
  rw [List.mem_map] at hx
  obtain ⟨y, hy, rfl⟩ := hx
  split_ifs
  · exact hu
  · exact hs.2 y hy

theorem idsOk_taskSave {E : Engine} {s : Store} {t : Task} (hs : s.IdsOk E) (ht : t.IdsOk E) :
    (Task.save s t).IdsOk E := by
  refine ⟨?_, hs.2⟩
  intro x hx
  unfold Task.save at hx
  rw [List.mem_map] at hx
  obtain ⟨y, hy, rfl⟩ := hx
  split_ifs
  · exact ht
  · exact hs.1 y hy

theorem idsOk_filter (E : Engine) (u : User) (hu : u.IdsOk E) (p : String → Bool) :
    User.IdsOk E { u with pendingTasks := u.pendingTasks.filter p } :=
  ⟨hu.1, fun x hx => hu.2 x (List.mem_of_mem_filter hx)⟩

theorem idsOk_detachPrev {E : Engine} {s s1 : Store} {task : Task} {prev : Option String}
    (hs : s.IdsOk E) (h : detachPrev E s task prev = some s1) : s1.IdsOk E := by
  unfold detachPrev at h
  dsimp only at h
  by_cases h1 : truthy prev = true ∧ prev ≠ some task.assignedUser
  · rw [if_pos h1] at h
    by_cases h2 : E.isValid (prev.getD "") = true
    · rw [if_pos h2] at h
      cases hu : User.findById s (prev.getD "") with
      | none => rw [hu] at h; cases h; exact hs
      | some pu =>
        rw [hu] at h
        cases h
        exact idsOk_userSave hs (idsOk_filter E pu (hs.2 pu (findUser_mem hu)) _)
    · rw [if_neg h2] at h; cases h
  · rw [if_neg h1] at h; cases h; exact hs

theorem idsOk_attachNew {E : Engine} {s1 : Store} {task : Task}
    (hs : s1.IdsOk E) (ht : E.isValid task.id = true) :
    (attachNew E s1 task).store.IdsOk E := by
  unfold attachNew
  dsimp only
  by_cases h1 : task.assignedUser ≠ ""
  · rw [if_pos h1]
    by_cases h2 : E.isValid task.assignedUser = true
    · rw [if_pos h2]
      cases hu : User.findById s1 task.assignedUser with
      | none => exact hs
      | some u =>
        have huok := hs.2 u (findUser_mem hu)
        have hpush : User.IdsOk E { u with pendingTasks := u.pendingTasks ++ [task.id] } := by
          refine ⟨huok.1, fun x hx => ?_⟩
          rcases List.mem_append.mp hx with h | h
          · exact huok.2 x h
          · rw [List.mem_singleton.mp h]; exact ht
        dsimp only [SyncResult.store]
        by_cases hA : decide (task.completed = false) = true ∧
            decide (task.id ∈ u.pendingTasks) = false
        · have hB : ¬ (decide (task.completed = false) = false ∧
              decide (task.id ∈ u.pendingTasks) = true) := by
            intro hB
            rw [hA.1] at hB
            exact absurd hB.1 (by simp)
          simp only [hA, hB, and_self, if_true, if_false]
          exact idsOk_userSave hs hpush
        · by_cases hB : decide (task.completed = false) = false ∧
              decide (task.id ∈ u.pendingTasks) = true
          · simp only [hA, hB, and_self, if_true, if_false]
            exact idsOk_userSave hs (idsOk_filter E u huok _)
          · simp only [hA, hB, if_false]
            exact hs
    · rw [if_neg h2]; exact hs
  · rw [if_neg h1]; exact hs

theorem attachNew_task {E : Engine} {s1 s2 : Store} {task task2 : Task}
    (h : attachNew E s1 task = .done s2 task2) :
    task2.id = task.id ∧ task2.completed = task.completed ∧
      (task2.assignedUser = task.assignedUser ∨ task2.assignedUser = "") := by
  unfold attachNew at h
  dsimp only at h
  by_cases h1 : task.assignedUser ≠ ""
  · rw [if_pos h1] at h
    by_cases h2 : E.isValid task.assignedUser = true
    · rw [if_pos h2] at h
      cases hu : User.findById s1 task.assignedUser with
      | none => rw [hu] at h; cases h; exact ⟨rfl, rfl, Or.inr rfl⟩
      | some u => rw [hu] at h; cases h; exact ⟨rfl, rfl, Or.inl rfl⟩
    · rw [if_neg h2] at h; cases h
  · rw [if_neg h1] at h; cases h; exact ⟨rfl, rfl, Or.inl rfl⟩

theorem idsOk_sync {E : Engine} {s : Store} {task : Task} (prev : Option String)
    (hs : s.IdsOk E) (ht : E.isValid task.id = true) :
    (syncUserPending E s task prev).store.IdsOk E := by
  unfold syncUserPending
  cases hd : detachPrev E s task prev with
  | none => exact hs
  | some s1 => exact idsOk_attachNew (idsOk_detachPrev hs hd) ht

theorem idsOk_sync_task {E : Engine} {s s2 : Store} {task task2 : Task} {prev : Option String}
    (ht : task.IdsOk E) (h : syncUserPending E s task prev = .done s2 task2) :
    task2.IdsOk E := by
  obtain ⟨s1, -, ha⟩ := syncUserPending_done h
  obtain ⟨hid, -, hau⟩ := attachNew_task ha
  refine ⟨by rw [hid]; exact ht.1, ?_⟩
  rcases hau with h | h
  · rw [h]; exact ht.2
  · exact Or.inl h

theorem idsOk_unassignAll {E : Engine} (ts : List Task) (id : String) (s : Store)
    (hs : s.IdsOk E) (hts : ∀ t ∈ ts, E.isValid t.id = true) :
    (unassignAll s ts id).IdsOk E := by
  unfold unassignAll
  induction ts generalizing s with
  | nil => exact hs
  | cons t ts ih =>
    rw [List.foldl_cons]
    refine ih _ ?_ (fun t' h' => hts t' (List.mem_cons_of_mem _ h'))
    split_ifs
    · exact idsOk_taskSave hs ⟨hts t (List.mem_cons_self _ _), Or.inl rfl⟩
    · exact hs

theorem idsOk_assignAll {E : Engine} (ts : List Task) (id name : String) (s : Store)
    (hs : s.IdsOk E) (hid : E.isValid id = true) (hts : ∀ t ∈ ts, E.isValid t.id = true) :
    (assignAll s ts id name).IdsOk E := by
  unfold assignAll
  induction ts generalizing s with
  | nil => exact hs
  | cons t ts ih =>
    rw [List.foldl_cons]
    refine ih _ ?_ (fun t' h' => hts t' (List.mem_cons_of_mem _ h'))
    exact idsOk_taskSave hs ⟨hts t (List.mem_cons_self _ _), Or.inr hid⟩

theorem idsOk_find {E : Engine} {s : Store} (hs : s.IdsOk E) (ids : List String) :
    ∀ t ∈ Task.find s ids, E.isValid t.id = true :=
  fun t ht => (hs.1 t (List.mem_of_mem_filter ht)).1

theorem idsOk_tasksPost {E : Engine} {s : Store} (newId : String) (body : TaskBody)
    (hs : s.IdsOk E) (hnew : E.isValid newId = true) : (tasksPost E s newId body).2.IdsOk E := by
  unfold tasksPost
  by_cases h1 : truthy body.name = false ∨ truthy body.deadline = false
  · rw [if_pos h1]; exact hs
  rw [if_neg h1]
  dsimp only
  cases hres : resolveAssignee E s (body.assignedUser.getD "") body.assignedUserName with
  | error r0 => exact hs
  | ok nm =>
    dsimp only
    by_cases h2 : E.validDeadline (body.deadline.getD "") = false
    · rw [if_pos h2]; exact hs
    rw [if_neg h2]
    have htask : Task.IdsOk E
        { id := newId
          name := body.name.getD ""
          description := body.description.getD ""
          deadline := body.deadline.getD ""
          completed := decide (body.completed = some true)
          assignedUser := body.assignedUser.getD ""
          assignedUserName := nm } := by
      refine ⟨hnew, ?_⟩
      rcases resolveAssignee_ok hres with h | ⟨h, -⟩
      · exact Or.inl h
      · exact Or.inr h
    have hs1 : (Task.create s
        { id := newId
          name := body.name.getD ""
          description := body.description.getD ""
          deadline := body.deadline.getD ""
          completed := decide (body.completed = some true)
          assignedUser := body.assignedUser.getD ""
          assignedUserName := nm }).IdsOk E := by
      refine ⟨?_, hs.2⟩
      intro t ht
      unfold Task.create at ht
      rcases List.mem_append.mp ht with h | h
      · exact hs.1 t h
      · rw [List.mem_singleton.mp h]; exact htask
    have hsync := idsOk_sync none hs1 htask.1
    cases hr : syncUserPending E (Task.create s
        { id := newId
          name := body.name.getD ""
          description := body.description.getD ""
          deadline := body.deadline.getD ""
          completed := decide (body.completed = some true)
          assignedUser := body.assignedUser.getD ""
          assignedUserName := nm })
        { id := newId
          name := body.name.getD ""
          description := body.description.getD ""
          deadline := body.deadline.getD ""
          completed := decide (body.completed = some true)
          assignedUser := body.assignedUser.getD ""
          assignedUserName := nm } none with
    | thrown s2 => rw [hr] at hsync; exact hsync
    | done s2 task2 =>
      rw [hr] at hsync
      exact idsOk_taskSave hsync (idsOk_sync_task htask hr)

theorem idsOk_tasksPut {E : Engine} {s : Store} (id : String) (body : TaskBody)
    (hs : s.IdsOk E) : (tasksPut E s id body).2.IdsOk E := by
  unfold tasksPut
  by_cases h1 : E.isValid id = false
  · rw [if_pos h1]; exact hs
  rw [if_neg h1]
  by_cases h2 : truthy body.name = false ∨ truthy body.deadline = false
  · rw [if_pos h2]; exact hs
  rw [if_neg h2]
  dsimp only
  cases hT : Task.findById s id with
  | none => exact hs
  | some T =>
    dsimp only
    by_cases h3 : T.completed = true
    · rw [if_pos h3]; exact hs
    rw [if_neg h3]
    cases hres : resolveAssignee E s (body.assignedUser.getD T.assignedUser)
        body.assignedUserName with
    | error r0 => exact hs
    | ok nm =>
      dsimp only
      have hTok := hs.1 T (findTask_mem hT)
      have htask : Task.IdsOk E
          { T with
            name := body.name.getD ""
            description := body.description.getD ""
            deadline := body.deadline.getD ""
            completed := body.completed.getD T.completed
            assignedUser := body.assignedUser.getD T.assignedUser
            assignedUserName := nm } := by
        refine ⟨hTok.1, ?_⟩
        rcases resolveAssignee_ok hres with h | ⟨h, -⟩
        · exact Or.inl h
        · exact Or.inr h
      have hsync := idsOk_sync (some T.assignedUser) hs htask.1
      cases hr : syncUserPending E s
          { T with
            name := body.name.getD ""
            description := body.description.getD ""
            deadline := body.deadline.getD ""
            completed := body.completed.getD T.completed
            assignedUser := body.assignedUser.getD T.assignedUser
            assignedUserName := nm } (some T.assignedUser) with
      | thrown s2 => rw [hr] at hsync; exact hsync
      | done s2 task2 =>
        rw [hr] at hsync
        dsimp only
        split_ifs
        · exact hsync
        · exact idsOk_taskSave hsync (idsOk_sync_task htask hr)

theorem idsOk_taskDeleteOne {E : Engine} {s : Store} (t : Task) (hs : s.IdsOk E) :
    (Task.deleteOne s t).IdsOk E :=
  ⟨fun x hx => hs.1 x (List.mem_of_mem_filter hx), hs.2⟩

theorem idsOk_userDeleteOne {E : Engine} {s : Store} (u : User) (hs : s.IdsOk E) :
    (User.deleteOne s u).IdsOk E :=
  ⟨hs.1, fun x hx => hs.2 x (List.mem_of_mem_filter hx)⟩

theorem idsOk_tasksDelete {E : Engine} {s : Store} (id : String) (hs : s.IdsOk E) :
    (tasksDelete E s id).2.IdsOk E := by
  unfold tasksDelete
  by_cases h1 : E.isValid id = false
  · rw [if_pos h1]; exact hs
  rw [if_neg h1]
  cases hT : Task.findById s id with
  | none => exact hs
  | some T =>
    dsimp only
    by_cases h2 : T.assignedUser ≠ ""
    · rw [if_pos h2]
      by_cases h3 : E.isValid T.assignedUser = false
      · rw [if_pos h3]; exact hs
      rw [if_neg h3]
      cases hu : User.findById s T.assignedUser with
      | none => exact idsOk_taskDeleteOne T hs
      | some u =>
        exact idsOk_taskDeleteOne T
          (idsOk_userSave hs (idsOk_filter E u (hs.2 u (findUser_mem hu)) _))
    · rw [if_neg h2]; exact idsOk_taskDeleteOne T hs

theorem checkPending_valid {E : Engine} {s : Store} {l : List String} {msg : String}
    (h : checkPending E s l msg = none) : ∀ x ∈ l, E.isValid x = true := by
  by_cases hl : l.length ≠ 0
  · unfold checkPending at h
    rw [if_pos hl] at h
    by_cases h1 : l.any (fun x => E.isValid x = false) = true
    · rw [if_pos h1] at h; cases h
    intro x hx
    by_contra hv
    exact h1 (List.any_eq_true.mpr ⟨x, hx, by simpa using hv⟩)
  · have hnil : l = [] := List.length_eq_zero.mp (by simpa using hl)
    subst hnil
    simp

theorem idsOk_usersPost {E : Engine} {s : Store} (newId : String) (body : UserBody)
    (hs : s.IdsOk E) (hnew : E.isValid newId = true) : (usersPost E s newId body).2.IdsOk E := by
  unfold usersPost
  dsimp only
  by_cases h1 : truthy body.name = false ∨ truthy body.email = false
  · rw [if_pos h1]; exact hs
  rw [if_neg h1]
  by_cases h2 : (User.findOne s (body.email.getD "")).isSome = true
  · rw [if_pos h2]; exact hs
  rw [if_neg h2]
  cases hchk : checkPending E s (body.pendingTasks.getD []) "Failed to create user" with
  | some r0 => exact hs
  | none =>
    dsimp only
    have hs1 : (User.create s
        { id := newId, name := body.name.getD "", email := body.email.getD "",
          pendingTasks := body.pendingTasks.getD [] }).IdsOk E := by
      refine ⟨hs.1, ?_⟩
      intro u hu
      unfold User.create at hu
      rcases List.mem_append.mp hu with h | h
      · exact hs.2 u h
      · rw [List.mem_singleton.mp h]
        exact ⟨hnew, checkPending_valid hchk⟩
    split_ifs
    · exact idsOk_assignAll _ _ _ _ hs1 hnew (idsOk_find hs1 _)
    · exact hs1

theorem idsOk_usersPut {E : Engine} {s : Store} (id : String) (body : UserBody)
    (hs : s.IdsOk E) : (usersPut E s id body).2.IdsOk E := by
  unfold usersPut
  by_cases h1 : E.isValid id = false
  · rw [if_pos h1]; exact hs
  rw [if_neg h1]
  dsimp only
  by_cases h2 : truthy body.name = false ∨ truthy body.email = false
  · rw [if_pos h2]; exact hs
  rw [if_neg h2]
  cases hU : User.findById s id with
  | none => exact hs
  | some U =>
    dsimp only
    by_cases h3 : body.email.getD "" ≠ U.email ∧ (User.findOne s (body.email.getD "")).isSome = true
    · rw [if_pos h3]; exact hs
    rw [if_neg h3]
    cases hchk : checkPending E s (body.pendingTasks.getD []) "Failed to update user" with
    | some r0 => exact hs
    | none =>
      dsimp only
      have hid : E.isValid id = true := by simpa using h1
      have hs1 : (User.save s { U with
          name := body.name.getD ""
          email := body.email.getD ""
          pendingTasks := newSet (body.pendingTasks.getD []) }).IdsOk E := by
        refine idsOk_userSave hs ⟨(hs.2 U (findUser_mem hU)).1, ?_⟩
        intro x hx
        exact checkPending_valid hchk x ((mem_newSet _ x).mp hx)
      rw [unassignAll_guard, assignAll_guard]
      split_ifs
      · exact hs1
      · exact idsOk_assignAll _ _ _ _
          (idsOk_unassignAll _ _ _ hs1 (idsOk_find hs1 _)) hid
          (idsOk_find (idsOk_unassignAll _ _ _ hs1 (idsOk_find hs1 _)) _)

theorem idsOk_usersDelete {E : Engine} {s : Store} (id : String) (hs : s.IdsOk E) :
    (usersDelete E s id).2.IdsOk E := by
  unfold usersDelete
  by_cases h1 : E.isValid id = false
  · rw [if_pos h1]; exact hs
  rw [if_neg h1]
  cases hU : User.findById s id with
  | none => exact hs
  | some U =>
    dsimp only
    split_ifs
    · exact hs
    · exact idsOk_userDeleteOne U (idsOk_unassignAll _ _ _ hs (idsOk_find hs _))
    · exact idsOk_userDeleteOne U hs

/-- In every reachable store the identifiers of the documents, the assignee
references and the pending entries are well-formed. -/
theorem reachable_idsOk {E : Engine} {s : Store} (h : Reachable E s) : s.IdsOk E := by
  induction h with
  | start => exact ⟨fun t ht => absurd ht (List.not_mem_nil t),
      fun u hu => absurd hu (List.not_mem_nil u)⟩
  | taskCreate newId body _ hfresh ih => exact idsOk_tasksPost newId body ih hfresh.1
  | taskUpdate id body _ ih => exact idsOk_tasksPut id body ih
  | taskDelete id _ ih => exact idsOk_tasksDelete id ih
  | userCreate newId body _ hfresh ih => exact idsOk_usersPost newId body ih hfresh.1
  | userUpdate id body _ ih => exact idsOk_usersPut id body ih
  | userDelete id _ ih => exact idsOk_usersDelete id ih


/-! ## Name of an unassigned task -/

theorem tasksPost_ok {E : Engine} {s s' : Store} {newId : String} {body : TaskBody} {r : Reply}
    (hrun : tasksPost E s newId body = (r, s')) (hok : r.isOk = true) :
    ∃ nm s2 task2, truthy body.name = true ∧ truthy body.deadline = true ∧
      E.validDeadline (body.deadline.getD "") = true ∧
      resolveAssignee E s (body.assignedUser.getD "") body.assignedUserName = .ok nm ∧
      syncUserPending E
        (Task.create s
          { id := newId
            name := body.name.getD ""
            description := body.description.getD ""
            deadline := body.deadline.getD ""
            completed := decide (body.completed = some true)
            assignedUser := body.assignedUser.getD ""
            assignedUserName := nm })
        { id := newId
          name := body.name.getD ""
          description := body.description.getD ""
          deadline := body.deadline.getD ""
          completed := decide (body.completed = some true)
          assignedUser := body.assignedUser.getD ""
          assignedUserName := nm } none = .done s2 task2 ∧
      r = .ok "Created" 201 ∧ s' = Task.save s2 task2 := by
  unfold tasksPost at hrun
  have hfail : ∀ (r0 : Reply) (x : Store), r0.isOk = false → (r0, x) = (r, s') → False := by
    intro r0 x h0 h
    have : r = r0 := (Prod.mk.inj h).1.symm
    rw [this, h0] at hok
    exact absurd hok (by simp)
  have hfail2 : ∀ (m : String) (c : Nat) (x : Store), (Reply.fail m c, x) = (r, s') → False :=
    fun m c x h => hfail (Reply.fail m c) x rfl h
  by_cases h1 : truthy body.name = false ∨ truthy body.deadline = false
  · rw [if_pos h1] at hrun; exact (hfail2 _ _ _ hrun).elim
  rw [if_neg h1] at hrun
  dsimp only at hrun
  cases hres : resolveAssignee E s (body.assignedUser.getD "") body.assignedUserName with
  | error r0 =>
    rw [hres] at hrun
    exact (hfail _ _ (resolveAssignee_error hres) hrun).elim
  | ok nm =>
    rw [hres] at hrun
    dsimp only at hrun
    by_cases h2 : E.validDeadline (body.deadline.getD "") = false
    · rw [if_pos h2] at hrun; exact (hfail2 _ _ _ hrun).elim
    rw [if_neg h2] at hrun
    cases hsync : syncUserPending E
        (Task.create s
          { id := newId
            name := body.name.getD ""
            description := body.description.getD ""
            deadline := body.deadline.getD ""
            completed := decide (body.completed = some true)
            assignedUser := body.assignedUser.getD ""
            assignedUserName := nm })
        { id := newId
          name := body.name.getD ""
          description := body.description.getD ""
          deadline := body.deadline.getD ""
          completed := decide (body.completed = some true)
          assignedUser := body.assignedUser.getD ""
          assignedUserName := nm } none with
    | thrown s2 => rw [hsync] at hrun; exact (hfail2 _ _ _ hrun).elim
    | done s2 task2 =>
      rw [hsync] at hrun
      have h1a : truthy body.name = true := by
        by_contra hc; exact h1 (Or.inl (by simpa using hc))
      have h1b : truthy body.deadline = true := by
        by_contra hc; exact h1 (Or.inr (by simpa using hc))
      exact ⟨nm, s2, task2, h1a, h1b, by simpa using h2, rfl, hsync,
        (Prod.mk.inj hrun).1.symm, (Prod.mk.inj hrun).2.symm⟩

theorem attachNew_unassigned_name {E : Engine} {s1 s2 : Store} {task task2 : Task}
    (h : attachNew E s1 task = .done s2 task2) (h0 : task2.assignedUser = "") :
    task2.assignedUserName = "unassigned" := by
  unfold attachNew at h
  dsimp only at h
  by_cases h1 : task.assignedUser ≠ ""
  · rw [if_pos h1] at h
    by_cases h2 : E.isValid task.assignedUser = true
    · rw [if_pos h2] at h
      cases hu : User.findById s1 task.assignedUser with
      | none => rw [hu] at h; cases h; rfl
      | some u => rw [hu] at h; cases h; exact absurd h0 h1
    · rw [if_neg h2] at h; cases h
  · rw [if_neg h1] at h; cases h; rfl

/-- C12: after a successful task create or task update the stored task, when
its `assignedUser` is `''`, carries the `assignedUserName` `unassigned`,
whatever name the body submitted. -/
theorem unassigned_task_named_unassigned (E : Engine) (s : Store) (body : TaskBody) :
    (∀ newId, (tasksPost E s newId body).1.isOk = true →
        ∃ T, Task.findById (tasksPost E s newId body).2 newId = some T ∧
          (T.assignedUser = "" → T.assignedUserName = "unassigned")) ∧
      (∀ id, (tasksPut E s id body).1.isOk = true →
        ∃ T, Task.findById (tasksPut E s id body).2 id = some T ∧
          (T.assignedUser = "" → T.assignedUserName = "unassigned")) := by
  constructor
  · intro newId hok
    obtain ⟨nm, s2, task2, -, -, -, -, hsync, -, hs'⟩ :=
      tasksPost_ok (show tasksPost E s newId body
        = ((tasksPost E s newId body).1, (tasksPost E s newId body).2) from rfl) hok
    obtain ⟨s1, hd, ha⟩ := syncUserPending_done hsync
    have hid := (attachNew_task ha).1
    have htasks := (attachNew_tasks ha).trans (detachPrev_tasks hd)
    refine ⟨task2, ?_, attachNew_unassigned_name ha⟩
    rw [hs', findTask_save]
    simp only [hid, if_true]
    unfold Task.findById
    cases hf : s2.tasks.find? (fun t => decide (t.id = newId)) with
    | none =>
      rw [List.find?_eq_none, htasks] at hf
      exact absurd (hf _ (List.mem_append_right _ (List.mem_singleton_self _))) (by simp)
    | some x => rfl
  · intro id hok
    obtain ⟨T, nm, s2, task2, hT, -, -, -, -, -, -, hsync, -, hs'⟩ :=
      tasksPut_ok (show tasksPut E s id body
        = ((tasksPut E s id body).1, (tasksPut E s id body).2) from rfl) hok
    obtain ⟨s1, hd, ha⟩ := syncUserPending_done hsync
    have hTid : T.id = id := findTask_id hT
    have hid : task2.id = id := (attachNew_task ha).1.trans hTid
    refine ⟨task2, ?_, attachNew_unassigned_name ha⟩
    rw [hs', findTask_save, findTask_congr ((attachNew_tasks ha).trans (detachPrev_tasks hd)), hT]
    simp [hid]

/-- Witness of C12: `minutes` is created, and `report` updated, unassigned
with the submitted name `carol`. -/
theorem unassigned_task_named_unassigned_witness :
    (tasksPost objectIdEngine annStore slidesId unassignedAsCarol).1.isOk = true ∧
      (tasksPut objectIdEngine annStore reportId unassignedAsCarol).1.isOk = true ∧
      (∃ T, Task.findById (tasksPost objectIdEngine annStore slidesId unassignedAsCarol).2
          slidesId = some T ∧ (T.assignedUser = "" → T.assignedUserName = "unassigned")) ∧
      (∃ T, Task.findById (tasksPut objectIdEngine annStore reportId unassignedAsCarol).2
          reportId = some T ∧ (T.assignedUser = "" → T.assignedUserName = "unassigned")) :=
  ⟨by decide, by decide,
    (unassigned_task_named_unassigned objectIdEngine annStore unassignedAsCarol).1 slidesId
      (by decide),
    (unassigned_task_named_unassigned objectIdEngine annStore unassignedAsCarol).2 reportId
      (by decide)⟩


/-! ## Email uniqueness -/

theorem checkPending_reply {E : Engine} {s : Store} {l : List String} {msg : String} {r : Reply}
    (h : checkPending E s l msg = some r) :
    r = .fail msg 400 ∨ r = .fail "One or more task IDs do not exist" 400 ∨
      r = .fail "Cannot add completed tasks to pending tasks" 400 := by
  unfold checkPending at h
  dsimp only at h
  split_ifs at h <;> cases h
  · exact Or.inl rfl
  · exact Or.inr (Or.inl rfl)
  · exact Or.inr (Or.inr rfl)

theorem findOne_none {s : Store} {e : String} (h : (User.findOne s e).isSome ≠ true) :
    e ∉ s.users.map User.email := by
  intro hmem
  rw [List.mem_map] at hmem
  obtain ⟨u, hu, rfl⟩ := hmem
  apply h
  unfold User.findOne
  rw [List.find?_isSome]
  exact ⟨u, hu, by simp⟩

theorem findOne_some {s : Store} {v : User} (hv : v ∈ s.users) :
    (User.findOne s v.email).isSome = true := by
  unfold User.findOne
  rw [List.find?_isSome]
  exact ⟨v, hv, by simp⟩

theorem users_assignAll_guard (s : Store) (l : List String) (id name : String) :
    (if l.length ≠ 0 then assignAll s (Task.find s l) id name else s).users = s.users := by
  rw [assignAll_guard, assignAll_users]

theorem uniqueEmails_save {s : Store} (hemail : s.UniqueEmails)
    (hids : (s.users.map User.id).Nodup) {U : User} (hU : U ∈ s.users) (name e : String)
    (l : List String) (he : e = U.email ∨ e ∉ s.users.map User.email) :
    (User.save s { U with name := name, email := e, pendingTasks := l }).UniqueEmails := by
  unfold Store.UniqueEmails User.save
  dsimp only
  rw [List.map_map]
  refine List.Nodup.map_on ?_ (List.Nodup.of_map User.id hids)
  intro x hx y hy hxy
  simp only [Function.comp] at hxy
  have hinj : ∀ a ∈ s.users, ∀ b ∈ s.users, a.email = b.email → a = b :=
    fun a ha b hb hab => List.inj_on_of_nodup_map hemail ha hb hab
  have hidinj : ∀ a ∈ s.users, a.id = U.id → a = U :=
    fun a ha hab => List.inj_on_of_nodup_map hids ha hU hab
  by_cases hxU : x.id = U.id
  · by_cases hyU : y.id = U.id
    · rw [hidinj x hx hxU, hidinj y hy hyU]
    · rw [if_pos hxU, if_neg hyU] at hxy
      dsimp only at hxy
      rcases he with he | he
      · rw [he] at hxy
        exact absurd ((hinj U hU y hy hxy) ▸ rfl) hyU
      · exact absurd (hxy ▸ List.mem_map_of_mem User.email hy) he
  · by_cases hyU : y.id = U.id
    · rw [if_neg hxU, if_pos hyU] at hxy
      dsimp only at hxy
      rcases he with he | he
      · rw [he] at hxy
        exact absurd ((hinj x hx U hU hxy) ▸ rfl) hxU
      · exact absurd (hxy.symm ▸ List.mem_map_of_mem User.email hx) he
    · rw [if_neg hxU, if_neg hyU] at hxy
      exact hinj x hx y hy hxy

theorem uniqueEmails_usersPost {E : Engine} {s : Store} (hemail : s.UniqueEmails)
    (newId : String) (body : UserBody) : (usersPost E s newId body).2.UniqueEmails := by
  unfold usersPost
  dsimp only
  by_cases h1 : truthy body.name = false ∨ truthy body.email = false
  · rw [if_pos h1]; exact hemail
  rw [if_neg h1]
  by_cases h2 : (User.findOne s (body.email.getD "")).isSome = true
  · rw [if_pos h2]; exact hemail
  rw [if_neg h2]
  cases hchk : checkPending E s (body.pendingTasks.getD []) "Failed to create user" with
  | some r0 => exact hemail
  | none =>
    dsimp only
    have hs1 : (User.create s
        { id := newId, name := body.name.getD "", email := body.email.getD "",
          pendingTasks := body.pendingTasks.getD [] }).UniqueEmails := by
      unfold Store.UniqueEmails User.create
      dsimp only
      rw [List.map_append, List.nodup_append]
      refine ⟨hemail, by simp, ?_⟩
      intro a ha hb
      rw [List.map_singleton, List.mem_singleton] at hb
      rw [hb] at ha
      exact findOne_none h2 ha
    split_ifs
    · unfold Store.UniqueEmails
      rw [assignAll_users]
      exact hs1
    · exact hs1

theorem uniqueEmails_usersPut {E : Engine} {s : Store} (hemail : s.UniqueEmails)
    (hids : (s.users.map User.id).Nodup) (id : String) (body : UserBody) :
    (usersPut E s id body).2.UniqueEmails := by
  unfold usersPut
  by_cases h1 : E.isValid id = false
  · rw [if_pos h1]; exact hemail
  rw [if_neg h1]
  dsimp only
  by_cases h2 : truthy body.name = false ∨ truthy body.email = false
  · rw [if_pos h2]; exact hemail
  rw [if_neg h2]
  cases hU : User.findById s id with
  | none => exact hemail
  | some U =>
    dsimp only
    by_cases h3 : body.email.getD "" ≠ U.email ∧ (User.findOne s (body.email.getD "")).isSome = true
    · rw [if_pos h3]; exact hemail
    rw [if_neg h3]
    cases hchk : checkPending E s (body.pendingTasks.getD []) "Failed to update user" with
    | some r0 => exact hemail
    | none =>
      dsimp only
      have he : body.email.getD "" = U.email ∨ body.email.getD "" ∉ s.users.map User.email := by
        by_cases h4 : body.email.getD "" = U.email
        · exact Or.inl h4
        · exact Or.inr (findOne_none (fun h => h3 ⟨h4, h⟩))
      have hs1 := uniqueEmails_save hemail hids (findUser_mem hU) (body.name.getD "")
        (body.email.getD "") (newSet (body.pendingTasks.getD [])) he
      rw [unassignAll_guard, assignAll_guard]
      split_ifs
      · exact hs1
      · unfold Store.UniqueEmails
        rw [assignAll_users, unassignAll_users]
        exact hs1

/-- C13: in a store where no two users share an email (user identifiers being
unique), no two users share an email after any user create or user update,
whatever the reply; a create whose email is used fails and writes nothing; an
update whose email is used by a different user fails and writes nothing; an
update that keeps the user's own email is never answered `Email already
exists`. -/
theorem email_uniqueness (E : Engine) (s : Store) (hemail : s.UniqueEmails)
    (hids : (s.users.map User.id).Nodup) :
    (∀ newId body, (usersPost E s newId body).2.UniqueEmails) ∧
      (∀ id body, (usersPut E s id body).2.UniqueEmails) ∧
      (∀ newId body, (User.findOne s (body.email.getD "")).isSome = true →
        (usersPost E s newId body).1.isOk = false ∧ (usersPost E s newId body).2 = s) ∧
      (∀ id body U V, User.findById s id = some U → V ∈ s.users → V.id ≠ id →
        V.email = body.email.getD "" →
        (usersPut E s id body).1.isOk = false ∧ (usersPut E s id body).2 = s) ∧
      (∀ id body U, User.findById s id = some U → body.email.getD "" = U.email →
        (usersPut E s id body).1 ≠ Reply.fail "Email already exists" 400) := by
  refine ⟨uniqueEmails_usersPost hemail, uniqueEmails_usersPut hemail hids, ?_, ?_, ?_⟩
  · intro newId body hused
    unfold usersPost
    dsimp only
    split_ifs
    · exact ⟨rfl, rfl⟩
    · exact ⟨rfl, rfl⟩
  · intro id body U V hU hV hne hVe
    have hUid : U.id = id := findUser_id hU
    have hdiff : body.email.getD "" ≠ U.email := by
      intro h
      have : V = U := List.inj_on_of_nodup_map hemail hV (findUser_mem hU) (hVe.trans h)
      exact hne (this ▸ hUid)
    have hused : (User.findOne s (body.email.getD "")).isSome = true := hVe ▸ findOne_some hV
    unfold usersPut
    by_cases h1 : E.isValid id = false
    · rw [if_pos h1]; exact ⟨rfl, rfl⟩
    rw [if_neg h1]
    dsimp only
    by_cases h2 : truthy body.name = false ∨ truthy body.email = false
    · rw [if_pos h2]; exact ⟨rfl, rfl⟩
    rw [if_neg h2, hU]
    dsimp only
    rw [if_pos ⟨hdiff, hused⟩]
    exact ⟨rfl, rfl⟩
  · intro id body U hU hsame
    unfold usersPut
    by_cases h1 : E.isValid id = false
    · rw [if_pos h1]; exact fun h => by simp at h
    rw [if_neg h1]
    dsimp only
    by_cases h2 : truthy body.name = false ∨ truthy body.email = false
    · rw [if_pos h2]; exact fun h => by simp at h
    rw [if_neg h2, hU]
    dsimp only
    rw [if_neg (fun h => h.1 hsame)]
    cases hchk : checkPending E s (body.pendingTasks.getD []) "Failed to update user" with
    | some r0 =>
      dsimp only
      rcases checkPending_reply hchk with h | h | h <;> (rw [h]; exact fun h => by simp at h)
    | none =>
      dsimp only
      split_ifs <;> exact fun h => by simp at h

/-- Witness of C13: in `annBobStore`, creating `cara` with the email of `ann`
and updating `bob` to the email of `ann` fail and write nothing; renaming
`ann` with her own email is not answered `Email already exists`. -/
theorem email_uniqueness_witness :
    annBobStore.UniqueEmails ∧ (annBobStore.users.map User.id).Nodup ∧
      (usersPost objectIdEngine annBobStore nobodyId caraWithAnnEmail).2.UniqueEmails ∧
      (usersPut objectIdEngine annBobStore annId renameAnn).2.UniqueEmails ∧
      ((usersPost objectIdEngine annBobStore nobodyId caraWithAnnEmail).1.isOk = false ∧
        (usersPost objectIdEngine annBobStore nobodyId caraWithAnnEmail).2 = annBobStore) ∧
      ((usersPut objectIdEngine annBobStore bobId bobbyWithAnnEmail).1.isOk = false ∧
        (usersPut objectIdEngine annBobStore bobId bobbyWithAnnEmail).2 = annBobStore) ∧
      (usersPut objectIdEngine annBobStore annId renameAnn).1
        ≠ Reply.fail "Email already exists" 400 ∧
      (usersPut objectIdEngine annBobStore annId renameAnn).1 = Reply.ok "OK" 200 :=
  ⟨by decide, by decide,
    (email_uniqueness objectIdEngine annBobStore (by decide) (by decide)).1 nobodyId
      caraWithAnnEmail,
    (email_uniqueness objectIdEngine annBobStore (by decide) (by decide)).2.1 annId renameAnn,
    (email_uniqueness objectIdEngine annBobStore (by decide) (by decide)).2.2.1 nobodyId
      caraWithAnnEmail (by decide),
    (email_uniqueness objectIdEngine annBobStore (by decide) (by decide)).2.2.2.1 bobId
      bobbyWithAnnEmail bob ann (by decide) (by decide) (by decide) (by decide),
    (email_uniqueness objectIdEngine annBobStore (by decide) (by decide)).2.2.2.2 annId
      renameAnn ann (by decide) (by decide),
    by decide⟩


/-! ## Failures and writes -/

theorem attachNew_not_thrown {E : Engine} {s1 sx : Store} {task : Task}
    (hv : task.assignedUser = "" ∨ E.isValid task.assignedUser = true) :
    attachNew E s1 task ≠ .thrown sx := by
  unfold attachNew
  dsimp only
  intro h
  by_cases h1 : task.assignedUser ≠ ""
  · rw [if_pos h1] at h
    have h2 : E.isValid task.assignedUser = true := hv.resolve_left h1
    rw [if_pos h2] at h
    cases hu : User.findById s1 task.assignedUser with
    | none => rw [hu] at h; cases h
    | some u => rw [hu] at h; cases h
  · rw [if_neg h1] at h; cases h

theorem syncUserPending_thrown {E : Engine} {s sx : Store} {task : Task} {prev : Option String}
    (hv : task.assignedUser = "" ∨ E.isValid task.assignedUser = true)
    (h : syncUserPending E s task prev = .thrown sx) : sx = s := by
  unfold syncUserPending at h
  cases hd : detachPrev E s task prev with
  | none => rw [hd] at h; cases h; rfl
  | some s1 => rw [hd] at h; exact absurd h (attachNew_not_thrown hv)

theorem tasksPost_fail {E : Engine} {s : Store} (newId : String) (body : TaskBody)
    (h : (tasksPost E s newId body).1.isOk = false) : (tasksPost E s newId body).2 = s := by
  unfold tasksPost at h ⊢
  by_cases h1 : truthy body.name = false ∨ truthy body.deadline = false
  · rw [if_pos h1]
  rw [if_neg h1] at h ⊢
  dsimp only at h ⊢
  cases hres : resolveAssignee E s (body.assignedUser.getD "") body.assignedUserName with
  | error r0 => rfl
  | ok nm =>
    rw [hres] at h
    dsimp only at h ⊢
    by_cases h2 : E.validDeadline (body.deadline.getD "") = false
    · rw [if_pos h2]
    rw [if_neg h2] at h ⊢
    have hv : body.assignedUser.getD "" = "" ∨ E.isValid (body.assignedUser.getD "") = true := by
      rcases resolveAssignee_ok hres with h0 | ⟨h0, -⟩
      · exact Or.inl h0
      · exact Or.inr h0
    cases hsync : syncUserPending E
        (Task.create s
          { id := newId
            name := body.name.getD ""
            description := body.description.getD ""
            deadline := body.deadline.getD ""
            completed := decide (body.completed = some true)
            assignedUser := body.assignedUser.getD ""
            assignedUserName := nm })
        { id := newId
          name := body.name.getD ""
          description := body.description.getD ""
          deadline := body.deadline.getD ""
          completed := decide (body.completed = some true)
          assignedUser := body.assignedUser.getD ""
          assignedUserName := nm } none with
    | thrown sx =>
      unfold syncUserPending at hsync
      rw [show detachPrev E _ _ none = some _ from rfl] at hsync
      exact absurd hsync (attachNew_not_thrown hv)
    | done s2 task2 => rw [hsync] at h; exact absurd h (by simp [Reply.isOk])

theorem tasksPut_fail {E : Engine} {s : Store} (id : String) (body : TaskBody)
    (hdl : E.validDeadline (body.deadline.getD "") = true)
    (h : (tasksPut E s id body).1.isOk = false) : (tasksPut E s id body).2 = s := by
  unfold tasksPut at h ⊢
  by_cases h1 : E.isValid id = false
  · rw [if_pos h1]
  rw [if_neg h1] at h ⊢
  by_cases h2 : truthy body.name = false ∨ truthy body.deadline = false
  · rw [if_pos h2]
  rw [if_neg h2] at h ⊢
  dsimp only at h ⊢
  cases hT : Task.findById s id with
  | none => rfl
  | some T =>
    rw [hT] at h
    dsimp only at h ⊢
    by_cases h3 : T.completed = true
    · rw [if_pos h3]
    rw [if_neg h3] at h ⊢
    cases hres : resolveAssignee E s (body.assignedUser.getD T.assignedUser)
        body.assignedUserName with
    | error r0 => rfl
    | ok nm =>
      rw [hres] at h
      dsimp only at h ⊢
      have hv : body.assignedUser.getD T.assignedUser = "" ∨
          E.isValid (body.assignedUser.getD T.assignedUser) = true := by
        rcases resolveAssignee_ok hres with h0 | ⟨h0, -⟩
        · exact Or.inl h0
        · exact Or.inr h0
      cases hsync : syncUserPending E s
          { T with
            name := body.name.getD ""
            description := body.description.getD ""
            deadline := body.deadline.getD ""
            completed := body.completed.getD T.completed
            assignedUser := body.assignedUser.getD T.assignedUser
            assignedUserName := nm } (some T.assignedUser) with
      | thrown sx => exact syncUserPending_thrown hv hsync
      | done s2 task2 =>
        rw [hsync] at h
        dsimp only at h
        rw [if_neg (by simpa using hdl)] at h
        exact absurd h (by simp [Reply.isOk])

theorem tasksDelete_fail {E : Engine} {s : Store} (id : String)
    (h : (tasksDelete E s id).1.isOk = false) : (tasksDelete E s id).2 = s := by
  unfold tasksDelete at h ⊢
  by_cases h1 : E.isValid id = false
  · rw [if_pos h1]
  rw [if_neg h1] at h ⊢
  cases hT : Task.findById s id with
  | none => rfl
  | some T =>
    rw [hT] at h
    dsimp only at h ⊢
    by_cases h2 : T.assignedUser ≠ ""
    · rw [if_pos h2] at h ⊢
      by_cases h3 : E.isValid T.assignedUser = false
      · rw [if_pos h3]
      rw [if_neg h3] at h ⊢
      cases hu : User.findById s T.assignedUser with
      | none => rw [hu] at h; exact absurd h (by simp [Reply.isOk])
      | some u => rw [hu] at h; exact absurd h (by simp [Reply.isOk])
    · rw [if_neg h2] at h
      exact absurd h (by simp [Reply.isOk])

theorem usersPost_fail {E : Engine} {s : Store} (newId : String) (body : UserBody)
    (h : (usersPost E s newId body).1.isOk = false) : (usersPost E s newId body).2 = s := by
  unfold usersPost at h ⊢
  dsimp only at h ⊢
  by_cases h1 : truthy body.name = false ∨ truthy body.email = false
  · rw [if_pos h1]
  rw [if_neg h1] at h ⊢
  by_cases h2 : (User.findOne s (body.email.getD "")).isSome = true
  · rw [if_pos h2]
  rw [if_neg h2] at h ⊢
  cases hchk : checkPending E s (body.pendingTasks.getD []) "Failed to create user" with
  | some r0 => rfl
  | none =>
    rw [hchk] at h
    dsimp only at h
    split_ifs at h <;> exact absurd h (by simp [Reply.isOk])

theorem usersPut_fail {E : Engine} {s : Store} (hs : s.IdsOk E) (id : String) (body : UserBody)
    (h : (usersPut E s id body).1.isOk = false) : (usersPut E s id body).2 = s := by
  unfold usersPut at h ⊢
  by_cases h1 : E.isValid id = false
  · rw [if_pos h1]
  rw [if_neg h1] at h ⊢
  dsimp only at h ⊢
  by_cases h2 : truthy body.name = false ∨ truthy body.email = false
  · rw [if_pos h2]
  rw [if_neg h2] at h ⊢
  cases hU : User.findById s id with
  | none => rfl
  | some U =>
    rw [hU] at h
    dsimp only at h ⊢
    by_cases h3 : body.email.getD "" ≠ U.email ∧ (User.findOne s (body.email.getD "")).isSome = true
    · rw [if_pos h3]
    rw [if_neg h3] at h ⊢
    cases hchk : checkPending E s (body.pendingTasks.getD []) "Failed to update user" with
    | some r0 => rfl
    | none =>
      rw [hchk] at h
      dsimp only at h
      have hvalid : ¬ ((((newSet U.pendingTasks).filter
          (fun x => decide (x ∉ newSet (body.pendingTasks.getD [])))).length ≠ 0) ∧
          ((newSet U.pendingTasks).filter
            (fun x => decide (x ∉ newSet (body.pendingTasks.getD [])))).any
              (fun x => E.isValid x = false) = true) := by
        rintro ⟨-, hany⟩
        rw [List.any_eq_true] at hany
        obtain ⟨x, hx, hxv⟩ := hany
        have hx' : x ∈ U.pendingTasks := (mem_newSet _ x).mp (List.mem_of_mem_filter hx)
        have := (hs.2 U (findUser_mem hU)).2 x hx'
        rw [this] at hxv
        exact absurd hxv (by simp)
      rw [if_neg hvalid] at h
      exact absurd h (by simp [Reply.isOk])

theorem usersDelete_fail {E : Engine} {s : Store} (id : String)
    (h : (usersDelete E s id).1.isOk = false) : (usersDelete E s id).2 = s := by
  unfold usersDelete at h ⊢
  by_cases h1 : E.isValid id = false
  · rw [if_pos h1]
  rw [if_neg h1] at h ⊢
  cases hU : User.findById s id with
  | none => rfl
  | some U =>
    rw [hU] at h
    dsimp only at h ⊢
    split_ifs at h ⊢
    · rfl
    · exact absurd h (by simp [Reply.isOk])
    · exact absurd h (by simp [Reply.isOk])

/-- In a store whose identifiers are well-formed, a failure reply of any of the
six handlers comes with the store unchanged, except for a task update whose
deadline the schema rejects. -/
theorem failure_writes_nothing (E : Engine) (s : Store) (hs : s.IdsOk E) :
    (∀ newId body, (tasksPost E s newId body).1.isOk = false →
        (tasksPost E s newId body).2 = s) ∧
      (∀ id body, E.validDeadline (body.deadline.getD "") = true →
        (tasksPut E s id body).1.isOk = false → (tasksPut E s id body).2 = s) ∧
      (∀ id, (tasksDelete E s id).1.isOk = false → (tasksDelete E s id).2 = s) ∧
      (∀ newId body, (usersPost E s newId body).1.isOk = false →
        (usersPost E s newId body).2 = s) ∧
      (∀ id body, (usersPut E s id body).1.isOk = false → (usersPut E s id body).2 = s) ∧
      (∀ id, (usersDelete E s id).1.isOk = false → (usersDelete E s id).2 = s) :=
  ⟨tasksPost_fail, tasksPut_fail, tasksDelete_fail, usersPost_fail, usersPut_fail hs,
    usersDelete_fail⟩

/-- C11, at the failing request: `annBobStore` is reachable; updating `report`
with the assignee `bob` and the deadline `soon`, which the schema rejects, is
answered with the failure `Failed to update task` 400, yet `report` has left
the pending list of `ann` and entered that of `bob`, the task document itself
being unchanged. -/
theorem tasksPut_rejected_after_writes :
    Reachable objectIdEngine annBobStore ∧
      tasksPut objectIdEngine annBobStore reportId lateReassign
        = (Reply.fail "Failed to update task" 400,
            { tasks := [report],
              users := [{ ann with pendingTasks := [] }, { bob with pendingTasks := [reportId] }] }) ∧
      (tasksPut objectIdEngine annBobStore reportId lateReassign).2 ≠ annBobStore := by
  refine ⟨?_, by decide, by decide⟩
  have h1 : Reachable objectIdEngine (usersPost objectIdEngine Store.empty annId createAnn).2 :=
    Reachable.userCreate annId createAnn Reachable.start (by unfold Store.Fresh; decide)
  have h2 := Reachable.userCreate bobId createBob h1 (by unfold Store.Fresh; decide)
  have h3 := Reachable.taskCreate reportId createReport h2 (by unfold Store.Fresh; decide)
  have he : (tasksPost objectIdEngine
      (usersPost objectIdEngine (usersPost objectIdEngine Store.empty annId createAnn).2
        bobId createBob).2 reportId createReport).2 = annBobStore := by decide
  rw [he] at h3
  exact h3


/-! ## Effect of the user handlers on both collections -/

theorem usersPost_ok {E : Engine} {s s' : Store} {newId : String} {body : UserBody} {r : Reply}
    (hrun : usersPost E s newId body = (r, s')) (hok : r.isOk = true) :
    truthy body.name = true ∧ truthy body.email = true ∧
      (User.findOne s (body.email.getD "")).isSome = false ∧
      checkPending E s (body.pendingTasks.getD []) "Failed to create user" = none ∧
      r = .ok "Created" 201 ∧
      s' = assignAll
        (User.create s
          { id := newId, name := body.name.getD "", email := body.email.getD "",
            pendingTasks := body.pendingTasks.getD [] })
        (Task.find s (body.pendingTasks.getD [])) newId (body.name.getD "") := by
  unfold usersPost at hrun
  dsimp only at hrun
  have hfail : ∀ (r0 : Reply) (x : Store), r0.isOk = false → (r0, x) = (r, s') → False := by
    intro r0 x h0 h
    have : r = r0 := (Prod.mk.inj h).1.symm
    rw [this, h0] at hok
    exact absurd hok (by simp)
  have hfail2 : ∀ (m : String) (c : Nat) (x : Store), (Reply.fail m c, x) = (r, s') → False :=
    fun m c x h => hfail (Reply.fail m c) x rfl h
  by_cases h1 : truthy body.name = false ∨ truthy body.email = false
  · rw [if_pos h1] at hrun; exact (hfail2 _ _ _ hrun).elim
  rw [if_neg h1] at hrun
  by_cases h2 : (User.findOne s (body.email.getD "")).isSome = true
  · rw [if_pos h2] at hrun; exact (hfail2 _ _ _ hrun).elim
  rw [if_neg h2] at hrun
  cases hchk : checkPending E s (body.pendingTasks.getD []) "Failed to create user" with
  | some r0 =>
    rw [hchk] at hrun
    exact (hfail _ _ (checkPending_fail hchk).1 hrun).elim
  | none =>
    rw [hchk] at hrun
    dsimp only at hrun
    have h1a : truthy body.name = true := by
      by_contra hc; exact h1 (Or.inl (by simpa using hc))
    have h1b : truthy body.email = true := by
      by_contra hc; exact h1 (Or.inr (by simpa using hc))
    refine ⟨h1a, h1b, by simpa using h2, rfl, ?_⟩
    have hg := assignAll_guard
      (User.create s
        { id := newId, name := body.name.getD "", email := body.email.getD "",
          pendingTasks := body.pendingTasks.getD [] })
      (body.pendingTasks.getD []) newId (body.name.getD "")
    by_cases h3 : (body.pendingTasks.getD []).length ≠ 0
    · rw [if_pos h3] at hrun hg
      exact ⟨(Prod.mk.inj hrun).1.symm, (Prod.mk.inj hrun).2.symm⟩
    · rw [if_neg h3] at hrun hg
      refine ⟨(Prod.mk.inj hrun).1.symm, ?_⟩
      rw [← (Prod.mk.inj hrun).2]
      exact hg

/-- Both collections after a successful user create, task identifiers being
unique. -/
theorem usersPost_effect {E : Engine} {s s' : Store} {newId : String} {body : UserBody}
    {r : Reply} (hnodup : (s.tasks.map Task.id).Nodup)
    (hrun : usersPost E s newId body = (r, s')) (hok : r.isOk = true) :
    s'.users = s.users ++
        [{ id := newId, name := body.name.getD "", email := body.email.getD "",
           pendingTasks := body.pendingTasks.getD [] }] ∧
      s'.tasks = s.tasks.map (fun t =>
        if t.id ∈ body.pendingTasks.getD [] then
          { t with assignedUser := newId, assignedUserName := body.name.getD "" }
        else t) ∧
      (body.pendingTasks.getD []).Nodup ∧
      ∀ x ∈ body.pendingTasks.getD [], ∃ t ∈ s.tasks, t.id = x ∧ t.completed = false := by
  obtain ⟨-, -, -, hchk, -, hs'⟩ := usersPost_ok hrun hok
  obtain ⟨hL, -, hex⟩ := checkPending_none hnodup hchk
  refine ⟨?_, ?_, hL, hex⟩
  · rw [hs', assignAll_users]
    rfl
  · rw [hs']
    exact assignAll_find (User.create s _) hnodup _ _ _

/-- Both collections after a successful user delete, task identifiers being
unique. -/
theorem usersDelete_effect {E : Engine} {s s' : Store} {id : String} {r : Reply} {U : User}
    (hnodup : (s.tasks.map Task.id).Nodup) (hU : User.findById s id = some U)
    (hrun : usersDelete E s id = (r, s')) (hok : r.isOk = true) :
    s'.users = s.users.filter (fun x => decide (x.id ≠ id)) ∧
      s'.tasks = s.tasks.map (fun t =>
        if t.id ∈ U.pendingTasks ∧ t.assignedUser = id then
          { t with assignedUser := "", assignedUserName := "unassigned" }
        else t) := by
  obtain ⟨U0, hU0, -, -, rfl⟩ := usersDelete_ok hrun hok
  rw [hU] at hU0
  cases hU0
  have hUid : U.id = id := findUser_id hU
  constructor
  · unfold User.deleteOne
    dsimp only
    rw [unassignAll_users, hUid]
  · rw [tasks_userDeleteOne]
    exact unassignAll_find s hnodup _ _

/-- Both collections after a successful user update, task identifiers being
unique. -/
theorem usersPut_effect {E : Engine} {s s' : Store} {id : String} {body : UserBody}
    {r : Reply} {U : User} (hnodup : (s.tasks.map Task.id).Nodup)
    (hU : User.findById s id = some U)
    (hrun : usersPut E s id body = (r, s')) (hok : r.isOk = true) :
    s'.users = s.users.map (fun x =>
        if x.id = id then
          { U with
            name := body.name.getD ""
            email := body.email.getD ""
            pendingTasks := body.pendingTasks.getD [] }
        else x) ∧
      s'.tasks = s.tasks.map (fun t =>
        if t.id ∈ body.pendingTasks.getD [] ∧ t.id ∉ U.pendingTasks then
          { t with assignedUser := id, assignedUserName := body.name.getD "" }
        else if t.id ∈ U.pendingTasks ∧ t.id ∉ body.pendingTasks.getD [] ∧
            t.assignedUser = id then
          { t with assignedUser := "", assignedUserName := "unassigned" }
        else t) ∧
      (body.pendingTasks.getD []).Nodup ∧
      ∀ x ∈ body.pendingTasks.getD [], ∃ t ∈ s.tasks, t.id = x ∧ t.completed = false := by
  obtain ⟨U0, s1, s2, hU0, -, -, -, hchk, hs1, hs2, hs'⟩ := usersPut_ok hrun hok
  rw [hU] at hU0
  cases hU0
  obtain ⟨hLnodup, -, hLexists⟩ := checkPending_none hnodup hchk
  have hUid : U.id = id := findUser_id hU
  have hnewL : newSet (body.pendingTasks.getD []) = body.pendingTasks.getD [] :=
    newSet_of_nodup _ hLnodup
  rw [hnewL] at hs1 hs2 hs'
  have hs1t : s1.tasks = s.tasks := by rw [hs1]; rfl
  have hnodup1 : (s1.tasks.map Task.id).Nodup := by rw [hs1t]; exact hnodup
  have hs2t := unassignAll_find s1 hnodup1
    ((newSet U.pendingTasks).filter (fun x => decide (x ∉ body.pendingTasks.getD []))) id
  rw [← hs2, hs1t] at hs2t
  have hnodup2 : (s2.tasks.map Task.id).Nodup := by
    rw [hs2t, List.map_map]
    have : (Task.id ∘ fun x : Task =>
        if x.id ∈ (newSet U.pendingTasks).filter
            (fun x => decide (x ∉ body.pendingTasks.getD [])) ∧ x.assignedUser = id then
          { x with assignedUser := "", assignedUserName := "unassigned" }
        else x) = Task.id := by
      funext x
      simp only [Function.comp]
      split_ifs <;> rfl
    rw [this]
    exact hnodup
  have hs't := assignAll_find s2 hnodup2
    ((body.pendingTasks.getD []).filter (fun x => decide (x ∉ newSet U.pendingTasks)))
    id (body.name.getD "")
  rw [← hs', hs2t, List.map_map] at hs't
  refine ⟨?_, ?_, hLnodup, hLexists⟩
  · rw [hs', assignAll_users, hs2, unassignAll_users, hs1]
    unfold User.save
    dsimp only
    rw [hUid]
  · rw [hs't]
    apply List.map_congr_left
    intro t _
    simp only [Function.comp, List.mem_filter, mem_newSet, decide_eq_true_eq]
    by_cases hA : t.id ∈ body.pendingTasks.getD [] ∧ t.id ∉ U.pendingTasks
    · by_cases hR : (t.id ∈ U.pendingTasks ∧ t.id ∉ body.pendingTasks.getD []) ∧
          t.assignedUser = id
      · exact absurd hR.1.1 hA.2
      · rw [if_neg hR, if_pos hA, if_pos hA]
    · by_cases hR : (t.id ∈ U.pendingTasks ∧ t.id ∉ body.pendingTasks.getD []) ∧
          t.assignedUser = id
      · rw [if_pos hR]
        dsimp only
        rw [if_neg hA, if_neg hA, if_pos ⟨hR.1.1, hR.1.2, hR.2⟩]
      · rw [if_neg hR, if_neg hA, if_neg hA, if_neg (fun h => hR ⟨⟨h.1, h.2.1⟩, h.2.2⟩)]


/-! ## Assignments after a user is deleted -/

theorem find_replaced (l : List User) (d u : User) (i : String) (hd : d.id = i)
    (h : l.find? (fun x => decide (x.id = i)) = some u) :
    (l.map (fun x => if x.id = i then d else x)).find? (fun x => decide (x.id = i))
      = some d := by
  subst hd
  rw [find_id_map_replace User.id l d d.id, if_pos rfl, h]
  rfl

theorem save_eq_map {s : Store} (hu : (s.users.map User.id).Nodup) {i : String} {u0 : User}
    (hfind : User.findById s i = some u0) (f : List String → List String) :
    (User.save s { u0 with pendingTasks := f u0.pendingTasks }).users
      = s.users.map (fun x => if x.id = i then { x with pendingTasks := f x.pendingTasks } else x) := by
  unfold User.save
  dsimp only
  apply List.map_congr_left
  intro x hx
  have hid : u0.id = i := findUser_id hfind
  by_cases h : x.id = i
  · have hx0 : x = u0 := List.inj_on_of_nodup_map hu hx (findUser_mem hfind) (h.trans hid.symm)
    rw [if_pos (h.trans hid.symm), if_pos h, hx0]
  · rw [if_neg (fun e => h (e.trans hid)), if_neg h]

theorem none_eq_map {s : Store} {i : String} (hfind : User.findById s i = none)
    (g : User → User) : s.users.map (fun x => if x.id = i then g x else x) = s.users := by
  unfold User.findById at hfind
  rw [List.find?_eq_none] at hfind
  conv_rhs => rw [← List.map_id s.users]
  apply List.map_congr_left
  intro x hx
  have := hfind x hx
  rw [if_neg (by simpa using this)]
  rfl

theorem map_ids {l : List User} {f : User → User} (hf : ∀ u, (f u).id = u.id) :
    (l.map f).map User.id = l.map User.id := by
  rw [List.map_map]
  apply List.map_congr_left
  intro x _
  exact hf x

theorem detachUser_id (tid prev next : String) (u : User) :
    (detachUser tid prev next u).id = u.id := by
  unfold detachUser
  split_ifs <;> rfl

theorem attachUser_id (tid : String) (c : Bool) (next : String) (u : User) :
    (attachUser tid c next u).id = u.id := by
  unfold attachUser
  split_ifs <;> rfl

theorem detachPrev_users {E : Engine} {s s1 : Store} {task : Task} {prev : Option String}
    (hu : (s.users.map User.id).Nodup) (h : detachPrev E s task prev = some s1) :
    s1.users = s.users.map (detachUser task.id (prev.getD "") task.assignedUser) := by
  have hidmap : ∀ g : User → User, s.users.map (fun x => if False then g x else x) = s.users := by
    intro g
    simp
  unfold detachPrev at h
  dsimp only at h
  by_cases h1 : truthy prev = true ∧ prev ≠ some task.assignedUser
  · rw [if_pos h1] at h
    obtain ⟨p, rfl⟩ : ∃ p, prev = some p := by
      cases prev with
      | none => exact absurd h1.1 (by simp [truthy])
      | some p => exact ⟨p, rfl⟩
    have hp1 : p ≠ "" := by simpa [truthy] using h1.1
    have hp2 : p ≠ task.assignedUser := fun e => h1.2 (by rw [e])
    simp only [Option.getD_some] at h ⊢
    by_cases h2 : E.isValid p = true
    · rw [if_pos h2] at h
      have hfun : detachUser task.id p task.assignedUser
          = fun x => if x.id = p then
              { x with pendingTasks := x.pendingTasks.filter (fun y => decide (y ≠ task.id)) }
            else x := by
        funext x
        unfold detachUser
        by_cases hx : x.id = p
        · rw [if_pos ⟨hx, hp1, hp2⟩, if_pos hx]
        · rw [if_neg (fun e => hx e.1), if_neg hx]
      rw [hfun]
      cases hfind : User.findById s p with
      | none =>
        rw [hfind] at h
        cases h
        exact (none_eq_map hfind _).symm
      | some pu =>
        rw [hfind] at h
        cases h
        exact save_eq_map hu hfind (fun l => l.filter (fun y => decide (y ≠ task.id)))
    · rw [if_neg h2] at h; cases h
  · rw [if_neg h1] at h
    cases h
    have hfun : detachUser task.id (prev.getD "") task.assignedUser = fun x => x := by
      funext x
      unfold detachUser
      rw [if_neg]
      rintro ⟨-, hp1, hp2⟩
      cases prev with
      | none => exact hp1 rfl
      | some p =>
        apply h1
        refine ⟨by simpa [truthy] using hp1, ?_⟩
        intro e
        exact hp2 (Option.some.inj e)
    rw [hfun, List.map_id']

theorem attachList_self {tid : String} {c : Bool} {l : List String}
    (h : (c = false ∧ tid ∈ l) ∨ (c = true ∧ tid ∉ l)) : attachList tid c l = l := by
  unfold attachList
  rcases h with ⟨hc, hm⟩ | ⟨hc, hm⟩
  · rw [if_pos hc, if_pos hm]
  · rw [if_neg (by simp [hc]), List.filter_eq_self]
    intro x hx
    have : x ≠ tid := fun e => hm (e ▸ hx)
    simpa using this

theorem attachNew_users {E : Engine} {s1 s2 : Store} {task task2 : Task}
    (hu : (s1.users.map User.id).Nodup) (h : attachNew E s1 task = .done s2 task2) :
    s2.users = s1.users.map (attachUser task.id task.completed task.assignedUser) := by
  by_cases h1 : task.assignedUser = ""
  · rw [attachNew_unassigned E s1 task h1] at h
    cases h
    have hfun : attachUser task.id task.completed task.assignedUser = fun x => x := by
      funext x
      unfold attachUser
      rw [if_neg (fun e => e.2 h1)]
    rw [hfun, List.map_id']
  · have hfun : attachUser task.id task.completed task.assignedUser
        = fun x => if x.id = task.assignedUser then
            { x with pendingTasks := attachList task.id task.completed x.pendingTasks }
          else x := by
      funext x
      unfold attachUser
      by_cases hx : x.id = task.assignedUser
      · rw [if_pos ⟨hx, h1⟩, if_pos hx]
      · rw [if_neg (fun e => hx e.1), if_neg hx]
    rw [hfun]
    unfold attachNew at h
    dsimp only at h
    rw [if_pos h1] at h
    by_cases h2 : E.isValid task.assignedUser = true
    · rw [if_pos h2] at h
      cases hfind : User.findById s1 task.assignedUser with
      | none =>
        rw [hfind] at h
        cases h
        exact (none_eq_map hfind _).symm
      | some u =>
        rw [hfind] at h
        have hsave := save_eq_map hu hfind (attachList task.id task.completed)
        by_cases hc : task.completed = false
        · by_cases hhas : task.id ∈ u.pendingTasks
          · simp only [hc, hhas, decide_True, Bool.true_eq_false, and_false, if_false,
              Bool.false_eq_true, and_true, SyncResult.done.injEq] at h
            rw [← h.1, ← hsave]
            unfold User.save
            dsimp only
            rw [attachList_self (Or.inl ⟨hc, hhas⟩)]
            conv_lhs => rw [← List.map_id s1.users]
            apply List.map_congr_left
            intro x hx
            by_cases hxu : x.id = u.id
            · rw [if_pos hxu]
              exact List.inj_on_of_nodup_map hu hx (findUser_mem hfind) hxu
            · rw [if_neg hxu]; rfl
          · simp only [hc, hhas, decide_True, decide_False, and_self, if_true,
              Bool.true_eq_false, false_and, if_false, SyncResult.done.injEq] at h
            rw [← h.1, ← hsave]
            unfold attachList
            rw [if_pos hc, if_neg hhas]
        · have hc' : task.completed = true := by simpa using hc
          by_cases hhas : task.id ∈ u.pendingTasks
          · simp only [hc', hhas, decide_True, decide_False, Bool.false_eq_true, false_and,
              if_false, and_self, if_true, Bool.true_eq_false, SyncResult.done.injEq] at h
            rw [← h.1, ← hsave]
            unfold attachList
            rw [if_neg (by simp [hc'])]
          · simp only [hc', hhas, decide_False, Bool.false_eq_true, false_and, and_false,
              if_false, Bool.true_eq_false, SyncResult.done.injEq] at h
            rw [← h.1, ← hsave]
            unfold User.save
            dsimp only
            rw [attachList_self (Or.inr ⟨hc', hhas⟩)]
            conv_lhs => rw [← List.map_id s1.users]
            apply List.map_congr_left
            intro x hx
            by_cases hxu : x.id = u.id
            · rw [if_pos hxu]
              exact List.inj_on_of_nodup_map hu hx (findUser_mem hfind) hxu
            · rw [if_neg hxu]; rfl
    · rw [if_neg h2] at h; cases h

/-- The user collection after `syncUserPending` returns, user identifiers being
unique: every user document is detached, then attached. -/
theorem syncUserPending_users {E : Engine} {s s2 : Store} {task task2 : Task}
    {prev : Option String} (hu : (s.users.map User.id).Nodup)
    (h : syncUserPending E s task prev = .done s2 task2) :
    s2.users = s.users.map (fun u =>
      attachUser task.id task.completed task.assignedUser
        (detachUser task.id (prev.getD "") task.assignedUser u)) := by
  obtain ⟨s1, hd, ha⟩ := syncUserPending_done h
  have h1 := detachPrev_users hu hd
  have hu1 : (s1.users.map User.id).Nodup := by
    rw [h1, map_ids (detachUser_id _ _ _)]
    exact hu
  rw [attachNew_users hu1 ha, h1, List.map_map]
  rfl


/-! ## Frame of the task handlers -/

theorem userFrame_refl (tid prev next : String) (u : User) : UserFrame tid prev next u u :=
  ⟨rfl, rfl, rfl, rfl, fun _ _ => rfl⟩

theorem userFrame_trans {tid prev next : String} {u v w : User}
    (h1 : UserFrame tid prev next u v) (h2 : UserFrame tid prev next v w) :
    UserFrame tid prev next u w := by
  obtain ⟨a1, a2, a3, a4, a5⟩ := h1
  obtain ⟨b1, b2, b3, b4, b5⟩ := h2
  refine ⟨b1.trans a1, b2.trans a2, b3.trans a3, b4.trans a4, fun hp hn => ?_⟩
  rw [b5 (by rw [a1]; exact hp) (by rw [a1]; exact hn), a5 hp hn]

theorem filter_idem (tid : String) (l : List String) :
    (l.filter (fun x => decide (x ≠ tid))).filter (fun x => decide (x ≠ tid))
      = l.filter (fun x => decide (x ≠ tid)) := by
  rw [List.filter_filter]
  apply List.filter_congr
  intro x _
  simp

theorem filter_attachList (tid : String) (c : Bool) (l : List String) :
    (attachList tid c l).filter (fun x => decide (x ≠ tid))
      = l.filter (fun x => decide (x ≠ tid)) := by
  unfold attachList
  split_ifs
  · rfl
  · rw [List.filter_append]
    simp
  · exact filter_idem tid l

theorem userFrame_detach (tid prev next : String) (u : User) :
    UserFrame tid prev next u (detachUser tid prev next u) := by
  unfold detachUser
  by_cases h : u.id = prev ∧ prev ≠ "" ∧ prev ≠ next
  · rw [if_pos h]
    exact ⟨rfl, rfl, rfl, filter_idem tid u.pendingTasks, fun hp _ => absurd h.1 hp⟩
  · rw [if_neg h]
    exact userFrame_refl tid prev next u

theorem userFrame_attach (tid prev next : String) (c : Bool) (u : User) :
    UserFrame tid prev next u (attachUser tid c next u) := by
  unfold attachUser
  by_cases h : u.id = next ∧ next ≠ ""
  · rw [if_pos h]
    exact ⟨rfl, rfl, rfl, filter_attachList tid c u.pendingTasks, fun _ hn => absurd h.1 hn⟩
  · rw [if_neg h]
    exact userFrame_refl tid prev next u

theorem forall₂_map_self {R : User → User → Prop} (l : List User) (f : User → User)
    (h : ∀ u, R u (f u)) : List.Forall₂ R l (l.map f) := by
  rw [List.forall₂_map_right_iff, List.forall₂_same]
  exact fun x _ => h x

theorem forall₂_self (tid prev next : String) (l : List User) :
    List.Forall₂ (UserFrame tid prev next) l l :=
  List.forall₂_same.mpr (fun x _ => userFrame_refl tid prev next x)

theorem attachNew_thrown_store {E : Engine} {s1 sx : Store} {task : Task}
    (h : attachNew E s1 task = .thrown sx) : sx = s1 := by
  unfold attachNew at h
  dsimp only at h
  by_cases h1 : task.assignedUser ≠ ""
  · rw [if_pos h1] at h
    by_cases h2 : E.isValid task.assignedUser = true
    · rw [if_pos h2] at h
      cases hu : User.findById s1 task.assignedUser with
      | none => rw [hu] at h; cases h
      | some u => rw [hu] at h; cases h
    · rw [if_neg h2] at h; cases h; rfl
  · rw [if_neg h1] at h; cases h

/-- Whatever `syncUserPending` returns, the store it leaves has the same task
collection and a user collection within the frame of the task. -/
theorem syncUserPending_frame {E : Engine} {s : Store} (hu : (s.users.map User.id).Nodup)
    (task : Task) (prev : Option String) :
    (syncUserPending E s task prev).store.tasks = s.tasks ∧
      List.Forall₂ (UserFrame task.id (prev.getD "") task.assignedUser) s.users
        (syncUserPending E s task prev).store.users := by
  cases hr : syncUserPending E s task prev with
  | done s2 task2 =>
    obtain ⟨s1, hd, ha⟩ := syncUserPending_done hr
    refine ⟨(attachNew_tasks ha).trans (detachPrev_tasks hd), ?_⟩
    dsimp only [SyncResult.store]
    rw [syncUserPending_users hu hr]
    exact forall₂_map_self _ _
      (fun u => userFrame_trans (userFrame_detach _ _ _ u) (userFrame_attach _ _ _ _ _))
  | thrown sx =>
    dsimp only [SyncResult.store]
    unfold syncUserPending at hr
    cases hd : detachPrev E s task prev with
    | none =>
      rw [hd] at hr
      cases hr
      exact ⟨rfl, forall₂_self _ _ _ _⟩
    | some s1 =>
      rw [hd] at hr
      have hsx := attachNew_thrown_store hr
      subst hsx
      refine ⟨detachPrev_tasks hd, ?_⟩
      rw [detachPrev_users hu hd]
      exact forall₂_map_self _ _ (fun u => userFrame_detach _ _ _ u)

theorem detachUser_none (tid next : String) (u : User) : detachUser tid "" next u = u := by
  unfold detachUser
  rw [if_neg (fun h => h.2.1 rfl)]

/-- On creation, where no previous assignee is passed, `syncUserPending` may
change the new assignee only. -/
theorem syncUserPending_frame_create {E : Engine} {s : Store}
    (hu : (s.users.map User.id).Nodup) (task : Task) :
    (syncUserPending E s task none).store.tasks = s.tasks ∧
      List.Forall₂ (UserFrame task.id task.assignedUser task.assignedUser) s.users
        (syncUserPending E s task none).store.users := by
  refine ⟨(syncUserPending_frame hu task none).1, ?_⟩
  cases hr : syncUserPending E s task none with
  | done s2 task2 =>
    dsimp only [SyncResult.store]
    rw [syncUserPending_users hu hr]
    refine forall₂_map_self _ _ (fun u => ?_)
    rw [show (none : Option String).getD "" = "" from rfl, detachUser_none]
    exact userFrame_attach _ _ _ _ _
  | thrown sx =>
    dsimp only [SyncResult.store]
    unfold syncUserPending at hr
    rw [show detachPrev E s task none = some s from rfl] at hr
    rw [attachNew_thrown_store hr]
    exact forall₂_self _ _ _ _

theorem filter_save (l : List Task) (t : Task) :
    (l.map (fun x => if x.id = t.id then t else x)).filter (fun x => decide (x.id ≠ t.id))
      = l.filter (fun x => decide (x.id ≠ t.id)) := by
  induction l with
  | nil => rfl
  | cons a l ih =>
    rw [List.map_cons, List.filter_cons, List.filter_cons, ih]
    by_cases h : a.id = t.id
    · simp [h]
    · simp [h]

theorem frame_taskSave {tid prev next : String} {s s1 : Store} {t : Task} (ht : t.id = tid)
    (h : s1.tasks.filter (fun x => decide (x.id ≠ tid))
        = s.tasks.filter (fun x => decide (x.id ≠ tid)))
    (hus : List.Forall₂ (UserFrame tid prev next) s.users s1.users) :
    TaskFrame tid prev next s (Task.save s1 t) := by
  subst ht
  refine ⟨?_, hus⟩
  unfold Task.save
  dsimp only
  rw [filter_save, h]

theorem taskFrame_refl (tid prev next : String) (s : Store) : TaskFrame tid prev next s s :=
  ⟨rfl, forall₂_self _ _ _ _⟩

theorem tasksPost_frame {E : Engine} {s : Store} (hu : (s.users.map User.id).Nodup)
    (newId : String) (body : TaskBody) :
    TaskFrame newId (body.assignedUser.getD "") (body.assignedUser.getD "") s
      (tasksPost E s newId body).2 := by
  unfold tasksPost
  by_cases h1 : truthy body.name = false ∨ truthy body.deadline = false
  · rw [if_pos h1]; exact taskFrame_refl _ _ _ _
  rw [if_neg h1]
  dsimp only
  cases hres : resolveAssignee E s (body.assignedUser.getD "") body.assignedUserName with
  | error r0 => exact taskFrame_refl _ _ _ _
  | ok nm =>
    dsimp only
    by_cases h2 : E.validDeadline (body.deadline.getD "") = false
    · rw [if_pos h2]; exact taskFrame_refl _ _ _ _
    rw [if_neg h2]
    have hframe := syncUserPending_frame_create (E := E)
      (s := Task.create s
        { id := newId
          name := body.name.getD ""
          description := body.description.getD ""
          deadline := body.deadline.getD ""
          completed := decide (body.completed = some true)
          assignedUser := body.assignedUser.getD ""
          assignedUserName := nm }) hu
      { id := newId
        name := body.name.getD ""
        description := body.description.getD ""
        deadline := body.deadline.getD ""
        completed := decide (body.completed = some true)
        assignedUser := body.assignedUser.getD ""
        assignedUserName := nm }
    have htasks : ∀ sx : Store, sx.tasks = s.tasks ++
        [{ id := newId
           name := body.name.getD ""
           description := body.description.getD ""
           deadline := body.deadline.getD ""
           completed := decide (body.completed = some true)
           assignedUser := body.assignedUser.getD ""
           assignedUserName := nm }] →
        sx.tasks.filter (fun x => decide (x.id ≠ newId))
          = s.tasks.filter (fun x => decide (x.id ≠ newId)) := by
      intro sx hsx
      rw [hsx, List.filter_append]
      simp
    cases hr : syncUserPending E
        (Task.create s
          { id := newId
            name := body.name.getD ""
            description := body.description.getD ""
            deadline := body.deadline.getD ""
            completed := decide (body.completed = some true)
            assignedUser := body.assignedUser.getD ""
            assignedUserName := nm })
        { id := newId
          name := body.name.getD ""
          description := body.description.getD ""
          deadline := body.deadline.getD ""
          completed := decide (body.completed = some true)
          assignedUser := body.assignedUser.getD ""
          assignedUserName := nm } none with
    | thrown sx =>
      rw [hr] at hframe
      exact ⟨htasks sx hframe.1, hframe.2⟩
    | done s2 task2 =>
      rw [hr] at hframe
      obtain ⟨s1, -, ha⟩ := syncUserPending_done hr
      exact frame_taskSave (attachNew_task ha).1 (htasks s2 hframe.1) hframe.2

theorem tasksPut_frame {E : Engine} {s : Store} (hu : (s.users.map User.id).Nodup)
    (id : String) (body : TaskBody) (T : Task) (hT : Task.findById s id = some T) :
    TaskFrame id T.assignedUser (body.assignedUser.getD T.assignedUser) s
      (tasksPut E s id body).2 := by
  have hTid : T.id = id := findTask_id hT
  subst hTid
  unfold tasksPut
  by_cases h1 : E.isValid T.id = false
  · rw [if_pos h1]; exact taskFrame_refl _ _ _ _
  rw [if_neg h1]
  by_cases h2 : truthy body.name = false ∨ truthy body.deadline = false
  · rw [if_pos h2]; exact taskFrame_refl _ _ _ _
  rw [if_neg h2, hT]
  dsimp only
  by_cases h3 : T.completed = true
  · rw [if_pos h3]; exact taskFrame_refl _ _ _ _
  rw [if_neg h3]
  cases hres : resolveAssignee E s (body.assignedUser.getD T.assignedUser)
      body.assignedUserName with
  | error r0 => exact taskFrame_refl _ _ _ _
  | ok nm =>
    dsimp only
    have hframe := syncUserPending_frame (E := E) hu
      { T with
        name := body.name.getD ""
        description := body.description.getD ""
        deadline := body.deadline.getD ""
        completed := body.completed.getD T.completed
        assignedUser := body.assignedUser.getD T.assignedUser
        assignedUserName := nm } (some T.assignedUser)
    simp only [Option.getD_some] at hframe
    cases hr : syncUserPending E s
        { T with
          name := body.name.getD ""
          description := body.description.getD ""
          deadline := body.deadline.getD ""
          completed := body.completed.getD T.completed
          assignedUser := body.assignedUser.getD T.assignedUser
          assignedUserName := nm } (some T.assignedUser) with
    | thrown sx =>
      rw [hr] at hframe
      exact ⟨by rw [show sx.tasks = s.tasks from hframe.1], hframe.2⟩
    | done s2 task2 =>
      rw [hr] at hframe
      obtain ⟨s1, -, ha⟩ := syncUserPending_done hr
      dsimp only
      split_ifs
      · exact ⟨by rw [show s2.tasks = s.tasks from hframe.1], hframe.2⟩
      · exact frame_taskSave (attachNew_task ha).1
          (by rw [show s2.tasks = s.tasks from hframe.1]) hframe.2

theorem tasksDelete_frame {E : Engine} {s : Store} (hu : (s.users.map User.id).Nodup)
    (id : String) (T : Task) (hT : Task.findById s id = some T) :
    TaskFrame id T.assignedUser T.assignedUser s (tasksDelete E s id).2 := by
  have hTid : T.id = id := findTask_id hT
  have hdel : ∀ s1 : Store, s1.tasks = s.tasks →
      (Task.deleteOne s1 T).tasks.filter (fun x => decide (x.id ≠ id))
        = s.tasks.filter (fun x => decide (x.id ≠ id)) := by
    intro s1 h1
    unfold Task.deleteOne
    dsimp only
    rw [h1, hTid, List.filter_filter]
    apply List.filter_congr
    intro x _
    simp
  unfold tasksDelete
  by_cases h1 : E.isValid id = false
  · rw [if_pos h1]; exact taskFrame_refl _ _ _ _
  rw [if_neg h1, hT]
  dsimp only
  by_cases h2 : T.assignedUser ≠ ""
  · rw [if_pos h2]
    by_cases h3 : E.isValid T.assignedUser = false
    · rw [if_pos h3]; exact taskFrame_refl _ _ _ _
    rw [if_neg h3]
    cases hfind : User.findById s T.assignedUser with
    | none => exact ⟨hdel s rfl, forall₂_self _ _ _ _⟩
    | some u =>
      refine ⟨hdel _ rfl, ?_⟩
      rw [users_taskDeleteOne,
        save_eq_map hu hfind (fun l => l.filter (fun y => decide (y ≠ T.id)))]
      refine forall₂_map_self _ _ (fun x => ?_)
      by_cases hx : x.id = T.assignedUser
      · rw [if_pos hx, hTid]
        exact ⟨rfl, rfl, rfl, filter_idem id x.pendingTasks, fun hp _ => absurd hx hp⟩
      · rw [if_neg hx]
        exact userFrame_refl _ _ _ _
  · rw [if_neg h2]
    exact ⟨hdel s rfl, forall₂_self _ _ _ _⟩

theorem tasksPut_absent {E : Engine} {s : Store} (id : String) (body : TaskBody)
    (h : Task.findById s id = none) : (tasksPut E s id body).2 = s := by
  unfold tasksPut
  rw [h]
  split_ifs <;> rfl

theorem tasksDelete_absent {E : Engine} {s : Store} (id : String)
    (h : Task.findById s id = none) : (tasksDelete E s id).2 = s := by
  unfold tasksDelete
  rw [h]
  split_ifs <;> rfl

/-- C20: in a store with unique user identifiers, a task create, update or
delete of the task `T`, whatever its reply, keeps every task document with
another identifier, in order, and keeps every user document, in order, up to
its pending list; a pending list changes only in the occurrences of the
identifier of `T` (the others and their order are kept), and only for the
previous and the new assignee of `T`; an update or delete of an identifier
that names no task changes nothing. -/
theorem task_mutation_frame (E : Engine) (s : Store) (hu : (s.users.map User.id).Nodup) :
    (∀ newId body, TaskFrame newId (body.assignedUser.getD "") (body.assignedUser.getD "") s
        (tasksPost E s newId body).2) ∧
      (∀ id body T, Task.findById s id = some T →
        TaskFrame id T.assignedUser (body.assignedUser.getD T.assignedUser) s
          (tasksPut E s id body).2) ∧
      (∀ id T, Task.findById s id = some T →
        TaskFrame id T.assignedUser T.assignedUser s (tasksDelete E s id).2) ∧
      (∀ id body, Task.findById s id = none →
        (tasksPut E s id body).2 = s ∧ (tasksDelete E s id).2 = s) :=
  ⟨tasksPost_frame hu, tasksPut_frame hu, tasksDelete_frame hu,
    fun id body h => ⟨tasksPut_absent id body h, tasksDelete_absent id h⟩⟩

/-- Witness of C20: in `busyStore`, reassigning `report` from `ann` to `bob`
keeps `minutes` and keeps `slidesId` first in the pending list of `bob`. -/
theorem task_mutation_frame_witness :
    (busyStore.users.map User.id).Nodup ∧ Task.findById busyStore reportId = some report ∧
      (tasksPut objectIdEngine busyStore reportId reassignReport).2
        = { tasks := [reportOfBob, minutes],
            users := [{ ann with pendingTasks := [] },
                      { bob with pendingTasks := [slidesId, reportId] }] } ∧
      TaskFrame reportId report.assignedUser
        (reassignReport.assignedUser.getD report.assignedUser) busyStore
        (tasksPut objectIdEngine busyStore reportId reassignReport).2 :=
  ⟨by decide, by decide, by decide,
    (task_mutation_frame objectIdEngine busyStore (by decide)).2.1 reportId reassignReport
      report (by decide)⟩


/-! ## Pending lists stay duplicate-free -/

theorem pendingNodup_userSave {s : Store} {u : User} (hs : s.PendingNodup)
    (hu : u.pendingTasks.Nodup) : (User.save s u).PendingNodup := by
  intro x hx
  unfold User.save at hx
  rw [List.mem_map] at hx
  obtain ⟨y, hy, rfl⟩ := hx
  split_ifs
  · exact hu
  · exact hs y hy

theorem pendingNodup_of_users {s s1 : Store} (h : s1.users = s.users) (hs : s.PendingNodup) :
    s1.PendingNodup := by
  unfold Store.PendingNodup
  rw [h]
  exact hs

theorem pendingNodup_detachPrev {E : Engine} {s s1 : Store} {task : Task}
    {prev : Option String} (hs : s.PendingNodup) (h : detachPrev E s task prev = some s1) :
    s1.PendingNodup := by
  unfold detachPrev at h
  dsimp only at h
  by_cases h1 : truthy prev = true ∧ prev ≠ some task.assignedUser
  · rw [if_pos h1] at h
    by_cases h2 : E.isValid (prev.getD "") = true
    · rw [if_pos h2] at h
      cases hu : User.findById s (prev.getD "") with
      | none => rw [hu] at h; cases h; exact hs
      | some pu =>
        rw [hu] at h
        cases h
        exact pendingNodup_userSave hs ((hs pu (findUser_mem hu)).filter _)
    · rw [if_neg h2] at h; cases h
  · rw [if_neg h1] at h; cases h; exact hs

theorem pendingNodup_attachNew {E : Engine} {s1 : Store} (task : Task) (hs : s1.PendingNodup) :
    (attachNew E s1 task).store.PendingNodup := by
  unfold attachNew
  dsimp only
  by_cases h1 : task.assignedUser ≠ ""
  · rw [if_pos h1]
    by_cases h2 : E.isValid task.assignedUser = true
    · rw [if_pos h2]
      cases hu : User.findById s1 task.assignedUser with
      | none => exact hs
      | some u =>
        have hund := hs u (findUser_mem hu)
        dsimp only [SyncResult.store]
        by_cases hA : decide (task.completed = false) = true ∧
            decide (task.id ∈ u.pendingTasks) = false
        · have hB : ¬ (decide (task.completed = false) = false ∧
              decide (task.id ∈ u.pendingTasks) = true) := by
            intro hB
            rw [hA.1] at hB
            exact absurd hB.1 (by simp)
          simp only [hA, hB, and_self, if_true, if_false]
          refine pendingNodup_userSave hs ?_
          have hnot : task.id ∉ u.pendingTasks := by simpa using hA.2
          exact List.Nodup.append hund (List.nodup_singleton _)
            (by simpa [List.disjoint_singleton] using hnot)
        · by_cases hB : decide (task.completed = false) = false ∧
              decide (task.id ∈ u.pendingTasks) = true
          · simp only [hA, hB, and_self, if_true, if_false]
            exact pendingNodup_userSave hs (hund.filter _)
          · simp only [hA, hB, if_false]
            exact hs
    · rw [if_neg h2]; exact hs
  · rw [if_neg h1]; exact hs

theorem pendingNodup_sync {E : Engine} {s : Store} (task : Task) (prev : Option String)
    (hs : s.PendingNodup) : (syncUserPending E s task prev).store.PendingNodup := by
  unfold syncUserPending
  cases hd : detachPrev E s task prev with
  | none => exact hs
  | some s1 => exact pendingNodup_attachNew task (pendingNodup_detachPrev hs hd)

theorem foldl_newSet_nodup_acc (l acc : List String) (h : acc.Nodup) :
    (l.foldl (fun acc x => if x ∈ acc then acc else acc ++ [x]) acc).Nodup := by
  induction l generalizing acc with
  | nil => exact h
  | cons a l ih =>
    rw [List.foldl_cons]
    apply ih
    split_ifs with ha
    · exact h
    · exact List.Nodup.append h (List.nodup_singleton _)
        (by simpa [List.disjoint_singleton] using ha)

theorem newSet_nodup (l : List String) : (newSet l).Nodup :=
  foldl_newSet_nodup_acc l [] List.nodup_nil

theorem pendingNodup_tasksPost {E : Engine} {s : Store} (hs : s.PendingNodup)
    (newId : String) (body : TaskBody) : (tasksPost E s newId body).2.PendingNodup := by
  unfold tasksPost
  by_cases h1 : truthy body.name = false ∨ truthy body.deadline = false
  · rw [if_pos h1]; exact hs
  rw [if_neg h1]
  dsimp only
  cases hres : resolveAssignee E s (body.assignedUser.getD "") body.assignedUserName with
  | error r0 => exact hs
  | ok nm =>
    dsimp only
    by_cases h2 : E.validDeadline (body.deadline.getD "") = false
    · rw [if_pos h2]; exact hs
    rw [if_neg h2]
    have hsync := pendingNodup_sync (E := E)
      { id := newId
        name := body.name.getD ""
        description := body.description.getD ""
        deadline := body.deadline.getD ""
        completed := decide (body.completed = some true)
        assignedUser := body.assignedUser.getD ""
        assignedUserName := nm } none
      (pendingNodup_of_users (users_taskCreate s
        { id := newId
          name := body.name.getD ""
          description := body.description.getD ""
          deadline := body.deadline.getD ""
          completed := decide (body.completed = some true)
          assignedUser := body.assignedUser.getD ""
          assignedUserName := nm }) hs)
    cases hr : syncUserPending E
        (Task.create s
          { id := newId
            name := body.name.getD ""
            description := body.description.getD ""
            deadline := body.deadline.getD ""
            completed := decide (body.completed = some true)
            assignedUser := body.assignedUser.getD ""
            assignedUserName := nm })
        { id := newId
          name := body.name.getD ""
          description := body.description.getD ""
          deadline := body.deadline.getD ""
          completed := decide (body.completed = some true)
          assignedUser := body.assignedUser.getD ""
          assignedUserName := nm } none with
    | thrown sx => rw [hr] at hsync; exact hsync
    | done s2 task2 =>
      rw [hr] at hsync
      exact pendingNodup_of_users (users_taskSave s2 task2) hsync

theorem pendingNodup_tasksPut {E : Engine} {s : Store} (hs : s.PendingNodup)
    (id : String) (body : TaskBody) : (tasksPut E s id body).2.PendingNodup := by
  unfold tasksPut
  by_cases h1 : E.isValid id = false
  · rw [if_pos h1]; exact hs
  rw [if_neg h1]
  by_cases h2 : truthy body.name = false ∨ truthy body.deadline = false
  · rw [if_pos h2]; exact hs
  rw [if_neg h2]
  dsimp only
  cases hT : Task.findById s id with
  | none => exact hs
  | some T =>
    dsimp only
    by_cases h3 : T.completed = true
    · rw [if_pos h3]; exact hs
    rw [if_neg h3]
    cases hres : resolveAssignee E s (body.assignedUser.getD T.assignedUser)
        body.assignedUserName with
    | error r0 => exact hs
    | ok nm =>
      dsimp only
      have hsync := pendingNodup_sync (E := E)
        { T with
          name := body.name.getD ""
          description := body.description.getD ""
          deadline := body.deadline.getD ""
          completed := body.completed.getD T.completed
          assignedUser := body.assignedUser.getD T.assignedUser
          assignedUserName := nm } (some T.assignedUser) hs
      cases hr : syncUserPending E s
          { T with
            name := body.name.getD ""
            description := body.description.getD ""
            deadline := body.deadline.getD ""
            completed := body.completed.getD T.completed
            assignedUser := body.assignedUser.getD T.assignedUser
            assignedUserName := nm } (some T.assignedUser) with
      | thrown sx => rw [hr] at hsync; exact hsync
      | done s2 task2 =>
        rw [hr] at hsync
        dsimp only
        split_ifs
        · exact hsync
        · exact pendingNodup_of_users (users_taskSave s2 task2) hsync

theorem pendingNodup_tasksDelete {E : Engine} {s : Store} (hs : s.PendingNodup)
    (id : String) : (tasksDelete E s id).2.PendingNodup := by
  unfold tasksDelete
  by_cases h1 : E.isValid id = false
  · rw [if_pos h1]; exact hs
  rw [if_neg h1]
  cases hT : Task.findById s id with
  | none => exact hs
  | some T =>
    dsimp only
    by_cases h2 : T.assignedUser ≠ ""
    · rw [if_pos h2]
      by_cases h3 : E.isValid T.assignedUser = false
      · rw [if_pos h3]; exact hs
      rw [if_neg h3]
      cases hu : User.findById s T.assignedUser with
      | none => exact pendingNodup_of_users (users_taskDeleteOne s T) hs
      | some u =>
        exact pendingNodup_of_users (users_taskDeleteOne _ T)
          (pendingNodup_userSave hs ((hs u (findUser_mem hu)).filter _))
    · rw [if_neg h2]
      exact pendingNodup_of_users (users_taskDeleteOne s T) hs

theorem pendingNodup_usersPost {E : Engine} {s : Store} (hs : s.PendingNodup)
    (hnodup : (s.tasks.map Task.id).Nodup) (newId : String) (body : UserBody) :
    (usersPost E s newId body).2.PendingNodup := by
  unfold usersPost
  dsimp only
  by_cases h1 : truthy body.name = false ∨ truthy body.email = false
  · rw [if_pos h1]; exact hs
  rw [if_neg h1]
  by_cases h2 : (User.findOne s (body.email.getD "")).isSome = true
  · rw [if_pos h2]; exact hs
  rw [if_neg h2]
  cases hchk : checkPending E s (body.pendingTasks.getD []) "Failed to create user" with
  | some r0 => exact hs
  | none =>
    dsimp only
    have hL := (checkPending_none hnodup hchk).1
    have hs1 : (User.create s
        { id := newId, name := body.name.getD "", email := body.email.getD "",
          pendingTasks := body.pendingTasks.getD [] }).PendingNodup := by
      intro u hu
      unfold User.create at hu
      rcases List.mem_append.mp hu with h | h
      · exact hs u h
      · rw [List.mem_singleton.mp h]; exact hL
    split_ifs
    · exact pendingNodup_of_users (assignAll_users _ _ _ _) hs1
    · exact hs1

theorem pendingNodup_usersPut {E : Engine} {s : Store} (hs : s.PendingNodup)
    (id : String) (body : UserBody) : (usersPut E s id body).2.PendingNodup := by
  unfold usersPut
  by_cases h1 : E.isValid id = false
  · rw [if_pos h1]; exact hs
  rw [if_neg h1]
  dsimp only
  by_cases h2 : truthy body.name = false ∨ truthy body.email = false
  · rw [if_pos h2]; exact hs
  rw [if_neg h2]
  cases hU : User.findById s id with
  | none => exact hs
  | some U =>
    dsimp only
    by_cases h3 : body.email.getD "" ≠ U.email ∧ (User.findOne s (body.email.getD "")).isSome = true
    · rw [if_pos h3]; exact hs
    rw [if_neg h3]
    cases hchk : checkPending E s (body.pendingTasks.getD []) "Failed to update user" with
    | some r0 => exact hs
    | none =>
      dsimp only
      have hs1 : (User.save s { U with
          name := body.name.getD ""
          email := body.email.getD ""
          pendingTasks := newSet (body.pendingTasks.getD []) }).PendingNodup :=
        pendingNodup_userSave hs (newSet_nodup _)
      rw [unassignAll_guard, assignAll_guard]
      split_ifs
      · exact hs1
      · exact pendingNodup_of_users
          ((assignAll_users _ _ _ _).trans (unassignAll_users _ _ _)) hs1

theorem pendingNodup_usersDelete {E : Engine} {s : Store} (hs : s.PendingNodup)
    (id : String) : (usersDelete E s id).2.PendingNodup := by
  have hdel : ∀ (s1 : Store) (U : User), s1.users = s.users →
      (User.deleteOne s1 U).PendingNodup := by
    intro s1 U h1 u hu
    unfold User.deleteOne at hu
    rw [h1] at hu
    exact hs u (List.mem_of_mem_filter hu)
  unfold usersDelete
  by_cases h1 : E.isValid id = false
  · rw [if_pos h1]; exact hs
  rw [if_neg h1]
  cases hU : User.findById s id with
  | none => exact hs
  | some U =>
    dsimp only
    split_ifs
    · exact hs
    · exact hdel _ U (unassignAll_users _ _ _)
    · exact hdel s U rfl

/-- C14: in a store where every pending list is duplicate-free (task
identifiers being unique), every pending list is duplicate-free in the store
left by any of the six handlers, whatever the request and the reply. -/
theorem pending_lists_stay_duplicate_free (E : Engine) (s : Store) (hs : s.PendingNodup)
    (hnodup : (s.tasks.map Task.id).Nodup) :
    (∀ newId body, (tasksPost E s newId body).2.PendingNodup) ∧
      (∀ id body, (tasksPut E s id body).2.PendingNodup) ∧
      (∀ id, (tasksDelete E s id).2.PendingNodup) ∧
      (∀ newId body, (usersPost E s newId body).2.PendingNodup) ∧
      (∀ id body, (usersPut E s id body).2.PendingNodup) ∧
      (∀ id, (usersDelete E s id).2.PendingNodup) :=
  ⟨pendingNodup_tasksPost hs, pendingNodup_tasksPut hs, pendingNodup_tasksDelete hs,
    pendingNodup_usersPost hs hnodup, pendingNodup_usersPut hs, pendingNodup_usersDelete hs⟩

/-- Witness of C14: in `annBobStore`, a user create and a user update whose
pending list repeats `report` are rejected and leave the pending lists
duplicate-free; so does reassigning `report`. -/
theorem pending_lists_stay_duplicate_free_witness :
    annBobStore.PendingNodup ∧ (annBobStore.tasks.map Task.id).Nodup ∧
      (usersPost objectIdEngine annBobStore nobodyId reportTwice).1
        = Reply.fail "One or more task IDs do not exist" 400 ∧
      (usersPut objectIdEngine annBobStore bobId reportTwice).1
        = Reply.fail "One or more task IDs do not exist" 400 ∧
      (usersPost objectIdEngine annBobStore nobodyId reportTwice).2.PendingNodup ∧
      (usersPut objectIdEngine annBobStore bobId reportTwice).2.PendingNodup ∧
      (tasksPut objectIdEngine annBobStore reportId reassignReport).2.PendingNodup :=
  ⟨by decide, by decide, by decide, by decide,
    (pending_lists_stay_duplicate_free objectIdEngine annBobStore (by decide)
      (by decide)).2.2.2.1 nobodyId reportTwice,
    (pending_lists_stay_duplicate_free objectIdEngine annBobStore (by decide)
      (by decide)).2.2.2.2.1 bobId reportTwice,
    (pending_lists_stay_duplicate_free objectIdEngine annBobStore (by decide)
      (by decide)).2.1 reportId reassignReport⟩


/-! ## Effect of the task handlers on both collections -/

theorem tasksDelete_ok {E : Engine} {s s' : Store} {id : String} {r : Reply}
    (hrun : tasksDelete E s id = (r, s')) (hok : r.isOk = true) :
    ∃ T, Task.findById s id = some T ∧ E.isValid id = true ∧
      (T.assignedUser = "" ∨ E.isValid T.assignedUser = true) ∧
      s' = Task.deleteOne
        (match User.findById s T.assignedUser with
          | some user =>
            if T.assignedUser ≠ "" then
              User.save s { user with
                pendingTasks := user.pendingTasks.filter (fun tid => decide (tid ≠ T.id)) }
            else s
          | none => s) T := by
  unfold tasksDelete at hrun
  have hfail : ∀ (m : String) (c : Nat) (x : Store), (Reply.fail m c, x) = (r, s') → False := by
    intro m c x h
    have : r = Reply.fail m c := (Prod.mk.inj h).1.symm
    rw [this] at hok
    exact absurd hok (by simp [Reply.isOk])
  by_cases h1 : E.isValid id = false
  · rw [if_pos h1] at hrun; exact (hfail _ _ _ hrun).elim
  rw [if_neg h1] at hrun
  cases hT : Task.findById s id with
  | none => rw [hT] at hrun; exact (hfail _ _ _ hrun).elim
  | some T =>
    rw [hT] at hrun
    dsimp only at hrun
    refine ⟨T, rfl, by simpa using h1, ?_⟩
    by_cases h2 : T.assignedUser ≠ ""
    · rw [if_pos h2] at hrun
      by_cases h3 : E.isValid T.assignedUser = false
      · rw [if_pos h3] at hrun; exact (hfail _ _ _ hrun).elim
      rw [if_neg h3] at hrun
      refine ⟨Or.inr (by simpa using h3), ?_⟩
      cases hu : User.findById s T.assignedUser with
      | none => rw [hu] at hrun; exact (Prod.mk.inj hrun).2.symm
      | some u =>
        rw [hu] at hrun
        dsimp only
        rw [if_pos h2]
        exact (Prod.mk.inj hrun).2.symm
    · rw [if_neg h2] at hrun
      have h2' : T.assignedUser = "" := by simpa using h2
      refine ⟨Or.inl h2', ?_⟩
      cases hu : User.findById s T.assignedUser with
      | none => exact (Prod.mk.inj hrun).2.symm
      | some u =>
        dsimp only
        rw [if_neg h2]
        exact (Prod.mk.inj hrun).2.symm

/-- Both collections after a successful task delete, user identifiers being
unique: the task documents with the identifier are removed and its assignee
loses the identifier. -/
theorem tasksDelete_effect {E : Engine} {s s' : Store} {id : String} {r : Reply}
    (hu : (s.users.map User.id).Nodup)
    (hrun : tasksDelete E s id = (r, s')) (hok : r.isOk = true) :
    ∃ T, Task.findById s id = some T ∧
      s'.tasks = s.tasks.filter (fun x => decide (x.id ≠ id)) ∧
      s'.users = s.users.map (detachUser id T.assignedUser "") := by
  obtain ⟨T, hT, -, -, hs'⟩ := tasksDelete_ok hrun hok
  have hTid : T.id = id := findTask_id hT
  refine ⟨T, hT, ?_, ?_⟩
  · rw [hs']
    unfold Task.deleteOne
    dsimp only
    rw [hTid]
    cases hfind : User.findById s T.assignedUser with
    | none => rfl
    | some u =>
      dsimp only
      split_ifs <;> rfl
  · rw [hs', users_taskDeleteOne]
    by_cases h0 : T.assignedUser = ""
    · have hfun : detachUser id T.assignedUser "" = fun x => x := by
        funext x
        unfold detachUser
        rw [if_neg (fun h => h.2.1 h0)]
      rw [hfun, List.map_id']
      cases hfind : User.findById s T.assignedUser with
      | none => rfl
      | some u =>
        dsimp only
        rw [if_neg (by simpa using h0)]
    · have hfun : detachUser id T.assignedUser ""
          = fun x => if x.id = T.assignedUser then
              { x with pendingTasks := x.pendingTasks.filter (fun y => decide (y ≠ T.id)) }
            else x := by
        funext x
        unfold detachUser
        rw [hTid]
        by_cases hx : x.id = T.assignedUser
        · rw [if_pos ⟨hx, h0, h0⟩, if_pos hx]
        · rw [if_neg (fun e => hx e.1), if_neg hx]
      rw [hfun]
      cases hfind : User.findById s T.assignedUser with
      | none => exact (none_eq_map hfind _).symm
      | some u =>
        dsimp only
        rw [if_pos h0]
        exact save_eq_map hu hfind (fun l => l.filter (fun y => decide (y ≠ T.id)))

/-- What `syncUserPending` returns for a task whose assignee was resolved by
the handler, user identifiers being unique: the stored assignee is the
resolved one and the stored name is that user's name, or `unassigned`. -/
theorem syncUserPending_task {E : Engine} {s s2 : Store} {task task2 : Task}
    {prev : Option String} (hu : (s.users.map User.id).Nodup)
    (hres : task.assignedUser = "" ∨ ∃ u ∈ s.users, u.id = task.assignedUser)
    (h : syncUserPending E s task prev = .done s2 task2) :
    task2 = { task with assignedUserName := task2.assignedUserName } ∧
      (task.assignedUser = "" → task2.assignedUserName = "unassigned") ∧
      (∀ u ∈ s.users, u.id = task.assignedUser → task.assignedUser ≠ "" →
        task2.assignedUserName = u.name) := by
  obtain ⟨s1, hd, ha⟩ := syncUserPending_done h
  by_cases h0 : task.assignedUser = ""
  · rw [attachNew_unassigned E s1 task h0] at ha
    cases ha
    exact ⟨rfl, fun _ => rfl, fun _ _ _ hne => absurd h0 hne⟩
  · obtain ⟨u0, hu0, hu0id⟩ := hres.resolve_left h0
    have h1 := detachPrev_users hu hd
    have hu1 : (s1.users.map User.id).Nodup := by
      rw [h1, map_ids (detachUser_id _ _ _)]
      exact hu
    have hmem1 : detachUser task.id (prev.getD "") task.assignedUser u0 ∈ s1.users := by
      rw [h1]
      exact List.mem_map_of_mem _ hu0
    have hfind1 : User.findById s1 task.assignedUser
        = some (detachUser task.id (prev.getD "") task.assignedUser u0) := by
      unfold User.findById
      cases hf : s1.users.find? (fun u => decide (u.id = task.assignedUser)) with
      | none =>
        rw [List.find?_eq_none] at hf
        have := hf _ hmem1
        rw [detachUser_id, hu0id] at this
        exact absurd this (by simp)
      | some x =>
        have hx : x ∈ s1.users := List.mem_of_find?_eq_some hf
        have hxid : x.id = task.assignedUser := by simpa using List.find?_some hf
        have : x = detachUser task.id (prev.getD "") task.assignedUser u0 :=
          List.inj_on_of_nodup_map hu1 hx hmem1
            (by rw [hxid, detachUser_id, hu0id])
        rw [this]
    obtain ⟨htask2, -⟩ := attachNew_assigned ha h0 hfind1
    have hname : (detachUser task.id (prev.getD "") task.assignedUser u0).name = u0.name := by
      unfold detachUser
      split_ifs <;> rfl
    refine ⟨by rw [htask2], fun h => absurd h h0, ?_⟩
    intro u hum huid _
    have : u = u0 := List.inj_on_of_nodup_map hu hum hu0 (huid.trans hu0id.symm)
    rw [htask2, this]
    exact hname

theorem resolveAssignee_mem {E : Engine} {s : Store} {a : String} {bn : Option String}
    {nm : String} (h : resolveAssignee E s a bn = .ok nm) :
    a = "" ∨ ∃ u ∈ s.users, u.id = a := by
  rcases resolveAssignee_ok h with h0 | ⟨-, u, hu, -⟩
  · exact Or.inl h0
  · exact Or.inr ⟨u, findUser_mem hu, findUser_id hu⟩

/-- Both collections after a successful task update, user identifiers being
unique. -/
theorem tasksPut_effect {E : Engine} {s s' : Store} {id : String} {body : TaskBody}
    {r : Reply} (hu : (s.users.map User.id).Nodup)
    (hrun : tasksPut E s id body = (r, s')) (hok : r.isOk = true) :
    ∃ T task2, Task.findById s id = some T ∧ T.completed = false ∧
      task2.id = id ∧ task2.completed = body.completed.getD T.completed ∧
      task2.assignedUser = body.assignedUser.getD T.assignedUser ∧
      (task2.assignedUser = "" → task2.assignedUserName = "unassigned") ∧
      (∀ u ∈ s.users, u.id = task2.assignedUser → task2.assignedUser ≠ "" →
        task2.assignedUserName = u.name) ∧
      s'.tasks = s.tasks.map (fun x => if x.id = id then task2 else x) ∧
      s'.users = s.users.map (fun u =>
        attachUser id (body.completed.getD T.completed)
          (body.assignedUser.getD T.assignedUser)
          (detachUser id T.assignedUser (body.assignedUser.getD T.assignedUser) u)) := by
  obtain ⟨T, nm, s2, task2, hT, hTc, -, -, -, -, hres, hsync, -, hs'⟩ := tasksPut_ok hrun hok
  have hTid : T.id = id := findTask_id hT
  obtain ⟨s1, hd, ha⟩ := syncUserPending_done hsync
  obtain ⟨htask2, hn0, hnu⟩ := syncUserPending_task hu (resolveAssignee_mem hres) hsync
  have h2id : task2.id = id := by rw [htask2]; exact hTid
  have h2c : task2.completed = body.completed.getD T.completed := by rw [htask2]
  have h2a : task2.assignedUser = body.assignedUser.getD T.assignedUser := by rw [htask2]
  refine ⟨T, task2, hT, hTc, h2id, h2c, h2a, ?_, ?_, ?_, ?_⟩
  · intro h
    exact hn0 (h2a ▸ h)
  · intro u hum huid hne
    exact hnu u hum (huid.trans h2a) (h2a ▸ hne)
  · rw [hs']
    unfold Task.save
    dsimp only
    rw [(attachNew_tasks ha).trans (detachPrev_tasks hd), h2id]
  · rw [hs', users_taskSave, syncUserPending_users hu hsync]
    simp only [hTid, Option.getD_some]

/-- Both collections after a successful task create with an identifier that no
task document carries, user identifiers being unique. -/
theorem tasksPost_effect {E : Engine} {s s' : Store} {newId : String} {body : TaskBody}
    {r : Reply} (hu : (s.users.map User.id).Nodup) (hfresh : newId ∉ s.tasks.map Task.id)
    (hrun : tasksPost E s newId body = (r, s')) (hok : r.isOk = true) :
    ∃ task2, task2.id = newId ∧ task2.completed = decide (body.completed = some true) ∧
      task2.assignedUser = body.assignedUser.getD "" ∧
      (task2.assignedUser = "" → task2.assignedUserName = "unassigned") ∧
      (∀ u ∈ s.users, u.id = task2.assignedUser → task2.assignedUser ≠ "" →
        task2.assignedUserName = u.name) ∧
      s'.tasks = s.tasks ++ [task2] ∧
      s'.users = s.users.map (attachUser newId (decide (body.completed = some true))
        (body.assignedUser.getD "")) := by
  obtain ⟨nm, s2, task2, -, -, -, hres, hsync, -, hs'⟩ := tasksPost_ok hrun hok
  obtain ⟨s1, hd, ha⟩ := syncUserPending_done hsync
  obtain ⟨htask2, hn0, hnu⟩ := syncUserPending_task (s := Task.create s _) hu
    (resolveAssignee_mem hres) hsync
  have h2id : task2.id = newId := by rw [htask2]
  have h2a : task2.assignedUser = body.assignedUser.getD "" := by rw [htask2]
  refine ⟨task2, h2id, by rw [htask2], h2a, ?_, ?_, ?_, ?_⟩
  · intro h
    exact hn0 (h2a ▸ h)
  · intro u hum huid hne
    exact hnu u hum (huid.trans h2a) (h2a ▸ hne)
  · rw [hs']
    unfold Task.save
    dsimp only
    rw [(attachNew_tasks ha).trans (detachPrev_tasks hd)]
    unfold Task.create
    dsimp only
    rw [List.map_append, h2id]
    congr 1
    · conv_rhs => rw [← List.map_id s.tasks]
      apply List.map_congr_left
      intro x hx
      rw [if_neg]
      · rfl
      · exact fun e => hfresh (e ▸ List.mem_map_of_mem Task.id hx)
    · simp
  · rw [hs', users_taskSave, syncUserPending_users (s := Task.create s _) hu hsync]
    apply List.map_congr_left
    intro u _
    rw [show (none : Option String).getD "" = "" from rfl, detachUser_none]


/-! ## The task handlers preserve the bidirectional invariant -/

theorem mem_of_userFrame {tid prev next : String} {u u' : User}
    (h : UserFrame tid prev next u u') {x : String} (hx : x ≠ tid) :
    x ∈ u'.pendingTasks ↔ x ∈ u.pendingTasks := by
  have h4 := h.2.2.2.1
  have key : ∀ l : List String, x ∈ l.filter (fun y => decide (y ≠ tid)) ↔ x ∈ l := by
    intro l
    rw [List.mem_filter]
    simp [hx]
  rw [← key u'.pendingTasks, h4, key]

/-- The invariant carries over to a store whose tasks differ from the old
ones only at the identifier `tid`, whose users are the old ones changed within
the frame of `tid`, and whose task `tid`, if any, agrees with the pending
lists. -/
theorem bidirectional_of_effect {s s' : Store} {upd : User → User} {tid prev next : String}
    (hinv : s.Bidirectional) (husers : s'.users = s.users.map upd)
    (hframe : ∀ u, UserFrame tid prev next u (upd u))
    (H1 : ∀ t' ∈ s'.tasks, t'.id ≠ tid → t' ∈ s.tasks)
    (H2 : ∀ t ∈ s.tasks, t.id ≠ tid → t ∈ s'.tasks)
    (H3 : ∀ t' ∈ s'.tasks, t'.id = tid →
      (t'.assignedUser = "" → t'.assignedUserName = "unassigned") ∧
        ∀ u ∈ s.users, t'.completed = false → t'.assignedUser = u.id →
          tid ∈ (upd u).pendingTasks)
    (H4 : ∀ u ∈ s.users, tid ∈ (upd u).pendingTasks →
      ∃ t' ∈ s'.tasks, t'.id = tid ∧ t'.assignedUser = u.id ∧ t'.completed = false) :
    s'.Bidirectional := by
  obtain ⟨ha, hb, hc⟩ := hinv
  refine ⟨?_, ?_, ?_⟩
  · intro t' ht' u' hu' hcomp hassigned
    rw [husers, List.mem_map] at hu'
    obtain ⟨u, hu, rfl⟩ := hu'
    have hid := (hframe u).1
    rw [hid] at hassigned
    by_cases htid : t'.id = tid
    · rw [htid]
      exact (H3 t' ht' htid).2 u hu hcomp hassigned
    · rw [mem_of_userFrame (hframe u) htid]
      exact ha t' (H1 t' ht' htid) u hu hcomp hassigned
  · intro u' hu' x hx
    rw [husers, List.mem_map] at hu'
    obtain ⟨u, hu, rfl⟩ := hu'
    have hid := (hframe u).1
    rw [hid]
    by_cases hxt : x = tid
    · rw [hxt] at hx ⊢
      exact H4 u hu hx
    · rw [mem_of_userFrame (hframe u) hxt] at hx
      obtain ⟨t, ht, htx, htu, htc⟩ := hb u hu x hx
      exact ⟨t, H2 t ht (by rw [htx]; exact hxt), htx, htu, htc⟩
  · intro t' ht' h0
    by_cases htid : t'.id = tid
    · exact (H3 t' ht' htid).1 h0
    · exact hc t' (H1 t' ht' htid) h0

theorem mem_attachList_pending (tid : String) (l : List String) :
    tid ∈ attachList tid false l := by
  unfold attachList
  rw [if_pos rfl]
  split_ifs with h
  · exact h
  · exact List.mem_append_right _ (List.mem_singleton_self _)

theorem mem_attach_detach {tid prev next : String} {c : Bool} {u : User}
    (h : tid ∈ (attachUser tid c next (detachUser tid prev next u)).pendingTasks) :
    (u.id = next ∧ next ≠ "" ∧ c = false) ∨
      (tid ∈ u.pendingTasks ∧ ¬ (u.id = prev ∧ prev ≠ "" ∧ prev ≠ next) ∧
        ¬ (u.id = next ∧ next ≠ "")) := by
  have hnot : ∀ l : List String, tid ∉ l.filter (fun x => decide (x ≠ tid)) := by
    intro l hm
    rw [List.mem_filter] at hm
    simpa using hm.2
  unfold attachUser at h
  rw [detachUser_id] at h
  by_cases hA : u.id = next ∧ next ≠ ""
  · rw [if_pos hA] at h
    dsimp only at h
    cases c with
    | false => exact Or.inl ⟨hA.1, hA.2, rfl⟩
    | true =>
      unfold attachList at h
      rw [if_neg (by simp)] at h
      exact absurd h (hnot _)
  · rw [if_neg hA] at h
    unfold detachUser at h
    by_cases hD : u.id = prev ∧ prev ≠ "" ∧ prev ≠ next
    · rw [if_pos hD] at h
      exact absurd h (hnot _)
    · rw [if_neg hD] at h
      exact Or.inr ⟨h, hD, hA⟩

theorem mem_attach_of_assigned {tid prev next : String} {u : User}
    (hid : u.id = next) (hne : next ≠ "") :
    tid ∈ (attachUser tid false next (detachUser tid prev next u)).pendingTasks := by
  unfold attachUser
  rw [detachUser_id, if_pos ⟨hid, hne⟩]
  exact mem_attachList_pending tid _

theorem bidirectional_tasksPut {E : Engine} {s s' : Store} {id : String} {body : TaskBody}
    {r : Reply} (hinv : s.Bidirectional) (huniq : s.UniqueIds) (hids : s.UsersHaveIds)
    (hrun : tasksPut E s id body = (r, s')) (hok : r.isOk = true) : s'.Bidirectional := by
  obtain ⟨T, task2, hT, -, h2id, h2c, h2a, h2n, -, htasks, husers⟩ :=
    tasksPut_effect huniq.2 hrun hok
  have hTmem : T ∈ s.tasks := findTask_mem hT
  have hTid : T.id = id := findTask_id hT
  have hmem' : ∀ t', t' ∈ s'.tasks ↔ ∃ x ∈ s.tasks, (if x.id = id then task2 else x) = t' := by
    intro t'
    rw [htasks, List.mem_map]
  refine bidirectional_of_effect hinv husers
    (fun u => userFrame_trans (userFrame_detach id T.assignedUser _ u)
      (userFrame_attach id T.assignedUser _ _ _)) ?_ ?_ ?_ ?_
  · intro t' ht' hne
    obtain ⟨x, hx, rfl⟩ := (hmem' t').mp ht'
    by_cases hxid : x.id = id
    · rw [if_pos hxid] at hne
      exact absurd h2id hne
    · rw [if_neg hxid]
      exact hx
  · intro t ht hne
    exact (hmem' t).mpr ⟨t, ht, if_neg hne⟩
  · intro t' ht' hid'
    obtain ⟨x, hx, rfl⟩ := (hmem' t').mp ht'
    by_cases hxid : x.id = id
    · rw [if_pos hxid]
      refine ⟨h2n, ?_⟩
      intro u hu hcomp hassigned
      rw [h2c] at hcomp
      rw [hcomp]
      exact mem_attach_of_assigned (hassigned.symm.trans h2a)
        (by rw [← h2a, hassigned]; exact hids u hu)
    · rw [if_neg hxid] at hid'
      exact absurd hid' hxid
  · intro u hu hmem
    rcases mem_attach_detach hmem with ⟨hua, hane, hc⟩ | ⟨hold, hnd, hna⟩
    · exact ⟨task2, (hmem' task2).mpr ⟨T, hTmem, if_pos hTid⟩, h2id, h2a.trans hua.symm,
        h2c.trans hc⟩
    · exfalso
      obtain ⟨t, ht, htid, htu, -⟩ := hinv.2.1 u hu id hold
      have htT : t = T := eq_of_id_eq huniq.1 ht hTmem (htid.trans hTid.symm)
      rw [htT] at htu
      have hp : T.assignedUser ≠ "" := by rw [htu]; exact hids u hu
      have hpa : T.assignedUser = body.assignedUser.getD T.assignedUser := by
        by_contra hne
        exact hnd ⟨htu.symm, hp, hne⟩
      exact hna ⟨htu.symm.trans hpa, by rw [← hpa]; exact hp⟩

theorem bidirectional_tasksPost {E : Engine} {s s' : Store} {newId : String}
    {body : TaskBody} {r : Reply} (hinv : s.Bidirectional) (huniq : s.UniqueIds)
    (hids : s.UsersHaveIds) (hfresh : newId ∉ s.tasks.map Task.id)
    (hrun : tasksPost E s newId body = (r, s')) (hok : r.isOk = true) : s'.Bidirectional := by
  obtain ⟨task2, h2id, h2c, h2a, h2n, -, htasks, husers⟩ :=
    tasksPost_effect huniq.2 hfresh hrun hok
  have hnew : ∀ t ∈ s.tasks, t.id ≠ newId :=
    fun t ht e => hfresh (e ▸ List.mem_map_of_mem Task.id ht)
  refine bidirectional_of_effect hinv husers
    (fun u => userFrame_attach newId (body.assignedUser.getD "") _ _ u) ?_ ?_ ?_ ?_
  · intro t' ht' hne
    rw [htasks] at ht'
    rcases List.mem_append.mp ht' with h | h
    · exact h
    · rw [List.mem_singleton.mp h] at hne
      exact absurd h2id hne
  · intro t ht _
    rw [htasks]
    exact List.mem_append_left _ ht
  · intro t' ht' hid'
    rw [htasks] at ht'
    rcases List.mem_append.mp ht' with h | h
    · exact absurd hid' (hnew t' h)
    · rw [List.mem_singleton.mp h]
      refine ⟨h2n, ?_⟩
      intro u hu hcomp hassigned
      rw [h2c] at hcomp
      rw [hcomp]
      unfold attachUser
      rw [if_pos ⟨hassigned.symm.trans h2a, by rw [← h2a, hassigned]; exact hids u hu⟩]
      exact mem_attachList_pending newId _
  · intro u hu hmem
    unfold attachUser at hmem
    by_cases hA : u.id = body.assignedUser.getD "" ∧ body.assignedUser.getD "" ≠ ""
    · rw [if_pos hA] at hmem
      dsimp only at hmem
      cases hc : decide (body.completed = some true) with
      | false =>
        refine ⟨task2, ?_, h2id, h2a.trans hA.1.symm, h2c.trans hc⟩
        rw [htasks]
        exact List.mem_append_right _ (List.mem_singleton_self _)
      | true =>
        rw [hc] at hmem
        unfold attachList at hmem
        rw [if_neg (by simp), List.mem_filter] at hmem
        exact absurd hmem.2 (by simp)
    · rw [if_neg hA] at hmem
      obtain ⟨t, ht, htid, -, -⟩ := hinv.2.1 u hu newId hmem
      exact absurd htid (hnew t ht)

theorem bidirectional_tasksDelete {E : Engine} {s s' : Store} {id : String} {r : Reply}
    (hinv : s.Bidirectional) (huniq : s.UniqueIds) (hids : s.UsersHaveIds)
    (hrun : tasksDelete E s id = (r, s')) (hok : r.isOk = true) : s'.Bidirectional := by
  obtain ⟨T, hT, htasks, husers⟩ := tasksDelete_effect huniq.2 hrun hok
  have hTmem : T ∈ s.tasks := findTask_mem hT
  have hTid : T.id = id := findTask_id hT
  have hmem' : ∀ t', t' ∈ s'.tasks ↔ t' ∈ s.tasks ∧ t'.id ≠ id := by
    intro t'
    rw [htasks, List.mem_filter]
    simp
  refine bidirectional_of_effect hinv husers
    (fun u => userFrame_detach id T.assignedUser "" u) ?_ ?_ ?_ ?_
  · intro t' ht' _
    exact ((hmem' t').mp ht').1
  · intro t ht hne
    exact (hmem' t).mpr ⟨ht, hne⟩
  · intro t' ht' hid'
    exact absurd hid' ((hmem' t').mp ht').2
  · intro u hu hmem
    exfalso
    unfold detachUser at hmem
    by_cases hD : u.id = T.assignedUser ∧ T.assignedUser ≠ "" ∧ T.assignedUser ≠ ""
    · rw [if_pos hD, List.mem_filter] at hmem
      exact absurd hmem.2 (by simp)
    · rw [if_neg hD] at hmem
      obtain ⟨t, ht, htid, htu, -⟩ := hinv.2.1 u hu id hmem
      have htT : t = T := eq_of_id_eq huniq.1 ht hTmem (htid.trans hTid.symm)
      rw [htT] at htu
      have hp : T.assignedUser ≠ "" := by rw [htu]; exact hids u hu
      exact hD ⟨htu.symm, hp, hp⟩

/-- The names agree in a store whose tasks differ from the old ones only at
the identifier `tid`, whose users are the old ones changed within the frame of
`tid`, and whose task `tid`, if any, carries the right name. -/
theorem namesAgree_of_effect {s s' : Store} {upd : User → User} {tid prev next : String}
    (hinv : s.NamesAgree) (husers : s'.users = s.users.map upd)
    (hframe : ∀ u, UserFrame tid prev next u (upd u))
    (H1 : ∀ t' ∈ s'.tasks, t'.id ≠ tid → t' ∈ s.tasks)
    (H3 : ∀ t' ∈ s'.tasks, t'.id = tid →
      (t'.assignedUser = "" → t'.assignedUserName = "unassigned") ∧
        ∀ u ∈ s.users, t'.assignedUser = u.id → t'.assignedUserName = u.name) :
    s'.NamesAgree := by
  intro t' ht'
  by_cases htid : t'.id = tid
  · refine ⟨(H3 t' ht' htid).1, ?_⟩
    intro u' hu' hassigned
    rw [husers, List.mem_map] at hu'
    obtain ⟨u, hu, rfl⟩ := hu'
    rw [(hframe u).1] at hassigned
    rw [(hframe u).2.1]
    exact (H3 t' ht' htid).2 u hu hassigned
  · have hold := hinv t' (H1 t' ht' htid)
    refine ⟨hold.1, ?_⟩
    intro u' hu' hassigned
    rw [husers, List.mem_map] at hu'
    obtain ⟨u, hu, rfl⟩ := hu'
    rw [(hframe u).1] at hassigned
    rw [(hframe u).2.1]
    exact hold.2 u hu hassigned

theorem namesAgree_tasksPut {E : Engine} {s s' : Store} {id : String} {body : TaskBody}
    {r : Reply} (hinv : s.NamesAgree) (huniq : s.UniqueIds) (hids : s.UsersHaveIds)
    (hrun : tasksPut E s id body = (r, s')) (hok : r.isOk = true) : s'.NamesAgree := by
  obtain ⟨T, task2, -, -, h2id, -, -, h2n, h2u, htasks, husers⟩ :=
    tasksPut_effect huniq.2 hrun hok
  have hmem' : ∀ t', t' ∈ s'.tasks ↔ ∃ x ∈ s.tasks, (if x.id = id then task2 else x) = t' := by
    intro t'
    rw [htasks, List.mem_map]
  refine namesAgree_of_effect hinv husers
    (fun u => userFrame_trans (userFrame_detach id T.assignedUser _ u)
      (userFrame_attach id T.assignedUser _ _ _)) ?_ ?_
  · intro t' ht' hne
    obtain ⟨x, hx, rfl⟩ := (hmem' t').mp ht'
    by_cases hxid : x.id = id
    · rw [if_pos hxid] at hne
      exact absurd h2id hne
    · rw [if_neg hxid]
      exact hx
  · intro t' ht' hid'
    obtain ⟨x, hx, rfl⟩ := (hmem' t').mp ht'
    by_cases hxid : x.id = id
    · rw [if_pos hxid]
      refine ⟨h2n, fun u hu hassigned => h2u u hu hassigned.symm ?_⟩
      rw [hassigned]
      exact hids u hu
    · rw [if_neg hxid] at hid'
      exact absurd hid' hxid

theorem namesAgree_tasksPost {E : Engine} {s s' : Store} {newId : String} {body : TaskBody}
    {r : Reply} (hinv : s.NamesAgree) (huniq : s.UniqueIds) (hids : s.UsersHaveIds)
    (hfresh : newId ∉ s.tasks.map Task.id)
    (hrun : tasksPost E s newId body = (r, s')) (hok : r.isOk = true) : s'.NamesAgree := by
  obtain ⟨task2, h2id, -, -, h2n, h2u, htasks, husers⟩ :=
    tasksPost_effect huniq.2 hfresh hrun hok
  have hnew : ∀ t ∈ s.tasks, t.id ≠ newId :=
    fun t ht e => hfresh (e ▸ List.mem_map_of_mem Task.id ht)
  refine namesAgree_of_effect hinv husers
    (fun u => userFrame_attach newId (body.assignedUser.getD "") _ _ u) ?_ ?_
  · intro t' ht' hne
    rw [htasks] at ht'
    rcases List.mem_append.mp ht' with h | h
    · exact h
    · rw [List.mem_singleton.mp h] at hne
      exact absurd h2id hne
  · intro t' ht' hid'
    rw [htasks] at ht'
    rcases List.mem_append.mp ht' with h | h
    · exact absurd hid' (hnew t' h)
    · rw [List.mem_singleton.mp h]
      refine ⟨h2n, fun u hu hassigned => h2u u hu hassigned.symm ?_⟩
      rw [hassigned]
      exact hids u hu

theorem namesAgree_tasksDelete {E : Engine} {s s' : Store} {id : String} {r : Reply}
    (hinv : s.NamesAgree) (huniq : s.UniqueIds)
    (hrun : tasksDelete E s id = (r, s')) (hok : r.isOk = true) : s'.NamesAgree := by
  obtain ⟨T, -, htasks, husers⟩ := tasksDelete_effect huniq.2 hrun hok
  have hmem' : ∀ t', t' ∈ s'.tasks ↔ t' ∈ s.tasks ∧ t'.id ≠ id := by
    intro t'
    rw [htasks, List.mem_filter]
    simp
  refine namesAgree_of_effect hinv husers
    (fun u => userFrame_detach id T.assignedUser "" u) ?_ ?_
  · intro t' ht' _
    exact ((hmem' t').mp ht').1
  · intro t' ht' hid'
    exact absurd hid' ((hmem' t').mp ht').2

theorem namesAgree_usersPost {E : Engine} {s s' : Store} {newId : String} {body : UserBody}
    {r : Reply} (hinv : s.NamesAgree) (huniq : s.UniqueIds)
    (hne : newId ≠ "") (hfresh : newId ∉ s.users.map User.id)
    (hunused : ∀ t ∈ s.tasks, t.assignedUser ≠ newId)
    (hrun : usersPost E s newId body = (r, s')) (hok : r.isOk = true) : s'.NamesAgree := by
  obtain ⟨husers, htasks, -, -⟩ := usersPost_effect huniq.1 hrun hok
  intro t' ht'
  rw [htasks, List.mem_map] at ht'
  obtain ⟨t, ht, rfl⟩ := ht'
  have hu' : ∀ u', u' ∈ s'.users ↔ u' ∈ s.users ∨
      u' = { id := newId, name := body.name.getD "", email := body.email.getD "",
             pendingTasks := body.pendingTasks.getD [] } := by
    intro u'
    rw [husers, List.mem_append, List.mem_singleton]
  by_cases hin : t.id ∈ body.pendingTasks.getD []
  · rw [if_pos hin]
    refine ⟨fun h => absurd h hne, ?_⟩
    intro u hu hassigned
    rcases (hu' u).mp hu with h | h
    · have hid : newId = u.id := hassigned
      exact absurd (hid ▸ List.mem_map_of_mem User.id h) hfresh
    · rw [h]
  · rw [if_neg hin]
    refine ⟨(hinv t ht).1, ?_⟩
    intro u hu hassigned
    rcases (hu' u).mp hu with h | h
    · exact (hinv t ht).2 u h hassigned
    · rw [h] at hassigned
      exact absurd hassigned (hunused t ht)

theorem namesAgree_usersPut {E : Engine} {s s' : Store} {id : String} {body : UserBody}
    {r : Reply} {U : User} (hinv : s.NamesAgree) (huniq : s.UniqueIds)
    (hids : s.UsersHaveIds) (hU : User.findById s id = some U)
    (hname : body.name.getD "" = U.name)
    (hrun : usersPut E s id body = (r, s')) (hok : r.isOk = true) : s'.NamesAgree := by
  obtain ⟨husers, htasks, -, -⟩ := usersPut_effect huniq.1 hU hrun hok
  have hUmem : U ∈ s.users := findUser_mem hU
  have hUid : U.id = id := findUser_id hU
  have hidne : id ≠ "" := hUid ▸ hids U hUmem
  -- every user document keeps its identifier and its name
  have hkeep : ∀ u' ∈ s'.users, ∃ x ∈ s.users, u'.id = x.id ∧ u'.name = x.name := by
    intro u' hu'
    rw [husers, List.mem_map] at hu'
    obtain ⟨x, hx, rfl⟩ := hu'
    refine ⟨x, hx, ?_⟩
    by_cases hxid : x.id = id
    · rw [if_pos hxid]
      have hxU : x = U := List.inj_on_of_nodup_map huniq.2 hx hUmem (hxid.trans hUid.symm)
      rw [hxU]
      exact ⟨rfl, hname⟩
    · rw [if_neg hxid]
      exact ⟨rfl, rfl⟩
  intro t' ht'
  rw [htasks, List.mem_map] at ht'
  obtain ⟨t, ht, rfl⟩ := ht'
  by_cases hA : t.id ∈ body.pendingTasks.getD [] ∧ t.id ∉ U.pendingTasks
  · rw [if_pos hA]
    refine ⟨fun h => absurd h hidne, ?_⟩
    intro u' hu' hassigned
    obtain ⟨x, hx, hxid, hxname⟩ := hkeep u' hu'
    have hxU : x = U :=
      List.inj_on_of_nodup_map huniq.2 hx hUmem ((hxid.symm.trans hassigned.symm).trans hUid.symm)
    rw [hxname, hxU]
    exact hname
  · rw [if_neg hA]
    by_cases hR : t.id ∈ U.pendingTasks ∧ t.id ∉ body.pendingTasks.getD [] ∧ t.assignedUser = id
    · rw [if_pos hR]
      refine ⟨fun _ => rfl, ?_⟩
      intro u' hu' hassigned
      obtain ⟨x, hx, hxid, -⟩ := hkeep u' hu'
      exact absurd (hxid.symm.trans hassigned.symm) (hids x hx)
    · rw [if_neg hR]
      refine ⟨(hinv t ht).1, ?_⟩
      intro u' hu' hassigned
      obtain ⟨x, hx, hxid, hxname⟩ := hkeep u' hu'
      rw [hxname]
      exact (hinv t ht).2 x hx (hassigned.trans hxid)

theorem namesAgree_usersDelete {E : Engine} {s s' : Store} {id : String} {r : Reply}
    (hinv : s.NamesAgree) (huniq : s.UniqueIds) (hids : s.UsersHaveIds)
    (hrun : usersDelete E s id = (r, s')) (hok : r.isOk = true) : s'.NamesAgree := by
  obtain ⟨U, hU, -, -, -⟩ := usersDelete_ok hrun hok
  obtain ⟨husers, htasks⟩ := usersDelete_effect huniq.1 hU hrun hok
  intro t' ht'
  rw [htasks, List.mem_map] at ht'
  obtain ⟨t, ht, rfl⟩ := ht'
  have hsub : ∀ u ∈ s'.users, u ∈ s.users := by
    intro u hu
    rw [husers] at hu
    exact List.mem_of_mem_filter hu
  by_cases hR : t.id ∈ U.pendingTasks ∧ t.assignedUser = id
  · rw [if_pos hR]
    exact ⟨fun _ => rfl, fun u hu hassigned => absurd hassigned.symm (hids u (hsub u hu))⟩
  · rw [if_neg hR]
    exact ⟨(hinv t ht).1, fun u hu hassigned => (hinv t ht).2 u (hsub u hu) hassigned⟩

theorem detachWrites_replay {E : Engine} {s s1 : Store} {task : Task} {prev : Option String}
    (h : detachPrev E s task prev = some s1) :
    (detachWrites E s task prev).foldl Write.apply s = s1 := by
  unfold detachPrev at h
  unfold detachWrites
  dsimp only at h ⊢
  by_cases h1 : truthy prev = true ∧ prev ≠ some task.assignedUser
  · rw [if_pos h1] at h ⊢
    by_cases h2 : E.isValid (prev.getD "") = true
    · rw [if_pos h2] at h ⊢
      cases hu : User.findById s (prev.getD "") with
      | none => rw [hu] at h; cases h; rfl
      | some pu => rw [hu] at h; cases h; rfl
    · rw [if_neg h2] at h; cases h
  · rw [if_neg h1] at h ⊢
    cases h; rfl

theorem attachWrites_replay (E : Engine) (s1 : Store) (task : Task) :
    (attachWrites E s1 task).foldl Write.apply s1 = (attachNew E s1 task).store := by
  unfold attachWrites attachNew
  dsimp only
  by_cases h1 : task.assignedUser ≠ ""
  · rw [if_pos h1, if_pos h1]
    by_cases h2 : E.isValid task.assignedUser = true
    · rw [if_pos h2, if_pos h2]
      cases hu : User.findById s1 task.assignedUser with
      | none => rfl
      | some u =>
        dsimp only [SyncResult.store]
        rw [List.foldl_append]
        by_cases hA : decide (task.completed = false) = true ∧
            decide (task.id ∈ u.pendingTasks) = false
        · by_cases hB : decide (task.completed = false) = false ∧
              decide (task.id ∈ u.pendingTasks) = true
          · rw [hA.1] at hB
            exact absurd hB.1 (by simp)
          · simp [hA.1, hA.2, Write.apply]
        · by_cases hB : decide (task.completed = false) = false ∧
              decide (task.id ∈ u.pendingTasks) = true
          · simp [hB.1, hB.2, Write.apply]
          · simp only [hA, hB, if_false, List.foldl_nil]
    · rw [if_neg h2, if_neg h2]; rfl
  · rw [if_neg h1, if_neg h1]; rfl

/-- Replaying the writes of `syncUserPending` on the initial store gives the
store it leaves. -/
theorem syncWrites_replay (E : Engine) (s : Store) (task : Task) (prev : Option String) :
    (syncWrites E s task prev).foldl Write.apply s = (syncUserPending E s task prev).store := by
  unfold syncWrites syncUserPending
  cases hd : detachPrev E s task prev with
  | none => rfl
  | some s1 =>
    dsimp only
    rw [List.foldl_append, detachWrites_replay hd, attachWrites_replay]

/-- Replaying the writes of a task update on the initial store gives the store
the handler leaves. -/
theorem tasksPutWrites_replay (E : Engine) (s : Store) (id : String) (body : TaskBody) :
    (tasksPutWrites E s id body).foldl Write.apply s = (tasksPut E s id body).2 := by
  unfold tasksPutWrites tasksPut
  by_cases h1 : E.isValid id = false
  · rw [if_pos h1, if_pos h1]; rfl
  rw [if_neg h1, if_neg h1]
  by_cases h2 : truthy body.name = false ∨ truthy body.deadline = false
  · rw [if_pos h2, if_pos h2]; rfl
  rw [if_neg h2, if_neg h2]
  dsimp only
  cases hT : Task.findById s id with
  | none => rfl
  | some T =>
    dsimp only
    by_cases h3 : T.completed = true
    · rw [if_pos h3, if_pos h3]; rfl
    rw [if_neg h3, if_neg h3]
    cases hres : resolveAssignee E s (body.assignedUser.getD T.assignedUser)
        body.assignedUserName with
    | error r0 => rfl
    | ok nm =>
      dsimp only
      have hreplay := syncWrites_replay E s
        { T with
          name := body.name.getD ""
          description := body.description.getD ""
          deadline := body.deadline.getD ""
          completed := body.completed.getD T.completed
          assignedUser := body.assignedUser.getD T.assignedUser
          assignedUserName := nm } (some T.assignedUser)
      cases hr : syncUserPending E s
          { T with
            name := body.name.getD ""
            description := body.description.getD ""
            deadline := body.deadline.getD ""
            completed := body.completed.getD T.completed
            assignedUser := body.assignedUser.getD T.assignedUser
            assignedUserName := nm } (some T.assignedUser) with
      | thrown sx =>
        rw [hr] at hreplay
        exact hreplay
      | done s2 task2 =>
        rw [hr] at hreplay
        dsimp only
        by_cases h4 : E.validDeadline (body.deadline.getD "") = false
        · rw [if_pos h4, if_pos h4]
          exact hreplay
        · rw [if_neg h4, if_neg h4, List.foldl_append, hreplay]
          rfl
theorem detachPrev_valid {E : Engine} {s s1 : Store} {task : Task} {prev : String}
    (h : detachPrev E s task (some prev) = some s1)
    (h1 : prev ≠ "") (h2 : prev ≠ task.assignedUser) : E.isValid prev = true := by
  by_cases hv : E.isValid prev = true
  · exact hv
  · unfold detachPrev at h
    simp [truthy, h1, h2, hv] at h

theorem attachNew_valid {E : Engine} {s1 s2 : Store} {task task2 : Task}
    (h : attachNew E s1 task = .done s2 task2) (hne : task.assignedUser ≠ "") :
    E.isValid task.assignedUser = true := by
  by_cases hv : E.isValid task.assignedUser = true
  · exact hv
  · unfold attachNew at h
    simp [hne, hv] at h

/-- The writes of a successful task update are those of `syncUserPending`
followed by the save of the task. -/
theorem tasksPutWrites_ok {E : Engine} {s s' : Store} {id : String} {body : TaskBody}
    {r : Reply} (hrun : tasksPut E s id body = (r, s')) (hok : r.isOk = true) :
    ∃ T nm s1 task2, Task.findById s id = some T ∧
      syncUserPending E s
        { T with
          name := body.name.getD ""
          description := body.description.getD ""
          deadline := body.deadline.getD ""
          completed := body.completed.getD T.completed
          assignedUser := body.assignedUser.getD T.assignedUser
          assignedUserName := nm } (some T.assignedUser) = .done s1 task2 ∧
      s' = Task.save s1 task2 ∧
      tasksPutWrites E s id body
        = syncWrites E s
            { T with
              name := body.name.getD ""
              description := body.description.getD ""
              deadline := body.deadline.getD ""
              completed := body.completed.getD T.completed
              assignedUser := body.assignedUser.getD T.assignedUser
              assignedUserName := nm } (some T.assignedUser) ++ [.taskSave task2] := by
  obtain ⟨T, nm, s1, task2, hT, hTc, hv, hn, hd, hvd, hres, hsync, -, hs'⟩ :=
    tasksPut_ok hrun hok
  refine ⟨T, nm, s1, task2, hT, hsync, hs', ?_⟩
  unfold tasksPutWrites
  rw [if_neg (by simp [hv]), if_neg (by simp [hn, hd])]
  dsimp only
  rw [hT]
  dsimp only
  rw [if_neg (by simp [hTc]), hres]
  dsimp only
  rw [hsync]
  dsimp only
  rw [if_neg (by simp [hvd])]

/-- The writes of `syncUserPending` when an incomplete task moves from `U1`
to `U2`, whose list does not hold it yet. -/
theorem syncWrites_reassign {E : Engine} {s s2 : Store} {task task2 : Task} {prev : String}
    {U1 U2 : User} (hsync : syncUserPending E s task (some prev) = .done s2 task2)
    (h1 : prev ≠ "") (h2 : prev ≠ task.assignedUser) (hU1 : User.findById s prev = some U1)
    (hne : task.assignedUser ≠ "") (hU2 : User.findById s task.assignedUser = some U2)
    (hc : task.completed = false) (hnot : task.id ∉ U2.pendingTasks) :
    syncWrites E s task (some prev)
      = [.userSave { U1 with
            pendingTasks := U1.pendingTasks.filter (fun tid => decide (tid ≠ task.id)) },
          .userSave { U2 with pendingTasks := U2.pendingTasks ++ [task.id] }] := by
  obtain ⟨s1, hd, ha⟩ := syncUserPending_done hsync
  have hv1 := detachPrev_valid hd h1 h2
  have hv2 := attachNew_valid ha hne
  have hU2s1 : User.findById s1 task.assignedUser = some U2 := by
    rw [detachPrev_findById hd]
    have : ¬ task.assignedUser = prev := fun e => h2 e.symm
    simp [this, hU2]
  unfold syncWrites
  rw [hd]
  dsimp only
  unfold detachWrites attachWrites
  simp [truthy, h1, h2, hv1, hv2, hU1, hU2s1, hne, hc, hnot]
theorem mem_userSave {s : Store} {u v : User} (h : v ∈ (User.save s u).users) :
    ∃ x ∈ s.users, v = if x.id = u.id then u else x := by
  unfold User.save at h
  obtain ⟨x, hx, hv⟩ := List.mem_map.mp h
  exact ⟨x, hx, hv.symm⟩

/-- C18: the writes of a successful update that reassigns the task `T` from
`U1` to a different user `U2`, from a store where only users with `U1`'s
identifier hold `T` in their pending list, are in order: the save of `U1`
without `T`, the save of `U2` with `T` appended, the save of the task.
Replaying them gives the final store; in no store along the way does a user
with `U1`'s identifier and a user with `U2`'s identifier both hold `T`; and in
the final store only users with `U2`'s identifier hold it, and `U2` does. -/
theorem reassign_detaches_before_attaching (E : Engine) (s s' : Store) (id : String)
    (body : TaskBody) (r : Reply) (T : Task) (U1 U2 : User) (u2 : String)
    (hT : Task.findById s id = some T)
    (hne : T.assignedUser ≠ "") (hU1 : User.findById s T.assignedUser = some U1)
    (hu2 : u2 ≠ "") (hU2 : User.findById s u2 = some U2) (hdiff : u2 ≠ T.assignedUser)
    (honly : ∀ u ∈ s.users, T.id ∈ u.pendingTasks → u.id = T.assignedUser)
    (hbody : body.assignedUser = some u2) (hcompl : body.completed ≠ some true)
    (hrun : tasksPut E s id body = (r, s')) (hok : r.isOk = true) :
    ∃ T', tasksPutWrites E s id body
        = [.userSave { U1 with
              pendingTasks := U1.pendingTasks.filter (fun tid => decide (tid ≠ T.id)) },
            .userSave { U2 with pendingTasks := U2.pendingTasks ++ [T.id] },
            .taskSave T'] ∧
      (tasksPutWrites E s id body).foldl Write.apply s = s' ∧
      (∀ st ∈ storesAlong s (tasksPutWrites E s id body), ∀ u ∈ st.users, ∀ v ∈ st.users,
        u.id = T.assignedUser → v.id = u2 →
          ¬ (T.id ∈ u.pendingTasks ∧ T.id ∈ v.pendingTasks)) ∧
      (∀ u ∈ s'.users, T.id ∈ u.pendingTasks → u.id = u2) ∧
      (∃ b, User.findById s' u2 = some b ∧ T.id ∈ b.pendingTasks) := by
  have hreplay := tasksPutWrites_replay E s id body
  rw [hrun] at hreplay
  obtain ⟨T0, nm, s2, task2, hT0, hsync, -, hw⟩ := tasksPutWrites_ok hrun hok
  obtain ⟨T1, -, -, -, hT1, hTc, -⟩ := tasksPut_ok hrun hok
  rw [hT] at hT0 hT1
  cases hT0
  cases hT1
  simp only [hbody, Option.getD_some] at hsync hw
  have hcompleted : body.completed.getD T.completed = false := by
    cases hb : body.completed with
    | none => simpa using hTc
    | some c =>
      cases c with
      | false => rfl
      | true => exact absurd hb hcompl
  have hU1id : U1.id = T.assignedUser := findUser_id hU1
  have hU2id : U2.id = u2 := findUser_id hU2
  have hnot : T.id ∉ U2.pendingTasks := fun hin =>
    hdiff (hU2id.symm.trans (honly U2 (findUser_mem hU2) hin))
  have hdiff2 : T.assignedUser ≠ u2 := fun e => hdiff e.symm
  have hsw := syncWrites_reassign hsync hne hdiff2 hU1 hu2 hU2 hcompleted hnot
  dsimp only at hsw
  rw [hsw] at hw
  rw [hw] at hreplay
  simp only [List.cons_append, List.nil_append, List.foldl_cons, List.foldl_nil,
    Write.apply] at hreplay
  -- users of the stores along the way
  have hstep1 : ∀ v ∈ (User.save s { U1 with
      pendingTasks := U1.pendingTasks.filter (fun tid => decide (tid ≠ T.id)) }).users,
      T.id ∈ v.pendingTasks → False := by
    intro v hv hin
    obtain ⟨x, hx, rfl⟩ := mem_userSave hv
    by_cases hxid : x.id = U1.id
    · simp [hxid] at hin
    · have hxid2 : ¬ x.id = T.assignedUser := fun e => hxid (e.trans hU1id.symm)
      simp only [hxid] at hin
      exact hxid2 (honly x hx (by simpa using hin))
  have hstep2 : ∀ v ∈ (User.save (User.save s { U1 with
      pendingTasks := U1.pendingTasks.filter (fun tid => decide (tid ≠ T.id)) })
      { U2 with pendingTasks := U2.pendingTasks ++ [T.id] }).users,
      T.id ∈ v.pendingTasks → v.id = u2 := by
    intro v hv hin
    obtain ⟨y, hy, rfl⟩ := mem_userSave hv
    by_cases hyid : y.id = U2.id
    · simp only [hyid, if_true]
      exact hU2id
    · simp only [hyid, if_false] at hin
      exact (hstep1 y hy hin).elim
  refine ⟨task2, hw, by rw [tasksPutWrites_replay, hrun], ?_, ?_, ?_⟩
  · intro st hst u hu v hv huid hvid hboth
    rw [hw] at hst
    simp only [storesAlong, Write.apply, List.mem_cons, List.mem_singleton, List.mem_nil_iff,
      or_false] at hst
    rcases hst with rfl | rfl | rfl | rfl
    · exact hdiff (hvid.symm.trans (honly v hv hboth.2))
    · exact hstep1 v hv hboth.2
    · exact hdiff2 (huid.symm.trans (hstep2 u hu hboth.1))
    · exact hdiff2 (huid.symm.trans (hstep2 u hu hboth.1))
  · intro u hu hin
    rw [← hreplay] at hu
    exact hstep2 u hu hin
  · rw [← hreplay, findUser_taskSave, findUser_save, findUser_save]
    have h3 : ¬ u2 = U1.id := fun e => hdiff (e.trans hU1id)
    refine ⟨{ U2 with pendingTasks := U2.pendingTasks ++ [T.id] }, ?_, by simp⟩
    simp [hU2id, h3, hU2]

/-- Witness of C18: `report` moves from `ann` to `bob`. -/
theorem reassign_detaches_before_attaching_witness :
    Task.findById annBobStore reportId = some report ∧
      report.assignedUser ≠ "" ∧ User.findById annBobStore report.assignedUser = some ann ∧
      bobId ≠ "" ∧ User.findById annBobStore bobId = some bob ∧
      bobId ≠ report.assignedUser ∧
      (∀ u ∈ annBobStore.users, report.id ∈ u.pendingTasks → u.id = report.assignedUser) ∧
      report.id ∈ ann.pendingTasks ∧
      reassignReport.assignedUser = some bobId ∧ reassignReport.completed ≠ some true ∧
      (tasksPut objectIdEngine annBobStore reportId reassignReport).1.isOk = true ∧
      ∃ T', tasksPutWrites objectIdEngine annBobStore reportId reassignReport
          = [.userSave { ann with
                pendingTasks := ann.pendingTasks.filter (fun tid => decide (tid ≠ report.id)) },
              .userSave { bob with pendingTasks := bob.pendingTasks ++ [report.id] },
              .taskSave T'] ∧
        (tasksPutWrites objectIdEngine annBobStore reportId reassignReport).foldl
            Write.apply annBobStore
          = (tasksPut objectIdEngine annBobStore reportId reassignReport).2 ∧
        (∀ st ∈ storesAlong annBobStore
            (tasksPutWrites objectIdEngine annBobStore reportId reassignReport),
          ∀ u ∈ st.users, ∀ v ∈ st.users, u.id = report.assignedUser → v.id = bobId →
            ¬ (report.id ∈ u.pendingTasks ∧ report.id ∈ v.pendingTasks)) ∧
        (∀ u ∈ (tasksPut objectIdEngine annBobStore reportId reassignReport).2.users,
          report.id ∈ u.pendingTasks → u.id = bobId) ∧
        (∃ b, User.findById (tasksPut objectIdEngine annBobStore reportId reassignReport).2
            bobId = some b ∧ report.id ∈ b.pendingTasks) :=
  ⟨by decide, by decide, by decide, by decide, by decide, by decide, by decide, by decide,
    by decide, by decide, by decide,
    reassign_detaches_before_attaching objectIdEngine annBobStore
      (tasksPut objectIdEngine annBobStore reportId reassignReport).2 reportId reassignReport
      (tasksPut objectIdEngine annBobStore reportId reassignReport).1 report ann bob bobId
      (by decide) (by decide) (by decide) (by decide) (by decide) (by decide) (by decide)
      (by decide) (by decide) rfl (by decide)⟩

end MP3
